import Mathlib

set_option autoImplicit false

/-!
Verification of the metadata codec in `modules/metadata.py`.

The Python module converts generation-parameter metadata between the
free-form comma-separated "A1111" text convention and the structured
"Fooocus" JSON convention.  Strings are modelled as `List Char`
(`Str` below); Python dicts as insertion-ordered association lists
with last-write-wins update; Python exceptions as `Except Str`.
External collaborators (the style extractor, the content-hash
primitive, the installed model/LoRA filename lists, the
steps-to-performance table, the created-by configuration value) are
parameters of the embedded functions.
-/

namespace Metadata

abbrev Str := List Char

/-- Python `str.split(sub)` whitespace class (ASCII part): the characters
`\t`, `\n`, `\x0b`, `\x0c`, `\r` and space; used by `str.strip()` and the
regex class `\s`. -/
def isPySpace (c : Char) : Bool :=
  c = ' ' || c = '\t' || c = '\n' || c = '\r' || c = '\x0b' || c = '\x0c'

/-- Python `str.strip()` (left part). -/
def pyStripLeft (s : Str) : Str := s.dropWhile isPySpace

/-- Python `str.rstrip()`: drop whitespace from the right end only. -/
def pyStripRight (s : Str) : Str := (s.reverse.dropWhile isPySpace).reverse

/-- Python `str.strip()`: drop whitespace from both ends. -/
def pyStrip (s : Str) : Str :=
  ((s.dropWhile isPySpace).reverse.dropWhile isPySpace).reverse

/-- Python `str.split(c)` for a single-character separator: splits at every
occurrence, keeping empty pieces; `"".split(c) = [""]`. -/
def splitOnChar (sep : Char) : Str → List Str
  | [] => [[]]
  | c :: rest =>
    if c = sep then [] :: splitOnChar sep rest
    else
      match splitOnChar sep rest with
      | [] => [[c]]
      | h :: t => (c :: h) :: t

/-- Regex class `\w` (ASCII part, as used by the keys of the metadata
convention): letters, digits and underscore. -/
def isWordChar (c : Char) : Bool := c.isAlpha || c.isDigit || c = '_'

/-- Character class of a key character in `re_param_code`: a word
character, a space, a hyphen or a forward slash. -/
def isKeyChar (c : Char) : Bool := isWordChar c || c = ' ' || c = '-' || c = '/'

/-!
The scanner for `re_param_code`, the pattern
backslash-s-star (key group: word char, then one or more key chars),
colon, backslash-s-star, (value group: double-quoted string with
backslash escapes, or any run without commas), then a comma or
end of input.  It is
translated with the regex engine's backtracking resolved: the greedy
sub-matches of this particular pattern are deterministic.  The key run
is a maximal run of key characters; since `:` is not a key
character, shrinking the run can never make the following `:` match, so
the run is exactly the maximal one.  Likewise `\s*` is maximal (a key
starts with a word character, never whitespace), and the quoted
alternative of the value either matches up to the first unescaped `"`
or fails as a whole, in which case the engine falls back to `[^,]*`,
which always succeeds.  `re.findall` scanning is modelled by advancing
one character after a failed attempt and resuming after the consumed
separator comma of a successful one.
-/

/-- Scan the body of `"(?:\\.|[^\\"])+"` after the opening quote: returns the
raw consumed characters and the remainder after the closing quote.  A `\`
consumes the next character (which, as the regex `.`, must not be a
newline); an unescaped `"` closes. -/
def scanQContent : Str → Option (Str × Str)
  | [] => none
  | '"' :: r => some ([], r)
  | '\\' :: r =>
    match r with
    | [] => none
    | c :: r2 =>
      if c = '\n' then none
      else (scanQContent r2).map (fun p => ('\\' :: c :: p.1, p.2))
  | c :: r => (scanQContent r).map (fun p => (c :: p.1, p.2))

/-- Try the quoted alternative `"(?:\\.|[^\\"])+"` followed by `(?:,|$)`
starting at `v0`; on success return the matched group (quotes included)
and the remainder after the comma (when present). -/
def tryQuoted (v0 : Str) : Option (Str × Str) :=
  match v0 with
  | '"' :: r =>
    match scanQContent r with
    | some (cont, rem) =>
      if cont = [] then none
      else
        match rem with
        | ',' :: t => some ('"' :: cont ++ ['"'], t)
        | [] => some ('"' :: cont ++ ['"'], [])
        | _ => none
    | none => none
  | _ => none

/-- One anchored attempt of `re_param` at the start of `cs`: on success
return the two captured groups and the remainder of the input after the
match (the separating comma consumed). -/
def tryPair (cs : Str) : Option ((Str × Str) × Str) :=
  let cs1 := cs.dropWhile isPySpace
  match cs1 with
  | [] => none
  | c :: rest =>
    if isWordChar c then
      let keyTail := rest.takeWhile isKeyChar
      let afterKey := rest.dropWhile isKeyChar
      if keyTail = [] then none
      else
        match afterKey with
        | ':' :: afterColon =>
          let v0 := afterColon.dropWhile isPySpace
          match tryQuoted v0 with
          | some (qv, rest2) => some ((c :: keyTail, qv), rest2)
          | none =>
            let v := v0.takeWhile (fun d => d ≠ ',')
            let rest3 := v0.dropWhile (fun d => d ≠ ',')
            let rest4 := match rest3 with
              | ',' :: t => t
              | r => r
            some ((c :: keyTail, v), rest4)
        | _ => none
    else none

/-- Fuel-driven scanning loop of `re.findall(re_param, s)`: attempt a match
at the current position, otherwise advance one character. -/
def findParamsAux : Nat → Str → List (Str × Str)
  | 0, _ => []
  | fuel + 1, cs =>
    match tryPair cs with
    | some (p, rest) => p :: findParamsAux fuel rest
    | none =>
      match cs with
      | [] => []
      | _ :: t => findParamsAux fuel t

/-- `re.findall(re_param, s)`, returning the list of `(key, value)` groups. -/
def findParams (cs : Str) : List (Str × Str) :=
  findParamsAux (cs.length + 1) cs

/-- Shorthand to build a `Str` from a string literal. -/
def lit (s : String) : Str := s.toList

/-!  Python dict operations: a dict is an insertion-ordered association
list; assigning to an existing key updates the value in place, otherwise
the pair is appended. -/

/-- Python `d[k] = v`. -/
def setKey {β : Type} : List (Str × β) → Str → β → List (Str × β)
  | [], k, v => [(k, v)]
  | (k0, v0) :: t, k, v =>
    if k0 = k then (k, v) :: t else (k0, v0) :: setKey t k v

/-- Python `d[k]` / `k in d`, as an `Option`. -/
def lookupD {β : Type} : List (Str × β) → Str → Option β
  | [], _ => none
  | (k0, v0) :: t, k => if k0 = k then some v0 else lookupD t k

/-!  JSON string quoting.  Modelled from the spec: the values of the
parameter line are rendered as "quoted-value-if-containing-special-chars"
and parsing must "strip surrounding quotes if the value is quoted (undo
backslash-escaping)"; the repository realises this with `quote`/`unquote`
from `modules/util.py` (JSON string encoding via `json.dumps` /
`json.loads`), a file that is not part of `src/`. -/

/-- Whether `quote` applies JSON quoting: the value contains a comma, a
newline or a colon. -/
def needsQuote (v : Str) : Bool :=
  v.contains ',' || v.contains '\n' || v.contains ':'

/-- Lower-case hex digit of a value below 16. -/
def hexDig (n : Nat) : Char :=
  if n < 10 then Char.ofNat ('0'.toNat + n) else Char.ofNat ('a'.toNat + (n - 10))

/-- JSON string escaping of one character as `json.dumps` does (with
`ensure_ascii=False`): escape the quote, the backslash and control
characters; everything else is passed through. -/
def jsonEscapeChar (c : Char) : Str :=
  if c = '"' then ['\\', '"']
  else if c = '\\' then ['\\', '\\']
  else if c = '\n' then ['\\', 'n']
  else if c = '\t' then ['\\', 't']
  else if c = '\r' then ['\\', 'r']
  else if c = Char.ofNat 8 then ['\\', 'b']
  else if c = Char.ofNat 12 then ['\\', 'f']
  else if c.toNat < 32 then
    ['\\', 'u', '0', '0', hexDig (c.toNat / 16), hexDig (c.toNat % 16)]
  else [c]

/-- JSON string escaping of a whole string. -/
def jsonEscape : Str → Str
  | [] => []
  | c :: r => jsonEscapeChar c ++ jsonEscape r

/-- `json.dumps` of a string value. -/
def jsonDumps (v : Str) : Str := '"' :: jsonEscape v ++ ['"']

/-- Modelled from the spec: `quote` from `modules/util.py` (not in
`src/`) — return the value unchanged unless it contains a special
character, in which case JSON-encode it. -/
def quote (v : Str) : Str := if needsQuote v then jsonDumps v else v

/-- Decoding of a single-character JSON escape. -/
def decodeEsc (e : Char) : Option Char :=
  if e = '"' then some '"'
  else if e = '\\' then some '\\'
  else if e = '/' then some '/'
  else if e = 'b' then some (Char.ofNat 8)
  else if e = 'f' then some (Char.ofNat 12)
  else if e = 'n' then some '\n'
  else if e = 'r' then some '\r'
  else if e = 't' then some '\t'
  else none

/-- Hex digit value. -/
def hexVal (c : Char) : Option Nat :=
  if '0' ≤ c ∧ c ≤ '9' then some (c.toNat - '0'.toNat)
  else if 'a' ≤ c ∧ c ≤ 'f' then some (c.toNat - 'a'.toNat + 10)
  else if 'A' ≤ c ∧ c ≤ 'F' then some (c.toNat - 'A'.toNat + 10)
  else none

/-- Parse the body of a JSON string literal after the opening quote,
returning the decoded content and the remainder after the closing quote.
Strict mode: unescaped control characters are rejected.  (A lone
`\uXXXX` in the surrogate range decodes through `Char.ofNat`'s fallback;
the repository's metadata never contains surrogate escapes.) -/
def jsonStrContent : Str → Option (Str × Str)
  | [] => none
  | '"' :: r => some ([], r)
  | '\\' :: r =>
    match r with
    | [] => none
    | 'u' :: h1 :: h2 :: h3 :: h4 :: r2 =>
      match hexVal h1, hexVal h2, hexVal h3, hexVal h4 with
      | some a, some b, some c, some d =>
        (jsonStrContent r2).map
          (fun p => (Char.ofNat (((a * 16 + b) * 16 + c) * 16 + d) :: p.1, p.2))
      | _, _, _, _ => none
    | e :: r2 =>
      match decodeEsc e with
      | some c => (jsonStrContent r2).map (fun p => (c :: p.1, p.2))
      | none => none
  | c :: r =>
    if c.toNat < 32 then none
    else (jsonStrContent r).map (fun p => (c :: p.1, p.2))

/-- JSON whitespace accepted around a top-level value by `json.loads`. -/
def isJsonWs (c : Char) : Bool :=
  c = ' ' || c = '\t' || c = '\n' || c = '\r'

/-- `json.loads` restricted to a single string literal (which is the only
shape `unquote` can receive, given its surrounding-quote guard). -/
def jsonLoadsString (t : Str) : Option Str :=
  match t.dropWhile isJsonWs with
  | '"' :: r =>
    match jsonStrContent r with
    | some (s, rem) => if rem.all isJsonWs then some s else none
    | none => none
  | _ => none

/-- Modelled from the spec: `unquote` from `modules/util.py` (not in
`src/`) — if the text is not surrounded by double quotes return it
unchanged, otherwise try to JSON-decode it, returning the text unchanged
on failure. -/
def unquote (t : Str) : Str :=
  if t = [] ∨ t.head? ≠ some '"' ∨ t.getLast? ≠ some '"' then t
  else (jsonLoadsString t).getD t

/-- The anchored match of `re_imagesize`, the pattern: one or more digits,
the letter `x`, one or more digits, spanning the whole string; returns the
two digit groups. -/
def imagesizeMatch (v : Str) : Option (Str × Str) :=
  let d1 := v.takeWhile Char.isDigit
  let r1 := v.dropWhile Char.isDigit
  match r1 with
  | 'x' :: r2 =>
    if d1 ≠ [] ∧ r2 ≠ [] ∧ r2.all Char.isDigit then some (d1, r2) else none
  | _ => none

/-- Python `repr` of a string value, as produced by `str` on a tuple or
list of strings: single-quoted.  Faithful for strings without quotes,
backslashes or control characters — the regex groups stored this way
(digit runs, style names) satisfy that. -/
def pyReprStr (s : Str) : Str := '\'' :: s ++ ['\'']

/-- Python `str((w, h))` for a pair of strings. -/
def pyReprPair (w h : Str) : Str :=
  '(' :: pyReprStr w ++ ',' :: ' ' :: pyReprStr h ++ [')']

/-- Python `str(xs)` for a list of strings. -/
def pyReprStrList (xs : List Str) : Str :=
  '[' :: List.intercalate (lit ", ") (xs.map pyReprStr) ++ [']']

/-- Python `Path(p).stem`: the final path component without its suffix. -/
def pathStem (p : Str) : Str :=
  let name := ((splitOnChar '/' p).getLast?).getD []
  match name.reverse.findIdx? (fun c => c = '.') with
  | none => name
  | some j =>
    let i := name.length - 1 - j
    if 0 < i ∧ i < name.length - 1 then name.take i else name

/-- Python `int(s)` on a string: strip whitespace, optional sign, decimal
digits.  (Underscore digit grouping is not modelled; no metadata value
uses it.) -/
def pyParseInt (s : Str) : Option Int :=
  let t := pyStrip s
  let signDigits : Int × Str :=
    match t with
    | '+' :: r => (1, r)
    | '-' :: r => (-1, r)
    | r => (1, r)
  let digits := signDigits.2
  if digits ≠ [] ∧ digits.all Char.isDigit then
    some (signDigits.1 * (digits.foldl (fun acc c => acc * 10 + (c.toNat - '0'.toNat)) 0 : Nat))
  else none

/-- Decimal digit character. -/
def digitChar (n : Nat) : Char := Char.ofNat ('0'.toNat + n)

/-- Fuel-driven decimal rendering of a natural number. -/
def natToStrAux : Nat → Nat → Str
  | 0, _ => []
  | fuel + 1, n =>
    if n < 10 then [digitChar n]
    else natToStrAux fuel (n / 10) ++ [digitChar (n % 10)]

/-- Decimal rendering of a natural number. -/
def natToStr (n : Nat) : Str := natToStrAux (n + 1) n

/-- Decimal rendering of a Python int (an f-string `{n}`). -/
def intToStr (i : Int) : Str :=
  match i with
  | Int.ofNat n => natToStr n
  | Int.negSucc n => '-' :: natToStr (n + 1)

/-- Numeric value of a decimal digit string (used to invert `natToStr`). -/
def digitsVal (s : Str) : Nat :=
  s.foldl (fun acc c => acc * 10 + (c.toNat - '0'.toNat)) 0

/-- Python `list.remove(x)`: drop the first occurrence; `none` models the
`ValueError` raised when `x` is absent. -/
def removeFirst : List Str → Str → Option (List Str)
  | [], _ => none
  | x :: t, y => if x = y then some t else (removeFirst t y).map (fun r => x :: r)

/-- Fuel-driven Python `str.split(sep)` for a non-empty separator:
non-overlapping leftmost occurrences, empty pieces kept. -/
def splitSepAux (sep : Str) : Nat → Str → List Str
  | _, [] => [[]]
  | 0, s => [s]
  | fuel + 1, c :: rest =>
    if sep.isPrefixOf (c :: rest) then
      [] :: splitSepAux sep fuel ((c :: rest).drop sep.length)
    else
      match splitSepAux sep fuel rest with
      | [] => [[c]]
      | h :: t => (c :: h) :: t

/-- Python `s.split(sep)` for a non-empty separator. -/
def pySplit (sep s : Str) : List Str := splitSepAux sep (s.length + 1) s

/-- First filename whose `Path(...).stem` equals `stem` (the
`for filename in filenames: if stem == path.stem: ...; break` loops). -/
def findFile (files : List Str) (stem : Str) : Option Str :=
  files.find? (fun f => pathStem f == stem)

/-- Python string comparison (code-point lexicographic), used by
`sorted`. -/
def pyStrLt : Str → Str → Bool
  | [], [] => false
  | [], _ :: _ => true
  | _ :: _, [] => false
  | a :: s, b :: t =>
    if a.toNat < b.toNat then true
    else if b.toNat < a.toNat then false
    else pyStrLt s t

/-- Strict order on dict items by label, for `sorted(d.items())`.  The
labels of every sorted dict in this module are pairwise distinct, so the
tuple comparison never reaches the values. -/
def labelLt {β : Type} (a b : Str × β) : Prop := pyStrLt a.1 b.1 = true

instance {β : Type} : DecidableRel (labelLt (β := β)) :=
  fun _ _ => instDecidableEqBool _ _

/-- Python `dict(sorted(d.items()))` (stable insertion sort). -/
def sortByLabel {β : Type} (l : List (Str × β)) : List (Str × β) :=
  List.insertionSort labelLt l

/-- The fixed canonical-key/display-label table `fooocus_to_a1111` of
`A1111MetadataParser`, in source order. -/
def fooocusToA1111 : List (Str × Str) :=
  [(lit "negative_prompt", lit "Negative prompt"),
   (lit "styles", lit "Styles"),
   (lit "performance", lit "Performance"),
   (lit "steps", lit "Steps"),
   (lit "sampler", lit "Sampler"),
   (lit "guidance_scale", lit "CFG scale"),
   (lit "seed", lit "Seed"),
   (lit "resolution", lit "Size"),
   (lit "sharpness", lit "Sharpness"),
   (lit "adm_guidance", lit "ADM Guidance"),
   (lit "refiner_swap_method", lit "Refiner Swap Method"),
   (lit "adaptive_cfg", lit "Adaptive CFG"),
   (lit "overwrite_switch", lit "Overwrite Switch"),
   (lit "freeu", lit "FreeU"),
   (lit "base_model", lit "Model"),
   (lit "base_model_hash", lit "Model hash"),
   (lit "refiner_model", lit "Refiner"),
   (lit "refiner_model_hash", lit "Refiner hash"),
   (lit "lora_hashes", lit "Lora hashes"),
   (lit "lora_weights", lit "Lora weights"),
   (lit "created_by", lit "User"),
   (lit "version", lit "Version")]

/-- The canonical key of a display label:
`list(table.keys())[list(table.values()).index(k)]`; `none` models the
`ValueError` of `.index` for an unknown label (caught by the caller). -/
def labelToKey (label : Str) : Option Str :=
  (fooocusToA1111.find? (fun p => p.2 == label)).map (fun p => p.1)

/-- The display label of a canonical key (a `fooocus_to_a1111[key]`
lookup; total on the keys the source uses). -/
def keyToLabel (key : Str) : Str :=
  ((fooocusToA1111.find? (fun p => p.1 == key)).map (fun p => p.2)).getD []

/-- Per-invocation parser state of `MetadataParser.__init__` /
`set_data`.  `full_prompt` and `full_negative_prompt` are the values the
pipeline passes to `set_data` (sequences of prompt sections — the
serializer joins them with `', '.join`); LoRA triples are
(stem, weight, hash), with the weight kept as its rendered numeric
token. -/
structure ParserState where
  full_prompt : List Str
  full_negative_prompt : List Str
  steps : Int
  base_model_name : Str
  base_model_hash : Str
  refiner_model_name : Str
  refiner_model_hash : Str
  loras : List (Str × Str × Str)

namespace A1111MetadataParser

/-- The `Negative prompt:` line label. -/
def negLabel : Str := lit "Negative prompt:"

/-- One accumulation step `acc += ('' if acc == '' else "\n") + line`. -/
def appendLine (acc line : Str) : Str :=
  if acc = [] then line else acc ++ '\n' :: line

/-- The prompt/negative-prompt line loop of `parse_json` (state is
(prompt, negative_prompt, done_with_prompt)). -/
def promptLoop : Str × Str × Bool → List Str → Str × Str
  | (p, n, _), [] => (p, n)
  | (p, n, done), l :: rest =>
    let line := pyStrip l
    let hit := negLabel.isPrefixOf line
    let line' := if hit then pyStrip (line.drop negLabel.length) else line
    let done' := done || hit
    if done' then promptLoop (p, appendLine n line', done') rest
    else promptLoop (appendLine p line', n, done') rest

/-- Processing of one `(k, v)` pair of the parameter line (the body of the
`for k, v in re_param.findall(lastline)` loop).  The `try` block catches
every exception: an empty value (`v[0]` raises `IndexError`) and an
unknown label (`.index` raises `ValueError`) leave the dict unchanged. -/
def processParam (d : List (Str × Str)) (kv : Str × Str) : List (Str × Str) :=
  match kv.2 with
  | [] => d
  | c :: _ =>
    let v := if c = '"' ∧ kv.2.getLast? = some '"' then unquote kv.2 else kv.2
    match imagesizeMatch v with
    | some (w, h) => setKey d (lit "resolution") (pyReprPair w h)
    | none =>
      match labelToKey kv.1 with
      | some ck => setKey d ck v
      | none => d

/-- Performance fallback: when `steps` is present and `performance` absent,
derive the tier through the steps-to-performance table (the
`Performance[Steps(int(..)).name].value` lookup — a collaborator constant
from `modules/flags.py`, passed as `s2p`); any failure is swallowed. -/
def perfFromSteps (s2p : Int → Option Str) (d : List (Str × Str)) : List (Str × Str) :=
  match lookupD d (lit "steps"), lookupD d (lit "performance") with
  | some sv, none =>
    match pyParseInt sv with
    | some n =>
      match s2p n with
      | some pv => setKey d (lit "performance") pv
      | none => d
    | none => d
  | _, _ => d

/-- Resolution of a bare `base_model` stem against the known model
filename list (first stem match wins; no match leaves the value). -/
def resolveBaseModel (modelFs : List Str) (d : List (Str × Str)) : List (Str × Str) :=
  match lookupD d (lit "base_model") with
  | some bm =>
    match findFile modelFs bm with
    | some fn => setKey d (lit "base_model") fn
    | none => d
  | none => d

/-- The body of the `for li, lora in enumerate(...)` loop over the
entries of a `lora_hashes` value.  Each entry must split on `': '` into
exactly name, hash and weight — otherwise the tuple unpacking raises
`ValueError` (uncaught). -/
def loraEntriesLoop (lfs : List Str) :
    Nat → List Str → List (Str × Str) → Except Str (List (Str × Str))
  | _, [], d => .ok d
  | idx, entry :: rest, d =>
    match pySplit (lit ": ") entry with
    | [name, _hash, weight] =>
      let d' :=
        match findFile lfs name with
        | some fn =>
          setKey d (lit "lora_combined_" ++ natToStr idx) (fn ++ lit " : " ++ weight)
        | none => d
      loraEntriesLoop lfs (idx + 1) rest d'
    | _ => .error (lit "ValueError: not enough values to unpack")

/-- The `if 'lora_hashes' in data` block of `parse_json`:
`lora_filenames.remove(...)` raises `ValueError` when the reserved LoRA
is not in the list, and each entry is resolved by stem against the
remaining LoRA filenames. -/
def loraBlock (loraFs : List Str) (reserved : Str) (d : List (Str × Str)) :
    Except Str (List (Str × Str)) :=
  match lookupD d (lit "lora_hashes") with
  | none => .ok d
  | some lh =>
    match removeFirst loraFs reserved with
    | none => .error (lit "ValueError: list.remove(x): x not in list")
    | some lfs => loraEntriesLoop lfs 1 (pySplit (lit ", ") lh) d

/-- Everything of `A1111MetadataParser.parse_json` before the
`lora_hashes` block (which is the only part that can raise).
`extract` is the `extract_styles_from_prompt` collaborator
(returns (found_styles, prompt, negative_prompt)); `s2p` the
steps-to-performance table; `modelFs` the known model filenames. -/
def dataBeforeLora (extract : Str → Str → List Str × Str × Str)
    (s2p : Int → Option Str) (modelFs : List Str) (metadata : Str) :
    List (Str × Str) :=
  let allLines := splitOnChar '\n' (pyStrip metadata)
  let lines0 := allLines.dropLast
  let lastline0 := (allLines.getLast?).getD []
  let rewind := (findParams lastline0).length < 3
  let lines := if rewind then lines0 ++ [lastline0] else lines0
  let lastline := if rewind then [] else lastline0
  let pn := promptLoop ([], [], false) lines
  let es := extract pn.1 pn.2
  let data := [(lit "prompt", es.2.1), (lit "negative_prompt", es.2.2),
               (lit "styles", pyReprStrList es.1)]
  let data := (findParams lastline).foldl processParam data
  let data := perfFromSteps s2p data
  resolveBaseModel modelFs data

/-- `A1111MetadataParser.parse_json`.  The result is the data dict; an
`error` models an uncaught exception. -/
def parse_json (extract : Str → Str → List Str × Str × Str)
    (s2p : Int → Option Str) (modelFs loraFs : List Str) (reserved : Str)
    (metadata : Str) : Except Str (List (Str × Str)) :=
  loraBlock loraFs reserved (dataBeforeLora extract s2p modelFs metadata)

/-- The dict comprehension `{k: v for _, k, v in metadata}` over the
ordered entry list (later duplicates win, as in a Python dict build). -/
def entriesDict (metadata : List (Str × Str × Str)) : List (Str × Str) :=
  metadata.foldl (fun d t => setKey d t.2.1 t.2.2) []

/-- Python `data[k]`, raising `KeyError` when absent. -/
def req (d : List (Str × Str)) (k : Str) : Except Str Str :=
  match lookupD d k with
  | some v => .ok v
  | none => .error (lit "KeyError: " ++ k)

/-- The `eval(data['resolution'])` of `parse_string`, restricted to the
two shapes the pipeline stores there: a pair of single-quoted string
literals (as produced by `parse_json`) or a pair of bare integer
literals; anything else models an `eval`/unpacking failure. -/
def pyEvalPair (s : Str) : Option (Str × Str) :=
  match s with
  | '(' :: '\'' :: rest =>
    let w := rest.takeWhile (fun c => c ≠ '\'')
    (match rest.dropWhile (fun c => c ≠ '\'') with
     | '\'' :: ',' :: ' ' :: '\'' :: rest2 =>
       let h := rest2.takeWhile (fun c => c ≠ '\'')
       (match rest2.dropWhile (fun c => c ≠ '\'') with
        | ['\'', ')'] => some (w, h)
        | _ => none)
     | _ => none)
  | '(' :: rest =>
    let w := rest.takeWhile Char.isDigit
    (match rest.dropWhile Char.isDigit with
     | ',' :: ' ' :: rest2 =>
       let h := rest2.takeWhile Char.isDigit
       (match rest2.dropWhile Char.isDigit with
        | [')'] => if w ≠ [] ∧ h ≠ [] then some (w, h) else none
        | _ => none)
     | _ => none)
  | _ => none

/-- Rendering of one sorted parameter entry:
`k if k == v else f'{k}: {quote(v)}'`. -/
def renderPair (kv : Str × Str) : Str :=
  if kv.1 = kv.2 then kv.1 else kv.1 ++ ':' :: ' ' :: quote kv.2

/-- The conditionally-forwarded keys loop of `parse_string`
(`adaptive_cfg`, `overwrite_switch`, `refiner_swap_method`, `freeu`). -/
def optionalEntries (d : List (Str × Str)) : List (Str × Str) :=
  [lit "adaptive_cfg", lit "overwrite_switch",
   lit "refiner_swap_method", lit "freeu"].filterMap
    (fun k => (lookupD d k).map (fun v => (keyToLabel k, v)))

/-- The `name: hash: weight` LoRA summary string of `parse_string`. -/
def loraHashesString (loras : List (Str × Str × Str)) : Str :=
  List.intercalate (lit ", ")
    (loras.map (fun l => l.1 ++ lit ": " ++ l.2.2 ++ lit ": " ++ l.2.1))

/-- The generation-parameter label/value list of `parse_string`, in
insertion order (all labels are distinct, so the dict is this list).
`created_by` is the `modules.config.metadata_created_by` collaborator. -/
def generationParams (st : ParserState) (created_by : Str)
    (data : List (Str × Str)) (wh : Str × Str) (performance sampler seed
    guidance sharpness adm base_model version : Str) : List (Str × Str) :=
  [(lit "Performance", performance),
   (lit "Steps", intToStr st.steps),
   (lit "Sampler", sampler),
   (lit "Seed", seed),
   (lit "Size", wh.1 ++ 'x' :: wh.2),
   (lit "CFG scale", guidance),
   (lit "Sharpness", sharpness),
   (lit "ADM Guidance", adm),
   (lit "Model", pathStem base_model),
   (lit "Model hash", st.base_model_hash)]
  ++ (if st.refiner_model_name ≠ [] ∧ st.refiner_model_name ≠ lit "None" then
        [(lit "Refiner", st.refiner_model_name),
         (lit "Refiner hash", st.refiner_model_hash)]
      else [])
  ++ optionalEntries data
  ++ [(lit "Lora hashes", loraHashesString st.loras),
      (lit "Version", version)]
  ++ (if created_by ≠ [] then [(lit "User", created_by)] else [])

/-- The sorted, comma-joined parameter line of `parse_string`.  (The
`if v is not None` filter is the identity here: every value of the
parameter dict is a string in this model.) -/
def paramsLine (st : ParserState) (created_by : Str)
    (data : List (Str × Str)) : Except Str Str := do
  let resolution ← req data (lit "resolution")
  let wh ← match pyEvalPair resolution with
    | some wh => Except.ok wh
    | none => Except.error (lit "eval: unsupported resolution value")
  let performance ← req data (lit "performance")
  let sampler ← req data (lit "sampler")
  let seed ← req data (lit "seed")
  let guidance ← req data (lit "guidance_scale")
  let sharpness ← req data (lit "sharpness")
  let adm ← req data (lit "adm_guidance")
  let base_model ← req data (lit "base_model")
  let version ← req data (lit "version")
  let gp := generationParams st created_by data wh performance sampler seed
    guidance sharpness adm base_model version
  Except.ok (List.intercalate (lit ", ") ((sortByLabel gp).map renderPair))

/-- `A1111MetadataParser.parse_string`: the serializer.  The input is the
ordered (label, key, value) entry list; only the keys are used
(`data = {k: v for _, k, v in metadata}`). -/
def parse_string (st : ParserState) (created_by : Str)
    (metadata : List (Str × Str × Str)) : Except Str Str := do
  let data := entriesDict metadata
  let line ← paramsLine st created_by data
  let pos := List.intercalate (lit ", ") st.full_prompt
  let neg := List.intercalate (lit ", ") st.full_negative_prompt
  let negText := if neg ≠ [] then lit "\nNegative prompt: " ++ neg else []
  Except.ok (pyStrip (pos ++ negText ++ '\n' :: line))

end A1111MetadataParser

namespace FooocusMetadataParser

/-- `FooocusMetadataParser.replace_value_with_filename`.  Values are
`Option Str` (`none` is Python `None`).  Falling off the loop returns
Python `None`; a `lora_combined_*` value that does not split on `' : '`
into exactly two parts raises `ValueError` (and `None.split` raises
`AttributeError`) — but only when the filename list is non-empty, since
the split happens inside the loop. -/
def replace_value_with_filename (key : Str) (value : Option Str)
    (filenames : List Str) : Except Str (Option Str) :=
  match filenames with
  | [] => .ok none
  | f :: rest =>
    if (lit "lora_combined_").isPrefixOf key then
      match value with
      | none => .error (lit "AttributeError: split on None")
      | some v =>
        match pySplit (lit " : ") v with
        | [name, weight] =>
          if name = pathStem f then .ok (some (f ++ lit " : " ++ weight))
          else replace_value_with_filename key value rest
        | _ => .error (lit "ValueError: unpack")
    else
      if value = some (pathStem f) then .ok (some f)
      else replace_value_with_filename key value rest

/-- The `for key, value in metadata.items()` loop of
`FooocusMetadataParser.parse_json`: `items` is the original item
sequence, `d` the dict being updated in place. -/
def parseJsonLoop (modelFs lfs : List Str) :
    List (Str × Option Str) → List (Str × Option Str) →
    Except Str (List (Str × Option Str))
  | [], d => .ok d
  | (key, value) :: rest, d =>
    if value = some [] ∨ value = some (lit "None") then
      parseJsonLoop modelFs lfs rest d
    else if key = lit "base_model" ∨ key = lit "refiner_model" then
      match replace_value_with_filename key value modelFs with
      | .ok r => parseJsonLoop modelFs lfs rest (setKey d key r)
      | .error e => .error e
    else if (lit "lora_combined_").isPrefixOf key then
      match replace_value_with_filename key value lfs with
      | .ok r => parseJsonLoop modelFs lfs rest (setKey d key r)
      | .error e => .error e
    else parseJsonLoop modelFs lfs rest d

/-- `FooocusMetadataParser.parse_json`.  The loop assigns
`metadata[key] = ...` into its own argument: the returned mapping is the
caller's dict after the in-place mutation (the function returns
`metadata` itself).  `modelFs`/`loraFs`/`reserved` are the
`modules.config` filename collaborators; the reserved LoRA is removed
first and `list.remove` raises `ValueError` when it is absent. -/
def parse_json (modelFs loraFs : List Str) (reserved : Str)
    (metadata : List (Str × Option Str)) : Except Str (List (Str × Option Str)) :=
  match removeFirst loraFs reserved with
  | none => .error (lit "ValueError: list.remove(x): x not in list")
  | some lfs => parseJsonLoop modelFs lfs metadata metadata

/-- The `for li, (label, key, value) in enumerate(metadata)` loop of
`FooocusMetadataParser.parse_string`: `lora_combined_*` values are
rewritten in place to `stem : weight` (`metadata[li] = ...` mutates the
caller's list). -/
def stripLoraPaths : List (Str × Str × Str) → Except Str (List (Str × Str × Str))
  | [] => .ok []
  | (label, key, value) :: rest =>
    if (lit "lora_combined_").isPrefixOf key then
      match pySplit (lit " : ") value with
      | [name, weight] =>
        (stripLoraPaths rest).map
          (fun r => (label, key, pathStem name ++ lit " : " ++ weight) :: r)
      | _ => .error (lit "ValueError: unpack")
    else (stripLoraPaths rest).map (fun r => (label, key, value) :: r)

/-- JSON value for the Fooocus document: strings, ints, arrays, and raw
numeric tokens (modelling Python float reprs such as LoRA weights). -/
inductive JVal where
  | jstr (s : Str)
  | jint (n : Int)
  | jraw (s : Str)
  | jarr (xs : List JVal)

mutual

/-- Rendering of a JSON value as `json.dumps` does (default separators). -/
def renderJVal : JVal → Str
  | .jstr s => jsonDumps s
  | .jint n => intToStr n
  | .jraw s => s
  | .jarr xs => '[' :: List.intercalate (lit ", ") (renderJList xs) ++ [']']

/-- Rendering of a list of JSON values. -/
def renderJList : List JVal → List Str
  | [] => []
  | v :: t => renderJVal v :: renderJList t

end

/-- `json.dumps` of a string-keyed dict (already sorted). -/
def renderJDict (d : List (Str × JVal)) : Str :=
  lit "\x7b" ++
    List.intercalate (lit ", ")
      (d.map (fun kv => jsonDumps kv.1 ++ ':' :: ' ' :: renderJVal kv.2)) ++
  lit "\x7d"

/-- `FooocusMetadataParser.parse_string`: the serializer.  Returns the
rendered JSON document together with the final state of the caller's
entry list (which the loop mutated in place). -/
def parse_string (st : ParserState) (created_by : Str)
    (metadata : List (Str × Str × Str)) :
    Except Str (Str × List (Str × Str × Str)) := do
  let md ← stripLoraPaths metadata
  let res : List (Str × JVal) :=
    md.foldl (fun d t => setKey d t.2.1 (JVal.jstr t.2.2)) []
  let res := setKey res (lit "full_prompt") (JVal.jarr (st.full_prompt.map JVal.jstr))
  let res := setKey res (lit "full_negative_prompt")
    (JVal.jarr (st.full_negative_prompt.map JVal.jstr))
  let res := setKey res (lit "steps") (JVal.jint st.steps)
  let res := setKey res (lit "base_model") (JVal.jstr st.base_model_name)
  let res := setKey res (lit "base_model_hash") (JVal.jstr st.base_model_hash)
  let res :=
    if st.refiner_model_name ≠ [] ∧ st.refiner_model_name ≠ lit "None" then
      setKey (setKey res (lit "refiner_model") (JVal.jstr st.refiner_model_name))
        (lit "refiner_model_hash") (JVal.jstr st.refiner_model_hash)
    else res
  let res := setKey res (lit "loras")
    (JVal.jarr (st.loras.map (fun l => JVal.jarr [JVal.jstr l.1, JVal.jraw l.2.1, JVal.jstr l.2.2])))
  let res := if created_by ≠ [] then setKey res (lit "created_by") (JVal.jstr created_by) else res
  Except.ok (renderJDict (sortByLabel res), md)

end FooocusMetadataParser

/-- `get_sha256`: the memoizing hash cache.  `calcHash` is the
`calculate_sha256` collaborator; the result is the hash, the new cache
and whether the primitive was invoked. -/
def get_sha256 (calcHash : Str → Str) (cache : List (Str × Str)) (filepath : Str) :
    Str × List (Str × Str) × Bool :=
  match lookupD cache filepath with
  | some h => (h, cache, false)
  | none => (calcHash filepath, setKey cache filepath (calcHash filepath), true)

/-- A sequence of `get_sha256` calls: final cache and total number of
invocations of the hash primitive. -/
def getCalls (calcHash : Str → Str) (cache : List (Str × Str)) :
    List Str → List (Str × Str) × Nat
  | [] => (cache, 0)
  | p :: rest =>
    let r := get_sha256 calcHash cache p
    let rest2 := getCalls calcHash r.2.1 rest
    (rest2.1, (if r.2.2 then 1 else 0) + rest2.2)

/-- Modelled from the spec: the `MetadataScheme` enumerated tag of
`modules/flags.py` (not in `src/`), "one of \x7bA1111, FOOOCUS\x7d",
with the string values used in image metadata. -/
inductive MetadataScheme where
  | fooocus
  | a1111
  deriving DecidableEq, Repr

/-- `MetadataScheme(tag)` wrapped in the `try`/`except` of
`read_info_from_image`: an invalid or absent tag gives `None`. -/
def metadataSchemeOfTag : Option Str → Option MetadataScheme
  | some s =>
    if s = lit "fooocus" then some .fooocus
    else if s = lit "a1111" then some .a1111
    else none
  | none => none

/-- The scheme-detection tail of `read_info_from_image` (after the image
container I/O): `parameters` is the popped raw `parameters` field (PIL
text chunks are strings), `tag` the popped `fooocus_scheme` field, and
`is_json` the `modules.util.is_json` collaborator (true exactly when the
text decodes to a structured JSON mapping, after which `parameters`
holds a dict, otherwise it stays a string). -/
def readInfoScheme (is_json : Str → Bool) (parameters : Option Str)
    (tag : Option Str) : Option MetadataScheme :=
  let scheme := metadataSchemeOfTag tag
  let isDict := match parameters with
    | some s => is_json s
    | none => false
  let isStr := match parameters with
    | some s => !is_json s
    | none => false
  let scheme := if scheme.isNone && isDict then some .fooocus else scheme
  if scheme.isNone && isStr then some .a1111 else scheme

/-- A style extractor that never matches a style: it returns the prompts
unchanged with an empty style list (used to instantiate the
`extract_styles_from_prompt` collaborator on prompts without style
fragments). -/
def extractNone : Str → Str → List Str × Str × Str := fun p n => ([], p, n)

/-- A serializer state with a positive prompt that begins with
whitespace (concrete instance for the serializer-output claims). -/
def cexState : ParserState :=
  ParserState.mk [lit " cat"] [] 30 [] (lit "hh") [] [] []

/-- A complete concrete entry list for the A1111 serializer. -/
def cexEntries : List (Str × Str × Str) :=
  [([], lit "performance", lit "Speed"),
   ([], lit "sampler", lit "euler"),
   ([], lit "seed", lit "1"),
   ([], lit "resolution", pyReprPair (lit "640") (lit "480")),
   ([], lit "guidance_scale", lit "4"),
   ([], lit "sharpness", lit "2"),
   ([], lit "adm_guidance", lit "g"),
   ([], lit "base_model", lit "m"),
   ([], lit "version", lit "v")]

namespace FooocusMetadataParser

/-- Per-entry condition under which the `parse_json` loop cannot raise:
a non-skipped `lora_combined_*` entry must (when the LoRA filename list
is non-empty) hold a string splitting on `' : '` into exactly two
parts. -/
def entryNoRaise (lfs : List Str) (kv : Str × Option Str) : Prop :=
  (lit "lora_combined_").isPrefixOf kv.1 = true →
  kv.2 ≠ some [] → kv.2 ≠ some (lit "None") → lfs ≠ [] →
  ∃ vv, kv.2 = some vv ∧ (pySplit (lit " : ") vv).length = 2

/-- The value the `parse_json` loop writes for one entry (`some r` when
the key is assigned `r`, `none` when the entry is left untouched). -/
def entryUpdate (modelFs lfs : List Str) (kv : Str × Option Str) :
    Except Str (Option (Option Str)) :=
  if kv.2 = some [] ∨ kv.2 = some (lit "None") then .ok none
  else if kv.1 = lit "base_model" ∨ kv.1 = lit "refiner_model" then
    (replace_value_with_filename kv.1 kv.2 modelFs).map some
  else if (lit "lora_combined_").isPrefixOf kv.1 then
    (replace_value_with_filename kv.1 kv.2 lfs).map some
  else .ok none

/-- The in-place rewrite `parse_string` applies to one entry of its
input list: a `lora_combined_*` value `name : weight` becomes
`stem(name) : weight`. -/
def loraStripEntry (t : Str × Str × Str) : Str × Str × Str :=
  if (lit "lora_combined_").isPrefixOf t.2.1 then
    match pySplit (lit " : ") t.2.2 with
    | [name, weight] => (t.1, t.2.1, pathStem name ++ lit " : " ++ weight)
    | _ => t
  else t

end FooocusMetadataParser

/-- The canonical keys `parse_string` looks up unconditionally
(`data[...]`), in the spec's order. -/
def requiredKeys : List Str :=
  [lit "performance", lit "sampler", lit "seed", lit "resolution",
   lit "guidance_scale", lit "sharpness", lit "adm_guidance",
   lit "base_model", lit "version"]

/-! ### Round-trip infrastructure: value classes -/

/-- Characters whose `json.dumps` escape this model renders exactly
(printable characters and the classic short escapes). -/
def jsonSafe (v : Str) : Bool :=
  v.all (fun c => 32 ≤ c.toNat || c = '\n' || c = '\t' || c = '\r' ||
    c = Char.ofNat 8 || c = Char.ofNat 12)

/-- A key that the `re_param` grammar accepts: a word character followed
by at least one key character. -/
def goodKey (k : Str) : Bool :=
  match k with
  | [] => false
  | c :: rest => isWordChar c && !rest.isEmpty && rest.all isKeyChar

/-- A value whose rendered form scans back as itself: a value the
serializer JSON-quotes is safe as long as its characters are; an
unquoted value must not begin with whitespace or a quote nor end with
whitespace. -/
def goodScanVal (v : Str) : Bool :=
  if needsQuote v then jsonSafe v
  else
    match v with
    | [] => true
    | c :: _ =>
      !isPySpace c && !(c == '"') &&
        (match v.getLast? with
         | some d => !isPySpace d
         | none => true)

/-- The remainder after an optional separating comma (`(?:,|$)`). -/
def sepTail (r : Str) : Str :=
  match r with
  | ',' :: t => t
  | r => r

namespace A1111MetadataParser

/-- One `name: hash: weight` summary entry of a LoRA (stem, weight, hash)
triple, as `parse_string` renders it. -/
def entryString (l : Str × Str × Str) : Str :=
  l.1 ++ lit ": " ++ l.2.2 ++ lit ": " ++ l.2.1

/-- The `lora_combined_{i}` data key. -/
def loraKey (i : Nat) : Str := lit "lora_combined_" ++ natToStr i

/-- The entries the `lora_hashes` block appends to the data dict: key
`lora_combined_i`, value `filename : weight` with the filename resolved
by stem. -/
def loraPairs (resolve : Str → Str) : Nat → List (Str × Str × Str) →
    List (Str × Str)
  | _, [] => []
  | idx, l :: rest =>
    (loraKey idx, resolve l.1 ++ lit " : " ++ l.2.1) ::
      loraPairs resolve (idx + 1) rest

end A1111MetadataParser

/-- Well-formedness of a LoRA (stem, weight, hash) triple for the
round trip: every character of the three components is printable and is
neither a comma nor a colon. -/
def loraOk (l : Str × Str × Str) : Prop :=
  ∀ c ∈ l.1 ++ l.2.1 ++ l.2.2, 32 ≤ c.toNat ∧ c ≠ ',' ∧ c ≠ ':'

instance (l : Str × Str × Str) : Decidable (loraOk l) := by
  unfold loraOk
  infer_instance

/-- A value the parameter-line scanner and the per-pair processing map
back to itself when rendered under `label`. -/
def goodParamVal (label v : Str) : Prop :=
  goodScanVal v = true ∧ v ≠ [] ∧ v ≠ label ∧ imagesizeMatch v = none

instance (label v : Str) : Decidable (goodParamVal label v) := by
  unfold goodParamVal
  infer_instance

namespace A1111MetadataParser

/-- The sorted parameter pairs of the serialized text, in
`sorted(generation_params.items())` order. -/
def c1Pairs (st : ParserState)
    (w h vperf vsampler vseed vguid vsharp vadm bm vver : Str) :
    List (Str × Str) :=
  [(lit "ADM Guidance", vadm), (lit "CFG scale", vguid),
   (lit "Lora hashes", loraHashesString st.loras),
   (lit "Model", pathStem bm), (lit "Model hash", st.base_model_hash),
   (lit "Performance", vperf), (lit "Sampler", vsampler),
   (lit "Seed", vseed), (lit "Sharpness", vsharp),
   (lit "Size", w ++ 'x' :: h), (lit "Steps", intToStr st.steps),
   (lit "Version", vver)]

/-- The data dict `parse_json` builds from the serialized text, before
the `lora_combined_*` entries are appended. -/
def c1Dict (st : ParserState)
    (pos neg w h vperf vsampler vseed vguid vsharp vadm bm vver : Str) :
    List (Str × Str) :=
  [(lit "prompt", pos), (lit "negative_prompt", neg),
   (lit "styles", pyReprStrList ([] : List Str)),
   (lit "adm_guidance", vadm), (lit "guidance_scale", vguid),
   (lit "lora_hashes", loraHashesString st.loras),
   (lit "base_model", bm), (lit "base_model_hash", st.base_model_hash),
   (lit "performance", vperf), (lit "sampler", vsampler),
   (lit "seed", vseed), (lit "sharpness", vsharp),
   (lit "resolution", pyReprPair w h), (lit "steps", intToStr st.steps),
   (lit "version", vver)]

/-- Concrete parser state for the round-trip witness. -/
def c1WitnessState : ParserState :=
  ParserState.mk [lit "cat"] [lit "dog"] 30 (lit "mybm.safetensors")
    (lit "abcd1234") [] [] [(lit "myl", lit "0.5", lit "efgh5678")]

/-- Concrete data dict for the round-trip witness. -/
def c1WitnessData : List (Str × Str) :=
  [(lit "resolution", pyReprPair (lit "1024") (lit "768")),
   (lit "performance", lit "Speed"),
   (lit "sampler", lit "euler"),
   (lit "seed", lit "12345"),
   (lit "guidance_scale", lit "4.0"),
   (lit "sharpness", lit "2.0"),
   (lit "adm_guidance", lit "(1.5, 0.8, 0.3)"),
   (lit "base_model", lit "mybm.safetensors"),
   (lit "version", lit "Fooocus v2.1.0")]

/-- Concrete stem-resolution collaborator for the round-trip witness. -/
def c1Resolve : Str → Str := fun _ => lit "myl.safetensors"

end A1111MetadataParser

/-! ### Association-list (Python dict) lemmas -/

theorem lookupD_setKey_self {β : Type} (d : List (Str × β)) (k : Str) (v : β) :
    lookupD (setKey d k v) k = some v := by
  induction d with
  | nil => simp [setKey, lookupD]
  | cons h t ih =>
    by_cases hk : h.1 = k
    · simp [setKey, hk, lookupD]
    · simpa [setKey, hk, lookupD] using ih

theorem lookupD_setKey_ne {β : Type} (d : List (Str × β)) (k q : Str) (v : β)
    (h : q ≠ k) : lookupD (setKey d k v) q = lookupD d q := by
  induction d with
  | nil => simp [setKey, lookupD, Ne.symm h]
  | cons hd t ih =>
    by_cases hk : hd.1 = k
    · subst hk
      simp [setKey, lookupD, Ne.symm h]
    · simp only [setKey, if_neg hk]
      by_cases hq : hd.1 = q
      · simp [lookupD, hq]
      · simp [lookupD, hq, ih]

theorem setKey_map_fst {β : Type} (d : List (Str × β)) (k : Str) (v : β)
    (h : k ∈ d.map Prod.fst) : (setKey d k v).map Prod.fst = d.map Prod.fst := by
  induction d with
  | nil => simp at h
  | cons hd t ih =>
    by_cases hk : hd.1 = k
    · simp [setKey, hk]
    · simp only [List.map_cons, List.mem_cons] at h
      rcases h with h | h
      · exact absurd h.symm hk
      · simp [setKey, hk, ih h]

theorem lookupD_of_mem_nodup {β : Type} {d : List (Str × β)} {k : Str} {v : β}
    (hmem : (k, v) ∈ d) (hnd : (d.map Prod.fst).Nodup) : lookupD d k = some v := by
  induction d with
  | nil => simp at hmem
  | cons hd t ih =>
    simp only [List.mem_cons] at hmem
    simp only [List.map_cons, List.nodup_cons] at hnd
    rcases hmem with h | h
    · simp [lookupD, ← h]
    · have hne : hd.1 ≠ k := by
        intro he
        exact hnd.1 (he ▸ List.mem_map_of_mem Prod.fst h)
      simp [lookupD, hne, ih h hnd.2]

/-! ### C8: the hash cache -/

/-- C8: `get_sha256` returns the content hash and invokes the hash
primitive at most once across any number of calls with the same path: a
miss computes and stores, a hit returns the stored value without
invoking the primitive, and no entry is ever evicted. -/
theorem C8_hash_cache (calcHash : Str → Str) (cache : List (Str × Str)) (p : Str) :
    (∀ h, lookupD cache p = some h → get_sha256 calcHash cache p = (h, cache, false)) ∧
    (lookupD cache p = none →
      get_sha256 calcHash cache p =
        (calcHash p, setKey cache p (calcHash p), true)) ∧
    (∀ q h, lookupD cache q = some h →
      lookupD (get_sha256 calcHash cache p).2.1 q = some h) ∧
    (∀ n, (getCalls calcHash cache (List.replicate n p)).2 ≤ 1) := by
  have hfix : ∀ (c : List (Str × Str)) h, lookupD c p = some h →
      ∀ n, (getCalls calcHash c (List.replicate n p)).2 = 0 := by
    intro c h hc n
    induction n generalizing c h with
    | zero => simp [getCalls]
    | succ m ih =>
      simp only [List.replicate_succ, getCalls, get_sha256, hc]
      simpa using ih c h hc
  refine ⟨?_, ?_, ?_, ?_⟩
  · intro h hc
    simp [get_sha256, hc]
  · intro hc
    simp [get_sha256, hc]
  · intro q h hq
    unfold get_sha256
    cases hc : lookupD cache p with
    | some v => simpa using hq
    | none =>
      by_cases hpq : q = p
      · subst hpq
        rw [hq] at hc
        exact absurd hc (by simp)
      · simpa [lookupD_setKey_ne cache p q _ hpq] using hq
  · intro n
    cases n with
    | zero => simp [getCalls]
    | succ m =>
      simp only [List.replicate_succ, getCalls]
      cases hc : lookupD cache p with
      | some v =>
        simp only [get_sha256, hc]
        rw [hfix cache v hc m]
        simp
      | none =>
        simp only [get_sha256, hc]
        rw [hfix (setKey cache p (calcHash p)) (calcHash p)
          (lookupD_setKey_self cache p (calcHash p)) m]
        simp

/-- Witness for C8 at a concrete path: a miss stores the hash. -/
theorem C8_hash_cache_witness :
    get_sha256 (fun _ => lit "h0") [] (lit "/m.safetensors") =
      (lit "h0", [(lit "/m.safetensors", lit "h0")], true) :=
  (C8_hash_cache (fun _ => lit "h0") [] (lit "/m.safetensors")).2.1 rfl

/-! ### C7: scheme detection -/

/-- C7: scheme detection returns the declared scheme when the
`fooocus_scheme` tag is present and valid; otherwise FOOOCUS when the
popped `parameters` field decoded to a structured mapping; otherwise
A1111 when `parameters` is plain text; otherwise no scheme. -/
theorem C7_scheme_detection (is_json : Str → Bool) (parameters : Option Str)
    (tag : Option Str) :
    (∀ sch, metadataSchemeOfTag tag = some sch →
      readInfoScheme is_json parameters tag = some sch) ∧
    (metadataSchemeOfTag tag = none → ∀ s, parameters = some s →
      is_json s = true → readInfoScheme is_json parameters tag = some .fooocus) ∧
    (metadataSchemeOfTag tag = none → ∀ s, parameters = some s →
      is_json s = false → readInfoScheme is_json parameters tag = some .a1111) ∧
    (metadataSchemeOfTag tag = none → parameters = none →
      readInfoScheme is_json parameters tag = none) := by
  refine ⟨?_, ?_, ?_, ?_⟩
  · intro sch hsch
    simp [readInfoScheme, hsch]
  · intro htag s hp hj
    simp [readInfoScheme, htag, hp, hj]
  · intro htag s hp hj
    simp [readInfoScheme, htag, hp, hj]
  · intro htag hp
    simp [readInfoScheme, htag, hp]

/-- Witness for C7: plain (non-JSON) text parameters and no tag give
A1111. -/
theorem C7_scheme_detection_witness :
    readInfoScheme (fun _ => false) (some (lit "Steps: 20")) none =
      some MetadataScheme.a1111 :=
  (C7_scheme_detection (fun _ => false) (some (lit "Steps: 20")) none).2.2.1
    rfl (lit "Steps: 20") rfl rfl

/-- Reduction of `Except.map` on a success value. -/
theorem exceptMap_ok {ε α β : Type} (f : α → β) (a : α) :
    Except.map (ε := ε) f (Except.ok a) = Except.ok (f a) := rfl

/-! ### C2: Fooocus parse of unresolvable references -/

namespace FooocusMetadataParser

theorem replace_nonlora (k : Str) (v : Option Str) (fs : List Str)
    (hk : (lit "lora_combined_").isPrefixOf k = false) :
    replace_value_with_filename k v fs =
      .ok (fs.find? (fun f => v == some (pathStem f))) := by
  induction fs with
  | nil => simp [replace_value_with_filename, List.find?]
  | cons f rest ih =>
    simp only [replace_value_with_filename, hk, Bool.false_eq_true, if_false,
      List.find?]
    by_cases hv : v = some (pathStem f)
    · simp [hv]
    · have : (v == some (pathStem f)) = false := by
        simpa using hv
      simp [hv, this, ih]

theorem replace_lora (k v : Str) (fs : List Str) (name weight : Str)
    (hk : (lit "lora_combined_").isPrefixOf k = true)
    (hsplit : pySplit (lit " : ") v = [name, weight]) :
    replace_value_with_filename k (some v) fs =
      .ok ((fs.find? (fun f => name == pathStem f)).map
        (fun f => f ++ lit " : " ++ weight)) := by
  induction fs with
  | nil => simp [replace_value_with_filename, List.find?]
  | cons f rest ih =>
    simp only [replace_value_with_filename, hk, if_true, hsplit, List.find?]
    by_cases hn : name = pathStem f
    · simp [hn]
    · have : (name == pathStem f) = false := by simpa using hn
      simp [hn, this, ih]

theorem entryUpdate_ok (modelFs lfs : List Str) (kv : Str × Option Str)
    (hok : entryNoRaise lfs kv) : ∃ w, entryUpdate modelFs lfs kv = .ok w := by
  unfold entryUpdate
  by_cases hskip : kv.2 = some [] ∨ kv.2 = some (lit "None")
  · exact ⟨none, by simp [hskip]⟩
  · by_cases hbm : kv.1 = lit "base_model" ∨ kv.1 = lit "refiner_model"
    · have hk : (lit "lora_combined_").isPrefixOf kv.1 = false := by
        rcases hbm with h | h <;> rw [h] <;> decide
      rw [replace_nonlora kv.1 kv.2 modelFs hk]
      exact ⟨some (modelFs.find? (fun f => kv.2 == some (pathStem f))),
        by simp [hskip, hbm, Except.map]⟩
    · by_cases hlora : (lit "lora_combined_").isPrefixOf kv.1 = true
      · cases hlfs : lfs with
        | nil =>
          refine ⟨some none, ?_⟩
          simp [hskip, hbm, hlora, replace_value_with_filename, Except.map]
        | cons f rest =>
          push_neg at hskip
          obtain ⟨vv, hvv, hlen⟩ := hok hlora hskip.1 hskip.2 (by simp [hlfs])
          match hsp : pySplit (lit " : ") vv with
          | [name, weight] =>
            rw [← hlfs]
            refine ⟨some ((lfs.find? (fun f => name == pathStem f)).map
              (fun f => f ++ lit " : " ++ weight)), ?_⟩
            rw [hvv] at hskip ⊢
            simp [hskip, hbm, hlora, Except.map,
              replace_lora kv.1 vv lfs name weight hlora hsp]
          | [] => rw [hsp] at hlen; simp at hlen
          | [x] => rw [hsp] at hlen; simp at hlen
          | x :: y :: z :: t => rw [hsp] at hlen; simp at hlen
      · exact ⟨none, by simp [hskip, hbm, hlora]⟩

theorem parseJsonLoop_ok (modelFs lfs : List Str) : ∀ (items : List (Str × Option Str))
    (d : List (Str × Option Str)),
    (∀ kv ∈ items, entryNoRaise lfs kv) →
    (∀ kv ∈ items, kv.1 ∈ d.map Prod.fst) →
    (items.map Prod.fst).Nodup →
    ∃ d', parseJsonLoop modelFs lfs items d = .ok d' ∧
      d'.map Prod.fst = d.map Prod.fst ∧
      (∀ k, k ∉ items.map Prod.fst → lookupD d' k = lookupD d k) ∧
      (∀ kv ∈ items, ∃ w, entryUpdate modelFs lfs kv = .ok w ∧
        ((w = none → lookupD d' kv.1 = lookupD d kv.1) ∧
         (∀ r, w = some r → lookupD d' kv.1 = some r))) := by
  intro items
  induction items with
  | nil =>
    intro d _ _ _
    exact ⟨d, rfl, rfl, fun _ _ => rfl, by simp⟩
  | cons kv rest ih =>
    intro d hok hkeys hnd
    obtain ⟨k, v⟩ := kv
    simp only [List.map_cons, List.nodup_cons] at hnd
    have hkd : k ∈ d.map Prod.fst := hkeys _ (List.mem_cons_self _ _)
    -- a generic step: the head entry rewrote the dict to `d₂` and its
    -- `entryUpdate` is `.ok w`, with `w` describing the rewrite
    have step : ∀ (d₂ : List (Str × Option Str)) (w : Option (Option Str)),
        entryUpdate modelFs lfs (k, v) = .ok w →
        ((w = none ∧ d₂ = d) ∨ (∃ r, w = some r ∧ d₂ = setKey d k r)) →
        parseJsonLoop modelFs lfs ((k, v) :: rest) d =
          parseJsonLoop modelFs lfs rest d₂ →
        ∃ d', parseJsonLoop modelFs lfs ((k, v) :: rest) d = .ok d' ∧
          d'.map Prod.fst = d.map Prod.fst ∧
          (∀ kk, kk ∉ ((k, v) :: rest).map Prod.fst →
            lookupD d' kk = lookupD d kk) ∧
          (∀ kv ∈ (k, v) :: rest, ∃ w2, entryUpdate modelFs lfs kv = .ok w2 ∧
            ((w2 = none → lookupD d' kv.1 = lookupD d kv.1) ∧
             (∀ r, w2 = some r → lookupD d' kv.1 = some r))) := by
      intro d₂ w hw hcase heq
      have hmap2 : d₂.map Prod.fst = d.map Prod.fst := by
        rcases hcase with ⟨_, h⟩ | ⟨r, _, h⟩
        · rw [h]
        · rw [h]; exact setKey_map_fst d k r hkd
      obtain ⟨d', h1, h2, h3, h4⟩ := ih d₂
        (fun kv hm => hok kv (List.mem_cons_of_mem _ hm))
        (fun kv hm => by
          rw [hmap2]; exact hkeys kv (List.mem_cons_of_mem _ hm)) hnd.2
      have hl2 : ∀ kk, kk ≠ k → lookupD d₂ kk = lookupD d kk := by
        intro kk hkk
        rcases hcase with ⟨_, h⟩ | ⟨r, _, h⟩
        · rw [h]
        · rw [h]; exact lookupD_setKey_ne d k kk r hkk
      refine ⟨d', heq ▸ h1, h2.trans hmap2, ?_, ?_⟩
      · intro kk hkk
        simp only [List.map_cons, List.mem_cons, not_or] at hkk
        exact (h3 kk hkk.2).trans (hl2 kk hkk.1)
      · intro kv hm
        rcases List.mem_cons.mp hm with hhd | htl
        · subst hhd
          refine ⟨w, hw, ?_, ?_⟩
          · intro hwn
            rcases hcase with ⟨_, hd2⟩ | ⟨r, hwr, _⟩
            · subst hd2; exact h3 k hnd.1
            · rw [hwr] at hwn; exact absurd hwn (by simp)
          · intro r hwr
            rcases hcase with ⟨hwn, _⟩ | ⟨r', hwr', hd2⟩
            · rw [hwn] at hwr; exact absurd hwr.symm (by simp)
            · have hrr : r' = r := by
                rw [hwr'] at hwr
                injection hwr
              subst hd2
              rw [← hrr]
              exact (h3 k hnd.1).trans (lookupD_setKey_self d k r')
        · obtain ⟨w2, hw2, hwa, hwb⟩ := h4 kv htl
          have hne : kv.1 ≠ k := by
            intro he
            exact hnd.1 (he ▸ List.mem_map_of_mem Prod.fst htl)
          exact ⟨w2, hw2, fun hn => (hwa hn).trans (hl2 kv.1 hne), hwb⟩
    by_cases hskip : v = some [] ∨ v = some (lit "None")
    · refine step d none (by simp [entryUpdate, hskip]) (Or.inl ⟨rfl, rfl⟩) ?_
      simp [parseJsonLoop, hskip]
    · by_cases hbm : k = lit "base_model" ∨ k = lit "refiner_model"
      · have hkpre : (lit "lora_combined_").isPrefixOf k = false := by
          rcases hbm with h | h <;> rw [h] <;> decide
        have hrep := replace_nonlora k v modelFs hkpre
        refine step (setKey d k (modelFs.find? (fun f => v == some (pathStem f))))
          (some (modelFs.find? (fun f => v == some (pathStem f))))
          (by simp [entryUpdate, hskip, hbm, hrep, exceptMap_ok]) (Or.inr ⟨_, rfl, rfl⟩) ?_
        simp [parseJsonLoop, hskip, hbm, hrep]
      · by_cases hlora : (lit "lora_combined_").isPrefixOf k = true
        · by_cases hlfs0 : lfs = []
          · have hrep : replace_value_with_filename k v lfs = .ok none := by
              rw [hlfs0]
              cases v <;> rfl
            refine step (setKey d k none) (some none)
              (by simp [entryUpdate, hskip, hbm, hlora, hrep, exceptMap_ok])
              (Or.inr ⟨_, rfl, rfl⟩) ?_
            simp [parseJsonLoop, hskip, hbm, hlora, hrep]
          · push_neg at hskip
            obtain ⟨vv, hvv0, hlen⟩ := hok _ (List.mem_cons_self _ _) hlora
              hskip.1 hskip.2 hlfs0
            have hvv : v = some vv := hvv0
            match hsp : pySplit (lit " : ") vv with
            | [name, weight] =>
              have hrep : replace_value_with_filename k v lfs =
                  .ok ((lfs.find? (fun f => name == pathStem f)).map
                    (fun f => f ++ lit " : " ++ weight)) := by
                rw [hvv]
                exact replace_lora k vv lfs name weight hlora hsp
              have hskip' : ¬(v = some [] ∨ v = some (lit "None")) := by
                push_neg
                exact hskip
              refine step
                (setKey d k ((lfs.find? (fun f => name == pathStem f)).map
                  (fun f => f ++ lit " : " ++ weight)))
                (some ((lfs.find? (fun f => name == pathStem f)).map
                  (fun f => f ++ lit " : " ++ weight)))
                (by simp [entryUpdate, hskip', hbm, hlora, hrep, exceptMap_ok])
                (Or.inr ⟨_, rfl, rfl⟩) ?_
              simp [parseJsonLoop, hskip', hbm, hlora, hrep]
            | [] => rw [hsp] at hlen; simp at hlen
            | [x] => rw [hsp] at hlen; simp at hlen
            | x :: y :: z :: t => rw [hsp] at hlen; simp at hlen
        · refine step d none (by simp [entryUpdate, hskip, hbm, hlora, exceptMap_ok])
            (Or.inl ⟨rfl, rfl⟩) ?_
          simp [parseJsonLoop, hskip, hbm, hlora]

end FooocusMetadataParser

/-- C2, counterexample: in the Fooocus codec's parse, an entry under
`base_model` whose stem has no match in the known model filename list is
NOT left with its original value: `replace_value_with_filename` falls
off its loop and returns Python `None`, which is assigned over the
original value.  Here `"foo"` matches no stem of `["bar.safetensors"]`
and the entry becomes `None` (≠ `"foo"`). -/
theorem C2_counterexample :
    FooocusMetadataParser.parse_json [lit "bar.safetensors"]
      [lit "r.safetensors"] (lit "r.safetensors")
      [(lit "base_model", some (lit "foo"))] =
      .ok [(lit "base_model", none)] ∧
    (none : Option Str) ≠ some (lit "foo") :=
  ⟨rfl, by decide⟩

/-- C2, amended: for every input mapping (with the distinct keys of a
Python dict) given to the Fooocus codec's parse: entries whose value is
the empty string or `"None"` are left untouched; an entry under
`base_model`, `refiner_model` or a `lora_combined_*` key is overwritten
with the first stem-matching filename (the weight preserved for LoRA
entries) — or with the null value `None` when no filename matches,
rather than keeping its original value; entries under other keys are
untouched; and no exception is raised provided the reserved LoRA is in
the LoRA filename list and every processed `lora_combined_*` value
splits on `' : '` into exactly two parts. -/
theorem C2_amended (modelFs loraFs : List Str) (reserved : Str)
    (md : List (Str × Option Str)) (lfs : List Str)
    (hres : removeFirst loraFs reserved = some lfs)
    (hok : ∀ kv ∈ md, FooocusMetadataParser.entryNoRaise lfs kv)
    (hnd : (md.map Prod.fst).Nodup) :
    ∃ d', FooocusMetadataParser.parse_json modelFs loraFs reserved md = .ok d' ∧
      d'.map Prod.fst = md.map Prod.fst ∧
      (∀ kv ∈ md, kv.2 = some [] ∨ kv.2 = some (lit "None") →
        lookupD d' kv.1 = some kv.2) ∧
      (∀ kv ∈ md, kv.1 = lit "base_model" ∨ kv.1 = lit "refiner_model" →
        ¬(kv.2 = some [] ∨ kv.2 = some (lit "None")) →
        lookupD d' kv.1 =
          some (modelFs.find? (fun f => kv.2 == some (pathStem f)))) ∧
      (∀ kv ∈ md, ∀ vv name weight, kv.2 = some vv →
        (lit "lora_combined_").isPrefixOf kv.1 = true →
        ¬(kv.2 = some [] ∨ kv.2 = some (lit "None")) →
        pySplit (lit " : ") vv = [name, weight] →
        lookupD d' kv.1 =
          some ((lfs.find? (fun f => name == pathStem f)).map
            (fun f => f ++ lit " : " ++ weight))) ∧
      (∀ kv ∈ md, ¬(kv.1 = lit "base_model" ∨ kv.1 = lit "refiner_model") →
        (lit "lora_combined_").isPrefixOf kv.1 = false →
        lookupD d' kv.1 = some kv.2) := by
  obtain ⟨d', h1, h2, _h3, h4⟩ :=
    FooocusMetadataParser.parseJsonLoop_ok modelFs lfs md md hok
      (fun kv hm => List.mem_map_of_mem Prod.fst hm) hnd
  have hpj : FooocusMetadataParser.parse_json modelFs loraFs reserved md = .ok d' := by
    unfold FooocusMetadataParser.parse_json
    rw [hres]
    exact h1
  have hself : ∀ kv ∈ md, lookupD md kv.1 = some kv.2 := by
    intro kv hm
    exact lookupD_of_mem_nodup (by simpa using hm) hnd
  refine ⟨d', hpj, h2, ?_, ?_, ?_, ?_⟩
  · intro kv hm hv
    obtain ⟨w, hw, hwa, _⟩ := h4 kv hm
    have hwn : w = none := by
      have : FooocusMetadataParser.entryUpdate modelFs lfs kv = .ok none := by
        simp [FooocusMetadataParser.entryUpdate, hv]
      rw [this] at hw
      injection hw with hw
      exact hw.symm
    exact (hwa hwn).trans (hself kv hm)
  · intro kv hm hbm hv
    obtain ⟨w, hw, _, hwb⟩ := h4 kv hm
    have hkpre : (lit "lora_combined_").isPrefixOf kv.1 = false := by
      rcases hbm with h | h <;> rw [h] <;> decide
    have : FooocusMetadataParser.entryUpdate modelFs lfs kv =
        .ok (some (modelFs.find? (fun f => kv.2 == some (pathStem f)))) := by
      simp [FooocusMetadataParser.entryUpdate, hv, hbm,
        FooocusMetadataParser.replace_nonlora kv.1 kv.2 modelFs hkpre,
        exceptMap_ok]
    rw [this] at hw
    injection hw with hw
    exact hwb _ hw.symm
  · intro kv hm vv name weight hvv hlora hv hsplit
    obtain ⟨w, hw, _, hwb⟩ := h4 kv hm
    have hbm : ¬(kv.1 = lit "base_model" ∨ kv.1 = lit "refiner_model") := by
      rintro (h | h) <;> rw [h] at hlora <;> exact absurd hlora (by decide)
    have hrep : FooocusMetadataParser.replace_value_with_filename kv.1 kv.2 lfs =
        .ok ((lfs.find? (fun f => name == pathStem f)).map
          (fun f => f ++ lit " : " ++ weight)) := by
      rw [hvv]
      exact FooocusMetadataParser.replace_lora kv.1 vv lfs name weight hlora hsplit
    have : FooocusMetadataParser.entryUpdate modelFs lfs kv =
        .ok (some ((lfs.find? (fun f => name == pathStem f)).map
          (fun f => f ++ lit " : " ++ weight))) := by
      simp [FooocusMetadataParser.entryUpdate, hv, hbm, hlora, hrep, exceptMap_ok]
    rw [this] at hw
    injection hw with hw
    exact hwb _ hw.symm
  · intro kv hm hbm hlora
    obtain ⟨w, hw, hwa, _⟩ := h4 kv hm
    by_cases hv : kv.2 = some [] ∨ kv.2 = some (lit "None")
    · have : FooocusMetadataParser.entryUpdate modelFs lfs kv = .ok none := by
        simp [FooocusMetadataParser.entryUpdate, hv]
      rw [this] at hw
      injection hw with hw
      exact (hwa hw.symm).trans (hself kv hm)
    · have : FooocusMetadataParser.entryUpdate modelFs lfs kv = .ok none := by
        simp [FooocusMetadataParser.entryUpdate, hv, hbm, hlora]
      rw [this] at hw
      injection hw with hw
      exact (hwa hw.symm).trans (hself kv hm)

/-- Witness for C2 (amended) at a concrete mapping: the unresolvable
`base_model` stem becomes `None`; the non-special `sampler` entry is
untouched. -/
theorem C2_amended_witness :
    ∃ d', FooocusMetadataParser.parse_json [lit "bar.safetensors"]
        [lit "r.safetensors"] (lit "r.safetensors")
        [(lit "base_model", some (lit "ckpt")), (lit "sampler", some (lit "x"))] =
        .ok d' ∧
      lookupD d' (lit "base_model") = some none ∧
      lookupD d' (lit "sampler") = some (some (lit "x")) := by
  obtain ⟨d', h1, _, _, h4, _, h6⟩ :=
    C2_amended [lit "bar.safetensors"] [lit "r.safetensors"] (lit "r.safetensors")
      [(lit "base_model", some (lit "ckpt")), (lit "sampler", some (lit "x"))]
      [] rfl
      (by
        intro kv hm
        fin_cases hm <;> intro h <;> exact absurd h (by decide))
      (by decide)
  refine ⟨d', h1, ?_, ?_⟩
  · have := h4 (lit "base_model", some (lit "ckpt")) (by simp) (Or.inl rfl)
      (by decide)
    exact this.trans (by decide)
  · exact h6 (lit "sampler", some (lit "x")) (by simp) (by decide) (by decide)

/-! ### C9: parse/serialize and input mutation -/

namespace FooocusMetadataParser

theorem parseJsonLoop_frame (modelFs lfs : List Str) :
    ∀ (items d d' : List (Str × Option Str)),
    parseJsonLoop modelFs lfs items d = .ok d' →
    ((∀ kv ∈ items, kv.1 ∈ d.map Prod.fst) → d'.map Prod.fst = d.map Prod.fst) ∧
    (∀ k, ¬(k = lit "base_model" ∨ k = lit "refiner_model") →
      (lit "lora_combined_").isPrefixOf k = false →
      lookupD d' k = lookupD d k) := by
  intro items
  induction items with
  | nil =>
    intro d d' h
    obtain rfl : d = d' := by
      simpa [parseJsonLoop] using h
    exact ⟨fun _ => rfl, fun _ _ _ => rfl⟩
  | cons kv rest ih =>
    intro d d' h
    obtain ⟨k, v⟩ := kv
    by_cases hskip : v = some [] ∨ v = some (lit "None")
    · rw [show parseJsonLoop modelFs lfs ((k, v) :: rest) d =
          parseJsonLoop modelFs lfs rest d by simp [parseJsonLoop, hskip]] at h
      obtain ⟨ha, hb⟩ := ih d d' h
      exact ⟨fun hk => ha (fun kv hm => hk kv (List.mem_cons_of_mem _ hm)), hb⟩
    · by_cases hbm : k = lit "base_model" ∨ k = lit "refiner_model"
      · rw [show parseJsonLoop modelFs lfs ((k, v) :: rest) d =
            match replace_value_with_filename k v modelFs with
            | .ok r => parseJsonLoop modelFs lfs rest (setKey d k r)
            | .error e => .error e by simp [parseJsonLoop, hskip, hbm]] at h
        cases hr : replace_value_with_filename k v modelFs with
        | error e => rw [hr] at h; cases h
        | ok r =>
          rw [hr] at h
          obtain ⟨ha, hb⟩ := ih (setKey d k r) d' h
          constructor
          · intro hk
            have hkd : k ∈ d.map Prod.fst := hk _ (List.mem_cons_self _ _)
            have := ha (fun kv hm => by
              rw [setKey_map_fst d k r hkd]
              exact hk kv (List.mem_cons_of_mem _ hm))
            rw [this, setKey_map_fst d k r hkd]
          · intro q hq1 hq2
            have hqk : q ≠ k := by
              intro he
              exact hq1 (he ▸ hbm)
            exact (hb q hq1 hq2).trans (lookupD_setKey_ne d k q r hqk)
      · by_cases hlora : (lit "lora_combined_").isPrefixOf k = true
        · rw [show parseJsonLoop modelFs lfs ((k, v) :: rest) d =
              match replace_value_with_filename k v lfs with
              | .ok r => parseJsonLoop modelFs lfs rest (setKey d k r)
              | .error e => .error e by simp [parseJsonLoop, hskip, hbm, hlora]] at h
          cases hr : replace_value_with_filename k v lfs with
          | error e => rw [hr] at h; cases h
          | ok r =>
            rw [hr] at h
            obtain ⟨ha, hb⟩ := ih (setKey d k r) d' h
            constructor
            · intro hk
              have hkd : k ∈ d.map Prod.fst := hk _ (List.mem_cons_self _ _)
              have := ha (fun kv hm => by
                rw [setKey_map_fst d k r hkd]
                exact hk kv (List.mem_cons_of_mem _ hm))
              rw [this, setKey_map_fst d k r hkd]
            · intro q hq1 hq2
              have hqk : q ≠ k := by
                intro he
                rw [he] at hq2
                rw [hq2] at hlora
                cases hlora
              exact (hb q hq1 hq2).trans (lookupD_setKey_ne d k q r hqk)
        · rw [show parseJsonLoop modelFs lfs ((k, v) :: rest) d =
              parseJsonLoop modelFs lfs rest d by
                simp [parseJsonLoop, hskip, hbm, hlora]] at h
          obtain ⟨ha, hb⟩ := ih d d' h
          exact ⟨fun hk => ha (fun kv hm => hk kv (List.mem_cons_of_mem _ hm)), hb⟩

theorem stripLoraPaths_ok : ∀ (md md' : List (Str × Str × Str)),
    stripLoraPaths md = .ok md' → md' = md.map loraStripEntry := by
  intro md
  induction md with
  | nil =>
    intro md' h
    simpa [stripLoraPaths] using h.symm
  | cons t rest ih =>
    intro md' h
    obtain ⟨label, key, value⟩ := t
    by_cases hk : (lit "lora_combined_").isPrefixOf key = true
    · match hsp : pySplit (lit " : ") value with
      | [name, weight] =>
        rw [show stripLoraPaths ((label, key, value) :: rest) =
            (stripLoraPaths rest).map
              (fun r => (label, key, pathStem name ++ lit " : " ++ weight) :: r) by
          simp [stripLoraPaths, hk, hsp]] at h
        cases hr : stripLoraPaths rest with
        | error e => rw [hr] at h; cases h
        | ok r =>
          rw [hr, exceptMap_ok] at h
          injection h with h
          rw [← h, ih r hr]
          simp [loraStripEntry, hk, hsp]
      | [] =>
        rw [show stripLoraPaths ((label, key, value) :: rest) =
            .error (lit "ValueError: unpack") by simp [stripLoraPaths, hk, hsp]] at h
        cases h
      | [x] =>
        rw [show stripLoraPaths ((label, key, value) :: rest) =
            .error (lit "ValueError: unpack") by simp [stripLoraPaths, hk, hsp]] at h
        cases h
      | x :: y :: z :: tl =>
        rw [show stripLoraPaths ((label, key, value) :: rest) =
            .error (lit "ValueError: unpack") by simp [stripLoraPaths, hk, hsp]] at h
        cases h
    · rw [show stripLoraPaths ((label, key, value) :: rest) =
          (stripLoraPaths rest).map (fun r => (label, key, value) :: r) by
        simp [stripLoraPaths, hk]] at h
      cases hr : stripLoraPaths rest with
      | error e => rw [hr] at h; cases h
      | ok r =>
        rw [hr, exceptMap_ok] at h
        injection h with h
        rw [← h, ih r hr]
        simp [loraStripEntry, hk]

end FooocusMetadataParser

/-- C9, counterexample: the Fooocus serializer does not leave its input
entry sequence unchanged — the `metadata[li] = (label, key, value)`
assignment rewrites `lora_combined_*` entries of the caller's list in
place.  Here the final state of the input list (returned as the second
component) differs from the original. -/
theorem C9_counterexample :
    ∃ out, FooocusMetadataParser.parse_string
        (ParserState.mk [] [] 30 (lit "bm") (lit "h0") [] [] [])
        []
        [(lit "L", lit "lora_combined_1", lit "dir/styleA.safetensors : 0.8")] =
        .ok out ∧
      out.2 ≠ [(lit "L", lit "lora_combined_1", lit "dir/styleA.safetensors : 0.8")] :=
  ⟨_, rfl, by decide⟩

/-- C9, amended: the A1111 codec's operations take an immutable text (and
read their entry list without writing it), but the Fooocus codec mutates
its inputs in place: `parse_json` returns the very mapping it was given,
with the key sequence preserved, values rewritten only under
`base_model`, `refiner_model` and `lora_combined_*` keys; `parse_string`
rewrites exactly the `lora_combined_*` entries of its input list
(stripping the directory and extension from the name), leaving every
other entry unchanged. -/
theorem C9_amended :
    (∀ (modelFs loraFs : List Str) (reserved : Str)
       (md d' : List (Str × Option Str)),
      FooocusMetadataParser.parse_json modelFs loraFs reserved md = .ok d' →
      d'.map Prod.fst = md.map Prod.fst ∧
      (∀ k, ¬(k = lit "base_model" ∨ k = lit "refiner_model") →
        (lit "lora_combined_").isPrefixOf k = false →
        lookupD d' k = lookupD md k)) ∧
    (∀ (st : ParserState) (created_by : Str) (md : List (Str × Str × Str)) out,
      FooocusMetadataParser.parse_string st created_by md = .ok out →
      out.2 = md.map FooocusMetadataParser.loraStripEntry) := by
  constructor
  · intro modelFs loraFs reserved md d' h
    unfold FooocusMetadataParser.parse_json at h
    cases hres : removeFirst loraFs reserved with
    | none => rw [hres] at h; cases h
    | some lfs =>
      rw [hres] at h
      obtain ⟨ha, hb⟩ := FooocusMetadataParser.parseJsonLoop_frame modelFs lfs md md d' h
      exact ⟨ha (fun kv hm => List.mem_map_of_mem Prod.fst hm), hb⟩
  · intro st created_by md out h
    unfold FooocusMetadataParser.parse_string at h
    cases hs : FooocusMetadataParser.stripLoraPaths md with
    | error e => rw [hs] at h; cases h
    | ok md' =>
      rw [hs] at h
      simp only [Except.bind, bind] at h
      injection h with h
      rw [← h]
      exact FooocusMetadataParser.stripLoraPaths_ok md md' hs

/-- Witness for C9 (amended) at concrete inputs: a non-special key is
untouched by the Fooocus parse, and the serializer's list rewrite is the
per-entry stem-stripping map. -/
theorem C9_amended_witness :
    (∀ d', FooocusMetadataParser.parse_json [] [lit "r"] (lit "r")
        [(lit "sampler", some (lit "x"))] = .ok d' →
      lookupD d' (lit "sampler") = some (some (lit "x"))) ∧
    (∀ out, FooocusMetadataParser.parse_string
        (ParserState.mk [] [] 30 (lit "bm") (lit "h0") [] [] []) []
        [(lit "L", lit "lora_combined_1", lit "a/b.safetensors : 0.5")] =
        .ok out →
      out.2 = [(lit "L", lit "lora_combined_1", lit "b : 0.5")]) := by
  constructor
  · intro d' h
    have := (C9_amended.1 [] [lit "r"] (lit "r")
      [(lit "sampler", some (lit "x"))] d' h).2
      (lit "sampler") (by decide) (by decide)
    exact this.trans (by decide)
  · intro out h
    have := C9_amended.2 (ParserState.mk [] [] 30 (lit "bm") (lit "h0") [] [] [])
      [] [(lit "L", lit "lora_combined_1", lit "a/b.safetensors : 0.5")] out h
    exact this.trans (by decide)

/-! ### C10: keys the A1111 serializer requires -/

namespace A1111MetadataParser

theorem paramsLine_ok_present (st : ParserState) (cb : Str)
    (data : List (Str × Str)) (line : Str)
    (h : paramsLine st cb data = .ok line) :
    ∀ k ∈ requiredKeys, (lookupD data k).isSome := by
  unfold paramsLine at h
  simp only [req] at h
  cases h1 : lookupD data (lit "resolution") with
  | none => rw [h1] at h; simp [bind, Except.bind] at h
  | some resolution =>
  rw [h1] at h
  simp only [bind, Except.bind] at h
  cases h2 : pyEvalPair resolution with
  | none => rw [h2] at h; simp [bind, Except.bind] at h
  | some wh =>
  rw [h2] at h
  simp only [bind, Except.bind] at h
  cases h3 : lookupD data (lit "performance") with
  | none => rw [h3] at h; simp [bind, Except.bind] at h
  | some performance =>
  rw [h3] at h
  simp only [bind, Except.bind] at h
  cases h4 : lookupD data (lit "sampler") with
  | none => rw [h4] at h; simp [bind, Except.bind] at h
  | some sampler =>
  rw [h4] at h
  simp only [bind, Except.bind] at h
  cases h5 : lookupD data (lit "seed") with
  | none => rw [h5] at h; simp [bind, Except.bind] at h
  | some seed =>
  rw [h5] at h
  simp only [bind, Except.bind] at h
  cases h6 : lookupD data (lit "guidance_scale") with
  | none => rw [h6] at h; simp [bind, Except.bind] at h
  | some guidance =>
  rw [h6] at h
  simp only [bind, Except.bind] at h
  cases h7 : lookupD data (lit "sharpness") with
  | none => rw [h7] at h; simp [bind, Except.bind] at h
  | some sharpness =>
  rw [h7] at h
  simp only [bind, Except.bind] at h
  cases h8 : lookupD data (lit "adm_guidance") with
  | none => rw [h8] at h; simp [bind, Except.bind] at h
  | some adm =>
  rw [h8] at h
  simp only [bind, Except.bind] at h
  cases h9 : lookupD data (lit "base_model") with
  | none => rw [h9] at h; simp [bind, Except.bind] at h
  | some base_model =>
  rw [h9] at h
  simp only [bind, Except.bind] at h
  cases h10 : lookupD data (lit "version") with
  | none => rw [h10] at h; simp [bind, Except.bind] at h
  | some version =>
  intro k hk
  fin_cases hk <;>
    simp [h1, h3, h4, h5, h6, h7, h8, h9, h10]

end A1111MetadataParser

/-- C10: the A1111 serializer requires the canonical keys `performance`,
`sampler`, `seed`, `resolution`, `guidance_scale`, `sharpness`,
`adm_guidance`, `base_model` and `version` in its input entry sequence;
when any of them is absent it raises a key-lookup error instead of
producing output text. -/
theorem C10_serializer_required_keys (st : ParserState) (cb : Str)
    (metadata : List (Str × Str × Str)) (k : Str)
    (hk : k ∈ requiredKeys)
    (habs : lookupD (A1111MetadataParser.entriesDict metadata) k = none) :
    ∃ e, A1111MetadataParser.parse_string st cb metadata = .error e := by
  cases hpl : A1111MetadataParser.paramsLine st cb
      (A1111MetadataParser.entriesDict metadata) with
  | error e =>
    refine ⟨e, ?_⟩
    unfold A1111MetadataParser.parse_string
    simp [hpl, Except.bind, bind]
  | ok line =>
    exfalso
    have := A1111MetadataParser.paramsLine_ok_present st cb _ line hpl k hk
    rw [habs] at this
    cases this

/-- Witness for C10: an empty entry list (every required key absent)
makes the serializer raise. -/
theorem C10_serializer_required_keys_witness :
    ∃ e, A1111MetadataParser.parse_string
        (ParserState.mk [] [] 30 [] [] [] [] []) [] [] = .error e :=
  C10_serializer_required_keys (ParserState.mk [] [] 30 [] [] [] [] [])
    [] [] (lit "performance") (by decide) rfl

/-! ### C6: resolution pairs -/

theorem imagesizeMatch_none_of_head_not_digit (c : Char) (rest : Str)
    (h : c.isDigit = false) : imagesizeMatch (c :: rest) = none := by
  have ht : (c :: rest).takeWhile Char.isDigit = [] := by
    simp [List.takeWhile, h]
  have hd : (c :: rest).dropWhile Char.isDigit = c :: rest := by
    simp [List.dropWhile, h]
  unfold imagesizeMatch
  rw [ht, hd]
  simp only []
  split
  · simp
  · rfl

/-- C6: every parameter pair whose value matches the width-x-height
pattern is stored under the canonical key `resolution` as the Python
pair of the width and height digit strings — stated for the per-pair
processing step, and instantiated end-to-end on an input containing
`Size: 1024x768`. -/
theorem C6_resolution_parsing :
    (∀ (d : List (Str × Str)) (k v w h : Str), imagesizeMatch v = some (w, h) →
      A1111MetadataParser.processParam d (k, v) =
        setKey d (lit "resolution") (pyReprPair w h)) ∧
    (∃ dd, A1111MetadataParser.parse_json extractNone (fun _ => none) [] []
        [] (lit "cat\nSteps: 20, Sampler: Euler, Size: 1024x768") = .ok dd ∧
      lookupD dd (lit "resolution") =
        some (pyReprPair (lit "1024") (lit "768"))) := by
  constructor
  · intro d k v w h hm
    cases v with
    | nil => simp [imagesizeMatch] at hm
    | cons c rest =>
      have hc : c.isDigit = true := by
        by_contra hc
        rw [imagesizeMatch_none_of_head_not_digit c rest (by simpa using hc)] at hm
        cases hm
      have hcq : ¬(c = '"' ∧ (c :: rest).getLast? = some '"') := by
        rintro ⟨rfl, -⟩
        simp [Char.isDigit] at hc
      unfold A1111MetadataParser.processParam
      simp only [hcq, if_false, hm]
  · exact ⟨_, rfl, rfl⟩

/-- Witness for C6 at a concrete pair: `("Whatever", "64x48")` stores
`resolution = ("64", "48")`. -/
theorem C6_resolution_parsing_witness :
    A1111MetadataParser.processParam [] (lit "Whatever", lit "64x48") =
      setKey [] (lit "resolution") (pyReprPair (lit "64") (lit "48")) :=
  C6_resolution_parsing.1 [] (lit "Whatever") (lit "64x48") (lit "64") (lit "48")
    (by decide)

/-! ### C4: robustness of the A1111 parse -/

/-- C4, counterexample: the claim that the A1111 parse never raises on a
malformed individual field is false for `lora_hashes` entries — the
tuple unpacking `lora_name, lora_hash, lora_weight = lora.split(': ')`
is outside any `try` block, so the entry `"bad"` raises `ValueError`
instead of being logged and skipped. -/
theorem C4_counterexample :
    A1111MetadataParser.parse_json extractNone (fun _ => none) [] [lit "r"]
      (lit "r") (lit "a\nSteps: 20, Sampler: Euler, Lora hashes: bad") =
      .error (lit "ValueError: not enough values to unpack") := rfl

namespace A1111MetadataParser

theorem loraEntriesLoop_ok (lfs : List Str) :
    ∀ (entries : List Str) (idx : Nat) (d : List (Str × Str)),
    (∀ e ∈ entries, (pySplit (lit ": ") e).length = 3) →
    ∃ d', loraEntriesLoop lfs idx entries d = .ok d' := by
  intro entries
  induction entries with
  | nil => exact fun idx d _ => ⟨d, rfl⟩
  | cons e rest ih =>
    intro idx d h
    have he := h e (List.mem_cons_self _ _)
    match hsp : pySplit (lit ": ") e with
    | [name, hash, weight] =>
      obtain ⟨d', hd'⟩ := ih (idx + 1)
        (match findFile lfs name with
         | some fn =>
           setKey d (lit "lora_combined_" ++ natToStr idx) (fn ++ lit " : " ++ weight)
         | none => d)
        (fun e hm => h e (List.mem_cons_of_mem _ hm))
      refine ⟨d', ?_⟩
      rw [show loraEntriesLoop lfs idx (e :: rest) d =
          loraEntriesLoop lfs (idx + 1) rest
            (match findFile lfs name with
             | some fn => setKey d (lit "lora_combined_" ++ natToStr idx)
                 (fn ++ lit " : " ++ weight)
             | none => d) by
        simp [loraEntriesLoop, hsp]]
      exact hd'
    | [] => rw [hsp] at he; simp at he
    | [x] => rw [hsp] at he; simp at he
    | [x, y] => rw [hsp] at he; simp at he
    | x :: y :: z :: w :: t => rw [hsp] at he; simp at he

end A1111MetadataParser

/-- C4, amended: the A1111 parse never raises because of a malformed
`key: value` pair of the parameter line — such pairs are skipped and the
parse returns a partial result — but a present `lora_hashes` field is
processed outside any exception handler: parsing succeeds exactly under
the side conditions that the reserved LoRA is in the LoRA filename list
and every `', '`-separated entry of the field splits on `': '` into
exactly three parts; otherwise an exception propagates. -/
theorem C4_amended (extract : Str → Str → List Str × Str × Str)
    (s2p : Int → Option Str) (modelFs loraFs : List Str) (reserved : Str)
    (metadata : Str)
    (h : lookupD (A1111MetadataParser.dataBeforeLora extract s2p modelFs metadata)
        (lit "lora_hashes") = none ∨
      (∃ lh lfs,
        lookupD (A1111MetadataParser.dataBeforeLora extract s2p modelFs metadata)
          (lit "lora_hashes") = some lh ∧
        removeFirst loraFs reserved = some lfs ∧
        ∀ e ∈ pySplit (lit ", ") lh, (pySplit (lit ": ") e).length = 3)) :
    ∃ d, A1111MetadataParser.parse_json extract s2p modelFs loraFs reserved
      metadata = .ok d := by
  unfold A1111MetadataParser.parse_json A1111MetadataParser.loraBlock
  rcases h with h | ⟨lh, lfs, hlh, hres, hsplit⟩
  · rw [h]
    exact ⟨_, rfl⟩
  · rw [hlh, hres]
    exact A1111MetadataParser.loraEntriesLoop_ok lfs _ 1 _ hsplit

/-- Witness for C4 (amended): a parse with a well-formed `lora_hashes`
field succeeds. -/
theorem C4_amended_witness :
    ∃ d, A1111MetadataParser.parse_json extractNone (fun _ => none) []
      [lit "r", lit "styleA.safetensors"] (lit "r")
      (lit "a\nSteps: 20, Sampler: Euler, Lora hashes: styleA: aaaa: 0.8") =
      .ok d :=
  C4_amended extractNone (fun _ => none) [] [lit "r", lit "styleA.safetensors"]
    (lit "r") (lit "a\nSteps: 20, Sampler: Euler, Lora hashes: styleA: aaaa: 0.8")
    (Or.inr ⟨lit "styleA: aaaa: 0.8", [lit "styleA.safetensors"], rfl, rfl,
      by decide⟩)

/-! ### C3: the serializer's final text -/

set_option maxRecDepth 4000 in
/-- C3, counterexample: the serializer's output is not "the positive
prompt, then the parameter line, with trailing whitespace trimmed": the
final `.strip()` trims LEADING whitespace too.  With positive prompt
`" cat"` the produced text starts with `c`, not with the positive
prompt. -/
theorem C3_counterexample :
    ∃ s line,
      A1111MetadataParser.paramsLine cexState []
        (A1111MetadataParser.entriesDict cexEntries) = .ok line ∧
      A1111MetadataParser.parse_string cexState [] cexEntries = .ok s ∧
      s = pyStrip (lit " cat" ++ '\n' :: line) ∧
      s ≠ pyStripRight (lit " cat" ++ '\n' :: line) := by
  refine ⟨_, _, rfl, rfl, by decide, by decide⟩

/-- C3, amended: for every entry list the A1111 serializer accepts, the
produced text is exactly the positive prompt, then — only when the
negative prompt is non-empty — a line beginning `"\nNegative prompt: "`
followed by the negative prompt, then the sorted parameter line, the
whole trimmed of leading AND trailing whitespace. -/
theorem C3_amended (st : ParserState) (cb : Str)
    (metadata : List (Str × Str × Str)) (s : Str)
    (h : A1111MetadataParser.parse_string st cb metadata = .ok s) :
    ∃ line, A1111MetadataParser.paramsLine st cb
        (A1111MetadataParser.entriesDict metadata) = .ok line ∧
      s = pyStrip (List.intercalate (lit ", ") st.full_prompt ++
        (if List.intercalate (lit ", ") st.full_negative_prompt ≠ [] then
          lit "\nNegative prompt: " ++
            List.intercalate (lit ", ") st.full_negative_prompt
         else []) ++
        '\n' :: line) := by
  unfold A1111MetadataParser.parse_string at h
  cases hpl : A1111MetadataParser.paramsLine st cb
      (A1111MetadataParser.entriesDict metadata) with
  | error e =>
    simp [hpl, bind, Except.bind] at h
  | ok line =>
    simp only [hpl, bind, Except.bind, Except.ok.injEq] at h
    exact ⟨line, rfl, h.symm⟩

/-- Witness for C3 (amended) at the concrete state/entries. -/
theorem C3_amended_witness :
    ∃ s line,
      A1111MetadataParser.parse_string cexState [] cexEntries = .ok s ∧
      A1111MetadataParser.paramsLine cexState []
        (A1111MetadataParser.entriesDict cexEntries) = .ok line ∧
      s = pyStrip (List.intercalate (lit ", ") cexState.full_prompt ++
        (if List.intercalate (lit ", ") cexState.full_negative_prompt ≠ [] then
          lit "\nNegative prompt: " ++
            List.intercalate (lit ", ") cexState.full_negative_prompt
         else []) ++
        '\n' :: line) := by
  obtain ⟨line, h1, h2⟩ := C3_amended cexState [] cexEntries _ rfl
  exact ⟨_, line, rfl, h1, h2⟩
/-! ### String-manipulation lemmas -/

theorem length_dropWhile_le (p : Char → Bool) : ∀ (s : Str),
    (s.dropWhile p).length ≤ s.length := by
  intro s
  induction s with
  | nil => simp
  | cons c t ih =>
    by_cases hc : p c
    · simp only [List.dropWhile, hc]
      exact Nat.le_trans ih (Nat.le_succ _)
    · simp [List.dropWhile, hc]

theorem dropWhile_eq_self_of_head (p : Char → Bool) :
    ∀ (s : Str), (∀ c, s.head? = some c → p c = false) → s.dropWhile p = s := by
  intro s h
  cases s with
  | nil => rfl
  | cons c t => simp [List.dropWhile, h c rfl]

theorem dropWhile_eq_self_of_length (p : Char → Bool) :
    ∀ (s : Str), (s.dropWhile p).length = s.length → s.dropWhile p = s := by
  intro s h
  cases s with
  | nil => rfl
  | cons c t =>
    by_cases hc : p c
    · exfalso
      simp only [List.dropWhile, hc] at h
      have := length_dropWhile_le p t
      simp only [List.length_cons] at h
      omega
    · simp [List.dropWhile, hc]

theorem head_false_of_dropWhile_eq_self (p : Char → Bool) (s : Str) (c : Char)
    (h : s.dropWhile p = s) (hc : s.head? = some c) : p c = false := by
  cases s with
  | nil => cases hc
  | cons a t =>
    have hac : a = c := by
      simp only [List.head?] at hc
      injection hc
    by_cases hp : p a
    · exfalso
      simp only [List.dropWhile, hp] at h
      have h1 := length_dropWhile_le p t
      have h2 : (t.dropWhile p).length = (a :: t).length := by rw [h]
      simp only [List.length_cons] at h2
      omega
    · rw [← hac]
      simpa using hp

theorem pyStrip_parts (s : Str) (h : pyStrip s = s) :
    s.dropWhile isPySpace = s ∧ s.reverse.dropWhile isPySpace = s.reverse := by
  have hlen : (pyStrip s).length = s.length := by rw [h]
  unfold pyStrip at hlen
  simp only [List.length_reverse] at hlen
  have h1 : ((s.dropWhile isPySpace).reverse.dropWhile isPySpace).length ≤
      (s.dropWhile isPySpace).length := by
    have := length_dropWhile_le isPySpace (s.dropWhile isPySpace).reverse
    simpa using this
  have h2 : (s.dropWhile isPySpace).length ≤ s.length := length_dropWhile_le _ s
  have heq : (s.dropWhile isPySpace).length = s.length := by omega
  have hfst : s.dropWhile isPySpace = s := dropWhile_eq_self_of_length _ s heq
  refine ⟨hfst, ?_⟩
  have : pyStrip s = (s.reverse.dropWhile isPySpace).reverse := by
    unfold pyStrip
    rw [hfst]
  rw [h] at this
  have := congrArg List.reverse this
  simpa using this.symm

theorem pyStrip_eq_self_of (s : Str)
    (hh : ∀ c, s.head? = some c → isPySpace c = false)
    (hl : ∀ c, s.getLast? = some c → isPySpace c = false) : pyStrip s = s := by
  unfold pyStrip
  rw [dropWhile_eq_self_of_head _ s hh]
  rw [dropWhile_eq_self_of_head _ s.reverse (by
    intro c hc
    rw [List.head?_reverse] at hc
    exact hl c hc)]
  simp

theorem pyStrip_head (s : Str) (h : pyStrip s = s) (c : Char)
    (hc : s.head? = some c) : isPySpace c = false :=
  head_false_of_dropWhile_eq_self _ s c (pyStrip_parts s h).1 hc

theorem pyStrip_last (s : Str) (h : pyStrip s = s) (c : Char)
    (hc : s.getLast? = some c) : isPySpace c = false := by
  refine head_false_of_dropWhile_eq_self _ s.reverse c (pyStrip_parts s h).2 ?_
  rw [List.head?_reverse]
  exact hc

theorem head?_append_of_ne_nil (x r : Str) (h : x ≠ []) :
    (x ++ r).head? = x.head? := by
  cases x with
  | nil => exact absurd rfl h
  | cons a t => rfl

theorem getLast?_append_of_ne_nil (x y : Str) (h : y ≠ []) :
    (x ++ y).getLast? = y.getLast? := by
  rw [← List.head?_reverse, ← List.head?_reverse, List.reverse_append]
  exact head?_append_of_ne_nil _ _ (by simpa using h)

theorem pyStrip_space_cons (b : Str) (hb : pyStrip b = b) :
    pyStrip (' ' :: b) = b := by
  obtain ⟨h1, h2⟩ := pyStrip_parts b hb
  unfold pyStrip
  rw [show List.dropWhile isPySpace (' ' :: b) = List.dropWhile isPySpace b by
    simp [List.dropWhile, isPySpace]]
  rw [h1, h2]
  simp

/-! Lemmas about `splitOnChar` and `List.intercalate`. -/

theorem intercalate_cons_cons (sep a b : Str) (t : List Str) :
    List.intercalate sep (a :: b :: t) = a ++ sep ++ List.intercalate sep (b :: t) := by
  simp [List.intercalate, List.intersperse]

theorem intercalate_singleton (sep a : Str) : List.intercalate sep [a] = a := by
  simp [List.intercalate]

theorem splitOnChar_not_mem (sep : Char) : ∀ (s : Str), sep ∉ s →
    splitOnChar sep s = [s] := by
  intro s
  induction s with
  | nil => intro _; rfl
  | cons c t ih =>
    intro h
    simp only [List.mem_cons, not_or] at h
    rw [show splitOnChar sep (c :: t) =
        match splitOnChar sep t with
        | [] => [[c]]
        | h :: t2 => (c :: h) :: t2 by
      simp [splitOnChar, Ne.symm h.1]]
    rw [ih h.2]

theorem splitOnChar_append (sep : Char) : ∀ (x y : Str), sep ∉ x →
    splitOnChar sep (x ++ sep :: y) = x :: splitOnChar sep y := by
  intro x
  induction x with
  | nil => intro y _; simp [splitOnChar]
  | cons c t ih =>
    intro y h
    simp only [List.mem_cons, not_or] at h
    rw [show (c :: t) ++ sep :: y = c :: (t ++ sep :: y) by simp]
    rw [show splitOnChar sep (c :: (t ++ sep :: y)) =
        match splitOnChar sep (t ++ sep :: y) with
        | [] => [[c]]
        | h :: t2 => (c :: h) :: t2 by
      simp [splitOnChar, Ne.symm h.1]]
    rw [ih y h.2]

theorem splitOnChar_intercalate (sep : Char) : ∀ (L : List Str), L ≠ [] →
    (∀ l ∈ L, sep ∉ l) →
    splitOnChar sep (List.intercalate [sep] L) = L := by
  intro L
  induction L with
  | nil => intro h; exact absurd rfl h
  | cons a t ih =>
    intro _ hmem
    cases t with
    | nil =>
      rw [intercalate_singleton]
      exact splitOnChar_not_mem sep a (hmem a (List.mem_cons_self _ _))
    | cons b t2 =>
      rw [intercalate_cons_cons]
      rw [show a ++ [sep] ++ List.intercalate [sep] (b :: t2) =
          a ++ sep :: List.intercalate [sep] (b :: t2) by simp]
      rw [splitOnChar_append sep a _ (hmem a (List.mem_cons_self _ _))]
      rw [ih (by simp) (fun l hl => hmem l (List.mem_cons_of_mem _ hl))]

theorem intercalate_append_singleton (sep : Str) : ∀ (M : List Str) (z : Str),
    M ≠ [] → List.intercalate sep (M ++ [z]) =
      List.intercalate sep M ++ sep ++ z := by
  intro M
  induction M with
  | nil => intro z h; exact absurd rfl h
  | cons a t ih =>
    intro z _
    cases t with
    | nil =>
      rw [show (a :: []) ++ [z] = a :: z :: [] by simp]
      rw [intercalate_cons_cons, intercalate_singleton, intercalate_singleton]
    | cons b t2 =>
      rw [show ((a :: b :: t2) ++ [z]) = a :: b :: (t2 ++ [z]) by simp]
      rw [intercalate_cons_cons]
      rw [show b :: (t2 ++ [z]) = (b :: t2) ++ [z] by simp]
      rw [ih z (by simp)]
      rw [intercalate_cons_cons]
      simp

/-! ### Prompt-loop lemmas -/

namespace A1111MetadataParser

theorem promptLoop_cons_noHit_notDone (p n : Str) (l : Str) (rest : List Str)
    (h : negLabel.isPrefixOf (pyStrip l) = false) :
    promptLoop (p, n, false) (l :: rest) =
      promptLoop (appendLine p (pyStrip l), n, false) rest := by
  simp [promptLoop, h]

theorem promptLoop_cons_hit (p n : Str) (done : Bool) (l : Str) (rest : List Str)
    (h : negLabel.isPrefixOf (pyStrip l) = true) :
    promptLoop (p, n, done) (l :: rest) =
      promptLoop (p, appendLine n (pyStrip ((pyStrip l).drop negLabel.length)),
        true) rest := by
  simp [promptLoop, h]

theorem promptLoop_cons_done (p n : Str) (l : Str) (rest : List Str)
    (h : negLabel.isPrefixOf (pyStrip l) = false) :
    promptLoop (p, n, true) (l :: rest) =
      promptLoop (p, appendLine n (pyStrip l), true) rest := by
  simp [promptLoop, h]

theorem promptLoop_done_run : ∀ (ns : List Str) (p n : Str),
    (∀ l ∈ ns, negLabel.isPrefixOf (pyStrip l) = false) →
    promptLoop (p, n, true) ns =
      (p, ns.foldl (fun acc l => appendLine acc (pyStrip l)) n) := by
  intro ns
  induction ns with
  | nil => intro p n _; rfl
  | cons l t ih =>
    intro p n h
    rw [promptLoop_cons_done p n l t (h l (List.mem_cons_self _ _))]
    rw [ih p _ (fun l hl => h l (List.mem_cons_of_mem _ hl))]
    rfl

end A1111MetadataParser

theorem intercalate_glue (sep : Char) (t : List Str) (n l : Str) :
    List.intercalate [sep] ((n ++ sep :: l) :: t) =
      List.intercalate [sep] (n :: l :: t) := by
  cases t with
  | nil =>
    rw [intercalate_singleton, intercalate_cons_cons, intercalate_singleton]
    simp
  | cons x t2 =>
    rw [intercalate_cons_cons, intercalate_cons_cons, intercalate_cons_cons]
    simp

theorem foldl_appendLine_intercalate :
    ∀ (ns : List Str) (n : Str), n ≠ [] →
    (∀ l ∈ ns, pyStrip l = l) →
    ns.foldl (fun acc l => A1111MetadataParser.appendLine acc (pyStrip l)) n =
      List.intercalate (lit "\n") (n :: ns) := by
  intro ns
  induction ns with
  | nil =>
    intro n _ _
    rw [intercalate_singleton]
    rfl
  | cons l t ih =>
    intro n hn hs
    have hl : pyStrip l = l := hs l (List.mem_cons_self _ _)
    rw [show (l :: t).foldl (fun acc l => A1111MetadataParser.appendLine acc (pyStrip l)) n =
        t.foldl (fun acc l => A1111MetadataParser.appendLine acc (pyStrip l))
          (A1111MetadataParser.appendLine n (pyStrip l)) from rfl]
    rw [hl]
    rw [show A1111MetadataParser.appendLine n l = n ++ '\n' :: l by
      unfold A1111MetadataParser.appendLine
      rw [if_neg hn]]
    rw [ih (n ++ '\n' :: l) (by simp) (fun l hl => hs l (List.mem_cons_of_mem _ hl))]
    exact intercalate_glue '\n' t n l

/-! ### C5: the negative-prompt split -/

/-- C5, amended: lines after a line beginning with the `Negative prompt:`
label belong to the negative prompt and earlier lines to the positive
prompt — with each line individually stripped, the label's remainder
stripped, and newline separators inserted only after a non-empty
accumulated prefix; the concrete instance
`"cat\nNegative prompt: dog\nSteps: 20, Sampler: Euler, Seed: 1"` yields
prompt `"cat"`, negative_prompt `"dog"` and steps `"20"`. -/
theorem C5_amended (extract : Str → Str → List Str × Str × Str)
    (s2p : Int → Option Str) (modelFs loraFs : List Str) (reserved : Str)
    (a b : Str) (ns : List Str) (ss : List Str)
    (ha1 : pyStrip a = a) (ha2 : a ≠ [])
    (ha3 : A1111MetadataParser.negLabel.isPrefixOf a = false)
    (ha4 : '\n' ∉ a)
    (hb1 : pyStrip b = b) (hb2 : b ≠ []) (hb4 : '\n' ∉ b)
    (hns : ∀ l ∈ ns, pyStrip l = l ∧
      A1111MetadataParser.negLabel.isPrefixOf l = false ∧ '\n' ∉ l)
    (hex : extract a (List.intercalate (lit "\n") (b :: ns)) =
      (ss, a, List.intercalate (lit "\n") (b :: ns))) :
    ∃ d, A1111MetadataParser.parse_json extract s2p modelFs loraFs reserved
        (List.intercalate (lit "\n")
          (a :: (lit "Negative prompt: " ++ b) :: ns ++
            [lit "Steps: 20, Sampler: Euler, Seed: 1"])) = .ok d ∧
      lookupD d (lit "prompt") = some a ∧
      lookupD d (lit "negative_prompt") =
        some (List.intercalate (lit "\n") (b :: ns)) ∧
      lookupD d (lit "steps") = some (lit "20") := by
  set lastline : Str := lit "Steps: 20, Sampler: Euler, Seed: 1" with hll
  set negline : Str := lit "Negative prompt: " ++ b with hnegline
  set M : List Str := a :: negline :: ns with hM
  set B : Str := List.intercalate (lit "\n") (b :: ns) with hB
  set input : Str := List.intercalate (lit "\n") (M ++ [lastline]) with hinput
  have hlitnl : lit "\n" = ['\n'] := rfl
  -- no element of the line list contains a newline
  have h_noNl : ∀ l ∈ M ++ [lastline], '\n' ∉ l := by
    intro l hl
    rw [hM] at hl
    simp only [List.cons_append, List.mem_cons, List.mem_append,
      List.mem_singleton, List.not_mem_nil, or_false] at hl
    rcases hl with rfl | rfl | hl | rfl
    · exact ha4
    · rw [hnegline]
      intro hmem
      rcases List.mem_append.mp hmem with hmem2 | hmem2
      · revert hmem2; decide
      · exact hb4 hmem2
    · exact (hns l hl).2.2
    · rw [hll]; decide
  -- splitting the joined input recovers the lines
  have hsplit : splitOnChar '\n' input = M ++ [lastline] := by
    rw [hinput, hlitnl]
    exact splitOnChar_intercalate '\n' (M ++ [lastline]) (by simp [hM]) h_noNl
  -- the whole input is strip-invariant
  have hinput_eq : input = List.intercalate ['\n'] M ++ ['\n'] ++ lastline := by
    rw [hinput, hlitnl]
    exact intercalate_append_singleton ['\n'] M lastline (by simp [hM])
  have hstrip_input : pyStrip input = input := by
    apply pyStrip_eq_self_of
    · intro c hc
      rw [hinput_eq] at hc
      rw [hM, intercalate_cons_cons] at hc
      rw [show a ++ ['\n'] ++ List.intercalate ['\n'] (negline :: ns) ++ ['\n'] ++ lastline
          = a ++ (['\n'] ++ List.intercalate ['\n'] (negline :: ns) ++ ['\n'] ++ lastline) by
        simp] at hc
      rw [head?_append_of_ne_nil a _ ha2] at hc
      exact pyStrip_head a ha1 c hc
    · intro c hc
      rw [hinput_eq] at hc
      rw [show List.intercalate ['\n'] M ++ ['\n'] ++ lastline
          = (List.intercalate ['\n'] M ++ ['\n']) ++ lastline by simp] at hc
      rw [getLast?_append_of_ne_nil _ lastline (by rw [hll]; decide)] at hc
      rw [hll] at hc
      have : c = '1' := by
        have h1 : (lit "Steps: 20, Sampler: Euler, Seed: 1").getLast? = some '1' := by
          decide
        rw [h1] at hc
        injection hc with hc
        exact hc.symm
      rw [this]
      decide
  -- the computed parameter pairs of the last line
  have hfp : findParams lastline =
      [(lit "Steps", lit "20"), (lit "Sampler", lit "Euler"),
       (lit "Seed", lit "1")] := by
    rw [hll]
    rfl
  -- the negative-prompt line
  have hstrip_negline : pyStrip negline = negline := by
    apply pyStrip_eq_self_of
    · intro c hc
      rw [hnegline] at hc
      rw [head?_append_of_ne_nil _ b (by decide)] at hc
      have : c = 'N' := by
        have h1 : (lit "Negative prompt: ").head? = some 'N' := by decide
        rw [h1] at hc
        injection hc with hc
        exact hc.symm
      rw [this]
      decide
    · intro c hc
      rw [hnegline] at hc
      rw [getLast?_append_of_ne_nil _ b hb2] at hc
      exact pyStrip_last b hb1 c hc
  have hng : negline = A1111MetadataParser.negLabel ++ (' ' :: b) := by
    rw [hnegline]
    rw [show lit "Negative prompt: " = A1111MetadataParser.negLabel ++ [' '] from rfl]
    simp
  have hhit : A1111MetadataParser.negLabel.isPrefixOf negline = true := by
    rw [hng, List.isPrefixOf_iff_prefix]
    exact List.prefix_append _ _
  have hdropneg : negline.drop (A1111MetadataParser.negLabel.length) = ' ' :: b := by
    rw [hng]
    exact List.drop_left _ _
  -- the prompt loop separates the prompt and the negative prompt
  have hloop : A1111MetadataParser.promptLoop ([], [], false) M = (a, B) := by
    rw [hM]
    rw [A1111MetadataParser.promptLoop_cons_noHit_notDone [] [] a (negline :: ns)
      (by rw [ha1]; exact ha3)]
    rw [ha1]
    rw [show A1111MetadataParser.appendLine [] a = a from rfl]
    rw [A1111MetadataParser.promptLoop_cons_hit a [] false negline ns
      (by rw [hstrip_negline]; exact hhit)]
    rw [hstrip_negline, hdropneg, pyStrip_space_cons b hb1]
    rw [show A1111MetadataParser.appendLine [] b = b from rfl]
    rw [A1111MetadataParser.promptLoop_done_run ns a b
      (fun l hl => by rw [(hns l hl).1]; exact (hns l hl).2.1)]
    rw [foldl_appendLine_intercalate ns b hb2 (fun l hl => (hns l hl).1)]
  -- the data dict before the lora block
  have hdata : A1111MetadataParser.dataBeforeLora extract s2p modelFs input =
      A1111MetadataParser.resolveBaseModel modelFs
        (A1111MetadataParser.perfFromSteps s2p
          (setKey (setKey (setKey
            [(lit "prompt", a), (lit "negative_prompt", B),
             (lit "styles", pyReprStrList ss)]
            (lit "steps") (lit "20"))
            (lit "sampler") (lit "Euler")) (lit "seed") (lit "1"))) := by
    simp only [A1111MetadataParser.dataBeforeLora]
    rw [hstrip_input, hsplit]
    rw [List.dropLast_concat, List.getLast?_concat]
    simp only [Option.getD_some]
    rw [hfp]
    simp only [List.length_cons, List.length_nil]
    norm_num
    rw [hloop, hex]
    rfl
  -- lookups in the pre-perf dict
  set d3 : List (Str × Str) :=
    setKey (setKey (setKey
      [(lit "prompt", a), (lit "negative_prompt", B),
       (lit "styles", pyReprStrList ss)]
      (lit "steps") (lit "20"))
      (lit "sampler") (lit "Euler")) (lit "seed") (lit "1") with hd3
  have hl_prompt : lookupD d3 (lit "prompt") = some a := by
    rw [hd3, lookupD_setKey_ne _ _ _ _ (by decide),
      lookupD_setKey_ne _ _ _ _ (by decide),
      lookupD_setKey_ne _ _ _ _ (by decide)]
    rfl
  have hl_neg : lookupD d3 (lit "negative_prompt") = some B := by
    rw [hd3, lookupD_setKey_ne _ _ _ _ (by decide),
      lookupD_setKey_ne _ _ _ _ (by decide),
      lookupD_setKey_ne _ _ _ _ (by decide)]
    rfl
  have hl_steps : lookupD d3 (lit "steps") = some (lit "20") := by
    rw [hd3, lookupD_setKey_ne _ _ _ _ (by decide),
      lookupD_setKey_ne _ _ _ _ (by decide), lookupD_setKey_self]
  have hl_perf : lookupD d3 (lit "performance") = none := by
    rw [hd3, lookupD_setKey_ne _ _ _ _ (by decide),
      lookupD_setKey_ne _ _ _ _ (by decide),
      lookupD_setKey_ne _ _ _ _ (by decide)]
    rfl
  have hl_bm : lookupD d3 (lit "base_model") = none := by
    rw [hd3, lookupD_setKey_ne _ _ _ _ (by decide),
      lookupD_setKey_ne _ _ _ _ (by decide),
      lookupD_setKey_ne _ _ _ _ (by decide)]
    rfl
  have hl_lh : lookupD d3 (lit "lora_hashes") = none := by
    rw [hd3, lookupD_setKey_ne _ _ _ _ (by decide),
      lookupD_setKey_ne _ _ _ _ (by decide),
      lookupD_setKey_ne _ _ _ _ (by decide)]
    rfl
  -- the performance fallback either adds a performance entry or not
  have hparse : pyParseInt (lit "20") = some 20 := rfl
  have hfinal : ∀ d4 : List (Str × Str),
      (d4 = d3 ∨ ∃ pv, d4 = setKey d3 (lit "performance") pv) →
      A1111MetadataParser.parse_json extract s2p modelFs loraFs reserved input
        = .ok d4 →
      lookupD d4 (lit "prompt") = some a ∧
      lookupD d4 (lit "negative_prompt") = some B ∧
      lookupD d4 (lit "steps") = some (lit "20") := by
    intro d4 hcase _
    rcases hcase with rfl | ⟨pv, rfl⟩
    · exact ⟨hl_prompt, hl_neg, hl_steps⟩
    · exact ⟨(lookupD_setKey_ne _ _ _ _ (by decide)).trans hl_prompt,
        (lookupD_setKey_ne _ _ _ _ (by decide)).trans hl_neg,
        (lookupD_setKey_ne _ _ _ _ (by decide)).trans hl_steps⟩
  cases hs : s2p 20 with
  | none =>
    have hperf : A1111MetadataParser.perfFromSteps s2p d3 = d3 := by
      unfold A1111MetadataParser.perfFromSteps
      simp only [hl_steps, hl_perf, hparse, hs]
    have hresolve : A1111MetadataParser.resolveBaseModel modelFs d3 = d3 := by
      unfold A1111MetadataParser.resolveBaseModel
      simp only [hl_bm]
    have hpj : A1111MetadataParser.parse_json extract s2p modelFs loraFs reserved
        input = .ok d3 := by
      unfold A1111MetadataParser.parse_json A1111MetadataParser.loraBlock
      simp only [hdata, hperf, hresolve, hl_lh]
    exact ⟨d3, hpj, hfinal d3 (Or.inl rfl) hpj⟩
  | some pv =>
    set d4 : List (Str × Str) := setKey d3 (lit "performance") pv with hd4
    have hperf : A1111MetadataParser.perfFromSteps s2p d3 = d4 := by
      unfold A1111MetadataParser.perfFromSteps
      simp only [hl_steps, hl_perf, hparse, hs]
    have hresolve : A1111MetadataParser.resolveBaseModel modelFs d4 = d4 := by
      unfold A1111MetadataParser.resolveBaseModel
      simp only [hd4, lookupD_setKey_ne _ _ _ _ (show lit "base_model" ≠ lit "performance" by decide), hl_bm]
    have hpj : A1111MetadataParser.parse_json extract s2p modelFs loraFs reserved
        input = .ok d4 := by
      unfold A1111MetadataParser.parse_json A1111MetadataParser.loraBlock
      simp only [hdata, hperf, hresolve, hd4, lookupD_setKey_ne _ _ _ _ (show lit "lora_hashes" ≠ lit "performance" by decide), hl_lh]
    exact ⟨d4, hpj, hfinal d4 (Or.inr ⟨pv, hd4⟩) hpj⟩

/-- Witness for C5 (amended): the claim's concrete example
`"cat\nNegative prompt: dog\nSteps: 20, Sampler: Euler, Seed: 1"`. -/
theorem C5_amended_witness :
    ∃ d, A1111MetadataParser.parse_json extractNone (fun _ => none) [] []
        [] (lit "cat\nNegative prompt: dog\nSteps: 20, Sampler: Euler, Seed: 1") =
        .ok d ∧
      lookupD d (lit "prompt") = some (lit "cat") ∧
      lookupD d (lit "negative_prompt") = some (lit "dog") ∧
      lookupD d (lit "steps") = some (lit "20") := by
  have := C5_amended extractNone (fun _ => none) [] [] [] (lit "cat") (lit "dog")
    [] [] (by decide) (by decide) (by decide) (by decide)
    (by decide) (by decide) (by decide)
    (by intro l hl; cases hl) rfl
  simpa using this

/-- C5, counterexample: on input
`"cat\nNegative prompt:\ndog\nSteps: 20, Sampler: Euler, Seed: 1"` the
line after the bare label line is rejoined WITHOUT a leading newline
separator (the separator is only inserted after a non-empty accumulated
prefix), so the negative prompt is `"dog"`, not the claim's
label-stripped-lines-rejoined-with-newlines `"\ndog"`. -/
theorem C5_counterexample :
    ∃ d, A1111MetadataParser.parse_json extractNone (fun _ => none) [] []
        [] (lit "cat\nNegative prompt:\ndog\nSteps: 20, Sampler: Euler, Seed: 1") =
        .ok d ∧
      lookupD d (lit "negative_prompt") = some (lit "dog") ∧
      lit "dog" ≠ '\n' :: lit "dog" :=
  ⟨_, rfl, rfl, by decide⟩

/-! ### Decimal rendering lemmas (for the round-trip claim) -/

theorem digitChar_sub (n : Nat) (h : n < 10) :
    (digitChar n).toNat - '0'.toNat = n := by
  interval_cases n <;> decide

theorem digitChar_isDigit (n : Nat) (h : n < 10) :
    (digitChar n).isDigit = true := by
  interval_cases n <;> decide

theorem digitsVal_append (s : Str) (c : Char) :
    digitsVal (s ++ [c]) = digitsVal s * 10 + (c.toNat - '0'.toNat) := by
  simp [digitsVal, List.foldl_append]

theorem natToStrAux_val : ∀ (fuel n : Nat), n < fuel →
    digitsVal (natToStrAux fuel n) = n := by
  intro fuel
  induction fuel with
  | zero => intro n h; omega
  | succ f ih =>
    intro n h
    by_cases h10 : n < 10
    · simp only [natToStrAux, h10, if_true]
      simp only [digitsVal, List.foldl]
      simpa using digitChar_sub n h10
    · simp only [natToStrAux, h10, if_false]
      rw [digitsVal_append]
      rw [ih (n / 10) (by omega)]
      rw [digitChar_sub (n % 10) (by omega)]
      omega

theorem natToStr_val (n : Nat) : digitsVal (natToStr n) = n :=
  natToStrAux_val (n + 1) n (Nat.lt_succ_self n)

theorem natToStr_inj (a b : Nat) (h : natToStr a = natToStr b) : a = b := by
  have := congrArg digitsVal h
  rwa [natToStr_val, natToStr_val] at this

theorem natToStrAux_digits : ∀ (fuel n : Nat), n < fuel →
    (natToStrAux fuel n).all Char.isDigit = true := by
  intro fuel
  induction fuel with
  | zero => intro n h; omega
  | succ f ih =>
    intro n h
    by_cases h10 : n < 10
    · simp [natToStrAux, h10, digitChar_isDigit n h10]
    · simp only [natToStrAux, h10, if_false, List.all_append]
      rw [ih (n / 10) (by omega)]
      simp [digitChar_isDigit (n % 10) (by omega)]

theorem natToStr_digits (n : Nat) : (natToStr n).all Char.isDigit = true :=
  natToStrAux_digits (n + 1) n (Nat.lt_succ_self n)

theorem natToStr_ne_nil (n : Nat) : natToStr n ≠ [] := by
  unfold natToStr natToStrAux
  by_cases h10 : n < 10
  · simp [h10]
  · simp [h10]

theorem loraKey_inj (i j : Nat)
    (h : lit "lora_combined_" ++ natToStr i = lit "lora_combined_" ++ natToStr j) :
    i = j := by
  apply natToStr_inj
  exact List.append_cancel_left h

theorem isWordChar_not_space (c : Char) (h : isWordChar c = true) :
    isPySpace c = false := by
  by_contra h2
  have h2' : isPySpace c = true := by simpa using h2
  simp only [isPySpace, Bool.or_eq_true, decide_eq_true_eq] at h2'
  rcases h2' with ((((rfl | rfl) | rfl) | rfl) | rfl) | rfl <;>
    exact absurd h (by decide)

theorem takeWhile_append_of (p : Char → Bool) : ∀ (l r : Str),
    (∀ a ∈ l, p a = true) →
    (match r with | [] => True | c :: _ => p c = false) →
    (l ++ r).takeWhile p = l ∧ (l ++ r).dropWhile p = r := by
  intro l
  induction l with
  | nil =>
    intro r _ hr
    cases r with
    | nil => simp
    | cons c t =>
      simp only [List.nil_append]
      exact ⟨by simp [List.takeWhile, hr], by simp [List.dropWhile, hr]⟩
  | cons a t ih =>
    intro r hl hr
    have ha : p a = true := hl a (List.mem_cons_self _ _)
    obtain ⟨h1, h2⟩ := ih r (fun x hx => hl x (List.mem_cons_of_mem _ hx)) hr
    constructor
    · simp [List.takeWhile, ha, h1]
    · simp [List.dropWhile, ha, h2]

/-! Reduction helpers for the quoted-string scanners on abstract
characters. -/

theorem scanQContent_ordinary (c : Char) (X : Str) (h1 : c ≠ '"')
    (h2 : c ≠ '\\') : scanQContent (c :: X) =
      (scanQContent X).map (fun p => (c :: p.1, p.2)) := by
  rw [scanQContent.eq_def]
  split
  · rename_i heq
    exact absurd heq (by simp)
  · rename_i heq
    injection heq with he _
    exact absurd he h1
  · rename_i heq
    injection heq with he _
    exact absurd he h2
  · rename_i heq
    injection heq with he hX
    rw [he, hX]

theorem jsonStrContent_ordinary (c : Char) (r : Str) (h1 : c ≠ '"')
    (h2 : c ≠ '\\') : jsonStrContent (c :: r) =
      (if c.toNat < 32 then none
       else (jsonStrContent r).map (fun p => (c :: p.1, p.2))) := by
  rw [jsonStrContent.eq_def]
  split
  · rename_i heq
    exact absurd heq (by simp)
  · rename_i heq
    injection heq with he _
    exact absurd he h1
  · rename_i heq
    injection heq with he _
    exact absurd he h2
  · rename_i heq
    injection heq with he hr
    rw [he, hr]

theorem jsonEscapeChar_ne_nil (c : Char) : jsonEscapeChar c ≠ [] := by
  unfold jsonEscapeChar
  split_ifs <;> simp

theorem jsonEscape_ne_nil (v : Str) (h : v ≠ []) : jsonEscape v ≠ [] := by
  cases v with
  | nil => exact absurd rfl h
  | cons c t =>
    show jsonEscapeChar c ++ jsonEscape t ≠ []
    simp [jsonEscapeChar_ne_nil c]

theorem scanQContent_bslash (e : Char) (X : Str) :
    scanQContent ('\\' :: e :: X) =
      if e = '\n' then none
      else (scanQContent X).map (fun p => ('\\' :: e :: p.1, p.2)) := rfl

theorem jsonSafe_cons (c : Char) (t : Str) (h : jsonSafe (c :: t) = true) :
    (32 ≤ c.toNat ∨ c = '\n' ∨ c = '\t' ∨ c = '\r' ∨ c = Char.ofNat 8 ∨
      c = Char.ofNat 12) ∧ jsonSafe t = true := by
  simp only [jsonSafe, List.all_cons, Bool.and_eq_true, Bool.or_eq_true,
    decide_eq_true_eq] at h
  refine ⟨?_, h.2⟩
  tauto

theorem scanQContent_escape (v : Str) (rest : Str) (hs : jsonSafe v = true) :
    scanQContent (jsonEscape v ++ '"' :: rest) =
      some (jsonEscape v, rest) := by
  induction v with
  | nil => rfl
  | cons c t ih =>
    obtain ⟨hc, ht⟩ := jsonSafe_cons c t hs
    have iht := ih ht
    by_cases h1 : c = '"'
    · subst h1
      show scanQContent ('\\' :: '"' :: (jsonEscape t ++ '"' :: rest)) =
        some ('\\' :: '"' :: jsonEscape t, rest)
      rw [scanQContent_bslash, if_neg (by decide), iht]
      rfl
    by_cases h2 : c = '\\'
    · subst h2
      show scanQContent ('\\' :: '\\' :: (jsonEscape t ++ '"' :: rest)) =
        some ('\\' :: '\\' :: jsonEscape t, rest)
      rw [scanQContent_bslash, if_neg (by decide), iht]
      rfl
    by_cases h3 : c = '\n'
    · subst h3
      show scanQContent ('\\' :: 'n' :: (jsonEscape t ++ '"' :: rest)) =
        some ('\\' :: 'n' :: jsonEscape t, rest)
      rw [scanQContent_bslash, if_neg (by decide), iht]
      rfl
    by_cases h4 : c = '\t'
    · subst h4
      show scanQContent ('\\' :: 't' :: (jsonEscape t ++ '"' :: rest)) =
        some ('\\' :: 't' :: jsonEscape t, rest)
      rw [scanQContent_bslash, if_neg (by decide), iht]
      rfl
    by_cases h5 : c = '\r'
    · subst h5
      show scanQContent ('\\' :: 'r' :: (jsonEscape t ++ '"' :: rest)) =
        some ('\\' :: 'r' :: jsonEscape t, rest)
      rw [scanQContent_bslash, if_neg (by decide), iht]
      rfl
    by_cases h6 : c = Char.ofNat 8
    · subst h6
      show scanQContent ('\\' :: 'b' :: (jsonEscape t ++ '"' :: rest)) =
        some ('\\' :: 'b' :: jsonEscape t, rest)
      rw [scanQContent_bslash, if_neg (by decide), iht]
      rfl
    by_cases h7 : c = Char.ofNat 12
    · subst h7
      show scanQContent ('\\' :: 'f' :: (jsonEscape t ++ '"' :: rest)) =
        some ('\\' :: 'f' :: jsonEscape t, rest)
      rw [scanQContent_bslash, if_neg (by decide), iht]
      rfl
    · have h32 : 32 ≤ c.toNat := by
        rcases hc with h | h | h | h | h | h
        · exact h
        all_goals exact absurd h (by assumption)
      have hech : jsonEscapeChar c = [c] := by
        simp only [jsonEscapeChar, if_neg h1, if_neg h2, if_neg h3, if_neg h4,
          if_neg h5, if_neg h6, if_neg h7, if_neg (by omega : ¬c.toNat < 32)]
      rw [show jsonEscape (c :: t) = jsonEscapeChar c ++ jsonEscape t from rfl,
        hech]
      simp only [List.cons_append, List.nil_append]
      rw [scanQContent_ordinary c _ h1 h2, iht]
      rfl

theorem jsonStrContent_escape (v : Str) (rest : Str)
    (hs : jsonSafe v = true) :
    jsonStrContent (jsonEscape v ++ '"' :: rest) = some (v, rest) := by
  induction v with
  | nil => rfl
  | cons c t ih =>
    obtain ⟨hc, ht⟩ := jsonSafe_cons c t hs
    have iht := ih ht
    by_cases h1 : c = '"'
    · subst h1
      show jsonStrContent ('\\' :: '"' :: (jsonEscape t ++ '"' :: rest)) =
        some ('"' :: t, rest)
      rw [show ∀ X, jsonStrContent ('\\' :: '"' :: X) =
        (jsonStrContent X).map (fun p => ('"' :: p.1, p.2)) from fun X => rfl,
        iht]
      rfl
    by_cases h2 : c = '\\'
    · subst h2
      show jsonStrContent ('\\' :: '\\' :: (jsonEscape t ++ '"' :: rest)) =
        some ('\\' :: t, rest)
      rw [show ∀ X, jsonStrContent ('\\' :: '\\' :: X) =
        (jsonStrContent X).map (fun p => ('\\' :: p.1, p.2)) from fun X => rfl,
        iht]
      rfl
    by_cases h3 : c = '\n'
    · subst h3
      show jsonStrContent ('\\' :: 'n' :: (jsonEscape t ++ '"' :: rest)) =
        some ('\n' :: t, rest)
      rw [show ∀ X, jsonStrContent ('\\' :: 'n' :: X) =
        (jsonStrContent X).map (fun p => ('\n' :: p.1, p.2)) from fun X => rfl,
        iht]
      rfl
    by_cases h4 : c = '\t'
    · subst h4
      show jsonStrContent ('\\' :: 't' :: (jsonEscape t ++ '"' :: rest)) =
        some ('\t' :: t, rest)
      rw [show ∀ X, jsonStrContent ('\\' :: 't' :: X) =
        (jsonStrContent X).map (fun p => ('\t' :: p.1, p.2)) from fun X => rfl,
        iht]
      rfl
    by_cases h5 : c = '\r'
    · subst h5
      show jsonStrContent ('\\' :: 'r' :: (jsonEscape t ++ '"' :: rest)) =
        some ('\r' :: t, rest)
      rw [show ∀ X, jsonStrContent ('\\' :: 'r' :: X) =
        (jsonStrContent X).map (fun p => ('\r' :: p.1, p.2)) from fun X => rfl,
        iht]
      rfl
    by_cases h6 : c = Char.ofNat 8
    · subst h6
      show jsonStrContent ('\\' :: 'b' :: (jsonEscape t ++ '"' :: rest)) =
        some (Char.ofNat 8 :: t, rest)
      rw [show ∀ X, jsonStrContent ('\\' :: 'b' :: X) =
        (jsonStrContent X).map (fun p => (Char.ofNat 8 :: p.1, p.2)) from
        fun X => rfl, iht]
      rfl
    by_cases h7 : c = Char.ofNat 12
    · subst h7
      show jsonStrContent ('\\' :: 'f' :: (jsonEscape t ++ '"' :: rest)) =
        some (Char.ofNat 12 :: t, rest)
      rw [show ∀ X, jsonStrContent ('\\' :: 'f' :: X) =
        (jsonStrContent X).map (fun p => (Char.ofNat 12 :: p.1, p.2)) from
        fun X => rfl, iht]
      rfl
    · have h32 : 32 ≤ c.toNat := by
        rcases hc with h | h | h | h | h | h
        · exact h
        all_goals exact absurd h (by assumption)
      have hech : jsonEscapeChar c = [c] := by
        simp only [jsonEscapeChar, if_neg h1, if_neg h2, if_neg h3, if_neg h4,
          if_neg h5, if_neg h6, if_neg h7, if_neg (by omega : ¬c.toNat < 32)]
      rw [show jsonEscape (c :: t) = jsonEscapeChar c ++ jsonEscape t from rfl,
        hech]
      simp only [List.cons_append, List.nil_append]
      rw [jsonStrContent_ordinary c _ h1 h2, if_neg (by omega), iht]
      rfl

theorem unquote_jsonDumps (v : Str) (hs : jsonSafe v = true) :
    unquote (jsonDumps v) = v := by
  have hT : jsonDumps v = '"' :: (jsonEscape v ++ ['"']) := by
    simp [jsonDumps]
  have hlast : ('"' :: (jsonEscape v ++ ['"'])).getLast? = some '"' := by
    rw [show '"' :: (jsonEscape v ++ ['"']) = ('"' :: jsonEscape v) ++ ['"']
      from rfl]
    exact List.getLast?_concat _
  have hdw : ('"' :: (jsonEscape v ++ ['"'])).dropWhile isJsonWs =
      '"' :: (jsonEscape v ++ ['"']) := by
    simp [List.dropWhile, show isJsonWs ('"') = false from by decide]
  have hload : jsonLoadsString ('"' :: (jsonEscape v ++ ['"'])) = some v := by
    simp only [jsonLoadsString, hdw]
    rw [show (jsonEscape v ++ ['"'] : Str) = jsonEscape v ++ '"' :: [] from
      rfl, jsonStrContent_escape v [] hs]
    simp
  rw [hT, unquote, if_neg (by simp [hlast]), hload]
  rfl

/-! ### Scanner fuel irrelevance -/

theorem findParamsAux_nil : ∀ (fuel : Nat), findParamsAux fuel [] = [] := by
  intro fuel
  cases fuel <;> rfl

theorem findParamsAux_succ (g : Nat) (cs : Str) :
    findParamsAux (g + 1) cs =
      match tryPair cs with
      | some (p, rest) => p :: findParamsAux g rest
      | none => match cs with | [] => [] | _ :: t => findParamsAux g t := rfl

theorem scanQContent_len_aux : ∀ (n : Nat) (r : Str), r.length ≤ n →
    ∀ (cont rem : Str), scanQContent r = some (cont, rem) →
      rem.length < r.length := by
  intro n
  induction n with
  | zero =>
    intro r hr cont rem h
    have hnil : r = [] := List.eq_nil_of_length_eq_zero (Nat.le_zero.mp hr)
    subst hnil
    cases h
  | succ n ih =>
    intro r hr cont rem h
    match r with
    | [] => cases h
    | c :: t =>
      by_cases h1 : c = '"'
      · subst h1
        rw [show scanQContent ('"' :: t) = some ([], t) from rfl] at h
        simp only [Option.some.injEq, Prod.mk.injEq] at h
        rw [← h.2]
        simp
      by_cases h2 : c = '\\'
      · subst h2
        match t with
        | [] => cases h
        | e :: r2 =>
          rw [scanQContent_bslash] at h
          by_cases h3 : e = '\n'
          · rw [if_pos h3] at h
            cases h
          · rw [if_neg h3] at h
            cases hs : scanQContent r2 with
            | none => rw [hs] at h; cases h
            | some pr =>
              obtain ⟨c2, r2x⟩ := pr
              rw [hs] at h
              simp only [Option.map_some', Option.some.injEq,
                Prod.mk.injEq] at h
              have hlen : r2.length ≤ n := by
                simp only [List.length_cons] at hr
                omega
              have := ih r2 hlen c2 r2x hs
              rw [← h.2]
              simp only [List.length_cons]
              omega
      · rw [scanQContent_ordinary c t h1 h2] at h
        cases hs : scanQContent t with
        | none => rw [hs] at h; cases h
        | some pr =>
          obtain ⟨c2, r2x⟩ := pr
          rw [hs] at h
          simp only [Option.map_some', Option.some.injEq, Prod.mk.injEq] at h
          have hlen : t.length ≤ n := by
            simp only [List.length_cons] at hr
            omega
          have := ih t hlen c2 r2x hs
          rw [← h.2]
          simp only [List.length_cons]
          omega

theorem scanQContent_len (r cont rem : Str)
    (h : scanQContent r = some (cont, rem)) : rem.length < r.length :=
  scanQContent_len_aux r.length r le_rfl cont rem h

theorem tryQuoted_len (v0 qv rest2 : Str) (h : tryQuoted v0 = some (qv, rest2)) :
    rest2.length < v0.length := by
  match v0, h with
  | [], h => cases h
  | c :: r, h =>
    by_cases hc : c = '"'
    · subst hc
      rw [show tryQuoted ('"' :: r) =
          (match scanQContent r with
           | some (cont, rem) =>
             if cont = [] then none
             else
               match rem with
               | ',' :: t => some ('"' :: cont ++ ['"'], t)
               | [] => some ('"' :: cont ++ ['"'], [])
               | _ => none
           | none => none) from rfl] at h
      cases hs : scanQContent r with
      | none => rw [hs] at h; cases h
      | some pr =>
        obtain ⟨cont, rem⟩ := pr
        rw [hs] at h
        simp only [] at h
        by_cases hcont : cont = []
        · rw [if_pos hcont] at h
          cases h
        · rw [if_neg hcont] at h
          have hrem := scanQContent_len r cont rem hs
          match rem, h with
          | [], h =>
            simp only [Option.some.injEq, Prod.mk.injEq] at h
            rw [← h.2]
            simp
          | ',' :: t, h =>
            simp only [Option.some.injEq, Prod.mk.injEq] at h
            rw [← h.2]
            simp only [List.length_cons] at hrem ⊢
            omega
          | c2 :: t, h =>
            by_cases hc2 : c2 = ','
            · subst hc2
              simp only [Option.some.injEq, Prod.mk.injEq] at h
              rw [← h.2]
              simp only [List.length_cons] at hrem ⊢
              omega
            · split at h
              · rename_i t2 heq
                injection heq with h1 _
                exact absurd h1 hc2
              · rename_i heq
                exact absurd heq (by simp)
              · cases h
    · have hnone : tryQuoted (c :: r) = none := by
        rw [tryQuoted.eq_def]
        split
        · rename_i r2 heq
          injection heq with h1 _
          exact absurd h1 hc
        · rfl
      rw [hnone] at h
      cases h

theorem tryPair_consumes (cs : Str) (p : Str × Str) (rest : Str)
    (h : tryPair cs = some (p, rest)) : rest.length < cs.length := by
  have hlen1 : (List.dropWhile isPySpace cs).length ≤ cs.length :=
    length_dropWhile_le _ _
  simp only [tryPair] at h
  split at h
  · cases h
  · rename_i c restk heq
    have hlen2 : restk.length + 1 ≤ cs.length := by
      rw [heq] at hlen1
      simpa using hlen1
    split at h
    · split at h
      · cases h
      · split at h
        · rename_i afterColon heqak
          have hlen3 : (List.dropWhile isKeyChar restk).length ≤ restk.length :=
            length_dropWhile_le _ _
          have hlen4 : afterColon.length + 1 ≤ restk.length := by
            rw [heqak] at hlen3
            simpa using hlen3
          have hlen5 :
              (List.dropWhile isPySpace afterColon).length ≤ afterColon.length :=
            length_dropWhile_le _ _
          split at h
          · rename_i qv rest2 heqq
            simp only [Option.some.injEq, Prod.mk.injEq] at h
            have := tryQuoted_len _ qv rest2 heqq
            rw [← h.2]
            omega
          · split at h
            · rename_i t heqr
              simp only [Option.some.injEq, Prod.mk.injEq] at h
              have hlen6 : (List.dropWhile (fun d => d ≠ ',')
                  (List.dropWhile isPySpace afterColon)).length ≤
                  (List.dropWhile isPySpace afterColon).length :=
                length_dropWhile_le _ _
              rw [heqr] at hlen6
              simp only [List.length_cons] at hlen6
              rw [← h.2]
              omega
            · rename_i hne
              simp only [Option.some.injEq, Prod.mk.injEq] at h
              have hlen6 : (List.dropWhile (fun d => d ≠ ',')
                  (List.dropWhile isPySpace afterColon)).length ≤
                  (List.dropWhile isPySpace afterColon).length :=
                length_dropWhile_le _ _
              rw [← h.2]
              omega
        · cases h
    · cases h

theorem findParamsAux_fuel : ∀ (n : Nat) (cs : Str), cs.length ≤ n →
    ∀ (fuel : Nat), cs.length < fuel →
    findParamsAux fuel cs = findParamsAux (cs.length + 1) cs := by
  intro n
  induction n with
  | zero =>
    intro cs hcs fuel hfuel
    have hnil : cs = [] := List.eq_nil_of_length_eq_zero (Nat.le_zero.mp hcs)
    subst hnil
    rw [findParamsAux_nil, findParamsAux_nil]
  | succ n ih =>
    intro cs hcs fuel hfuel
    match fuel, hfuel with
    | f + 1, hfuel =>
      rw [findParamsAux_succ, findParamsAux_succ]
      cases hp : tryPair cs with
      | some pr =>
        obtain ⟨p, rest⟩ := pr
        simp only [hp]
        have hrest : rest.length < cs.length := tryPair_consumes cs p rest hp
        congr 1
        rw [ih rest (by omega) f (by omega), ih rest (by omega) cs.length
          (by omega)]
      | none =>
        simp only [hp]
        cases cs with
        | nil => rfl
        | cons c t =>
          simp only [List.length_cons] at hcs hfuel ⊢
          exact ih t (by omega) f (by omega)

theorem findParamsAux_eq_findParams (fuel : Nat) (cs : Str)
    (h : cs.length < fuel) : findParamsAux fuel cs = findParams cs :=
  findParamsAux_fuel cs.length cs le_rfl fuel h

theorem tryPair_cons_space (X : Str) : tryPair (' ' :: X) = tryPair X := by
  simp only [tryPair]
  rw [show List.dropWhile isPySpace (' ' :: X) = List.dropWhile isPySpace X from
    by rw [List.dropWhile_cons, if_pos (by decide : isPySpace (' ') = true)]]

theorem findParams_cons_space (X : Str) : findParams (' ' :: X) = findParams X := by
  rw [show findParams (' ' :: X) =
    findParamsAux ((' ' :: X).length + 1) (' ' :: X) from rfl,
    findParamsAux_succ, tryPair_cons_space]
  cases hp : tryPair X with
  | some pr =>
    obtain ⟨p, rest⟩ := pr
    simp only [hp]
    rw [show findParams X = findParamsAux (X.length + 1) X from rfl,
      findParamsAux_succ]
    simp only [hp]
    congr 1
    have hr := tryPair_consumes X p rest hp
    rw [findParamsAux_eq_findParams _ _ (by simp only [List.length_cons]; omega),
      findParamsAux_eq_findParams _ _ (by omega)]
  | none =>
    simp only [hp]
    show findParamsAux ((' ' :: X).length) X = findParams X
    simp only [List.length_cons]
    rfl

/-! ### Scanning a rendered parameter line -/

theorem goodKey_parts (k : Str) (h : goodKey k = true) :
    ∃ c restk, k = c :: restk ∧ isWordChar c = true ∧ restk ≠ [] ∧
      (∀ a ∈ restk, isKeyChar a = true) := by
  match k with
  | [] => cases h
  | c :: restk =>
    simp only [goodKey, Bool.and_eq_true, Bool.not_eq_true',
      List.isEmpty_eq_false_iff_exists_mem, List.all_eq_true] at h
    refine ⟨c, restk, rfl, h.1.1, ?_, h.2⟩
    obtain ⟨x, hx⟩ := h.1.2
    intro hnil
    rw [hnil] at hx
    cases hx

theorem needsQuote_not_mem (v : Str) (h : needsQuote v = false) :
    ',' ∉ v ∧ '\n' ∉ v ∧ ':' ∉ v := by
  simp only [needsQuote, Bool.or_eq_false_iff] at h
  refine ⟨?_, ?_, ?_⟩
  · intro hm
    have := List.elem_iff.mpr hm
    rw [show (List.elem ',' v) = v.contains ',' from rfl] at this
    rw [h.1.1] at this
    cases this
  · intro hm
    have := List.elem_iff.mpr hm
    rw [show (List.elem '\n' v) = v.contains '\n' from rfl] at this
    rw [h.1.2] at this
    cases this
  · intro hm
    have := List.elem_iff.mpr hm
    rw [show (List.elem ':' v) = v.contains ':' from rfl] at this
    rw [h.2] at this
    cases this

theorem needsQuote_nil : needsQuote [] = false := rfl

theorem goodScanVal_quoted (v : Str) (hq : needsQuote v = true)
    (h : goodScanVal v = true) : jsonSafe v = true := by
  rw [goodScanVal.eq_def, if_pos hq] at h
  exact h

theorem goodScanVal_unquoted_head (v : Str) (c : Char) (t : Str)
    (hq : needsQuote v = false) (h : goodScanVal v = true) (hv : v = c :: t) :
    isPySpace c = false ∧ c ≠ '"' := by
  rw [goodScanVal.eq_def, if_neg (by rw [hq]; simp)] at h
  subst hv
  simp only [Bool.and_eq_true, Bool.not_eq_true'] at h
  refine ⟨h.1.1, ?_⟩
  intro hc
  subst hc
  simp at h

theorem goodScanVal_unquoted_last (v : Str) (d : Char)
    (hq : needsQuote v = false) (h : goodScanVal v = true)
    (hd : v.getLast? = some d) : isPySpace d = false := by
  rw [goodScanVal.eq_def, if_neg (by rw [hq]; simp)] at h
  match v, h, hd with
  | c :: t, h, hd =>
    rw [hd] at h
    simp only [Bool.and_eq_true, Bool.not_eq_true'] at h
    exact h.2

theorem quote_ne_nil_head_not_space (v : Str) (hv : goodScanVal v = true) :
    List.dropWhile isPySpace (quote v) = quote v := by
  by_cases hq : needsQuote v
  · rw [quote, if_pos hq]
    rw [show jsonDumps v = '"' :: (jsonEscape v ++ ['"']) from rfl,
      List.dropWhile_cons, if_neg (by decide)]
  · rw [quote, if_neg hq]
    match v with
    | [] => rfl
    | c :: t =>
      obtain ⟨hsp, _⟩ := goodScanVal_unquoted_head (c :: t) c t
        (by simpa using hq) hv rfl
      rw [List.dropWhile_cons, if_neg (by simp [hsp])]

theorem tryPair_render (k v rest1 : Str) (hk : goodKey k = true)
    (hv : goodScanVal v = true)
    (hrest : rest1 = [] ∨ ∃ t, rest1 = ',' :: t) :
    tryPair (k ++ ':' :: ' ' :: (quote v ++ rest1)) =
      some ((k, quote v), sepTail rest1) := by
  obtain ⟨c, restk, rfl, hw, hrk, hall⟩ := goodKey_parts k hk
  have hnspace : isPySpace c = false := isWordChar_not_space c hw
  have h1 : List.dropWhile isPySpace
      (c :: (restk ++ ':' :: ' ' :: (quote v ++ rest1))) =
      c :: (restk ++ ':' :: ' ' :: (quote v ++ rest1)) := by
    rw [List.dropWhile_cons, if_neg (by simp [hnspace])]
  have h2 := takeWhile_append_of isKeyChar restk
    (':' :: ' ' :: (quote v ++ rest1)) hall (by exact rfl)
  have h3 : List.dropWhile isPySpace (' ' :: (quote v ++ rest1)) =
      quote v ++ rest1 := by
    rw [List.dropWhile_cons, if_pos (by decide)]
    by_cases hq : needsQuote v
    · rw [quote, if_pos hq]
      rw [show (jsonDumps v ++ rest1 : Str) =
        '"' :: (jsonEscape v ++ ['"'] ++ rest1) from by
          simp [jsonDumps], List.dropWhile_cons, if_neg (by decide)]
    · rw [quote, if_neg hq]
      match v with
      | [] =>
        rcases hrest with rfl | ⟨t, rfl⟩
        · rfl
        · simp only [List.nil_append]
          rw [List.dropWhile_cons, if_neg (by decide)]
      | c2 :: t2 =>
        obtain ⟨hsp, _⟩ := goodScanVal_unquoted_head (c2 :: t2) c2 t2
          (by simpa using hq) hv rfl
        rw [List.cons_append, List.dropWhile_cons, if_neg (by simp [hsp])]
  simp only [List.cons_append, tryPair, h1, if_pos hw, h2.1, h2.2,
    if_neg hrk, h3]
  by_cases hq : needsQuote v
  · -- quoted value: the quoted alternative matches
    have hvne : v ≠ [] := by
      intro hnil
      rw [hnil, needsQuote_nil] at hq
      cases hq
    have hsafe : jsonSafe v = true := goodScanVal_quoted v hq hv
    have hquote : (quote v ++ rest1 : Str) =
        '"' :: (jsonEscape v ++ '"' :: rest1) := by
      rw [quote, if_pos hq]
      simp [jsonDumps]
    have hqval : quote v = '"' :: jsonEscape v ++ ['"'] := by
      rw [quote, if_pos hq, jsonDumps]
    rw [hquote]
    have htq : tryQuoted ('"' :: (jsonEscape v ++ '"' :: rest1)) =
        some (('"' :: jsonEscape v ++ ['"'] : Str), sepTail rest1) := by
      rw [show tryQuoted ('"' :: (jsonEscape v ++ '"' :: rest1)) =
          (match scanQContent (jsonEscape v ++ '"' :: rest1) with
           | some (cont, rem) =>
             if cont = [] then none
             else
               match rem with
               | ',' :: t => some ('"' :: cont ++ ['"'], t)
               | [] => some ('"' :: cont ++ ['"'], [])
               | _ => none
           | none => none) from rfl,
        scanQContent_escape v rest1 hsafe]
      simp only []
      rw [if_neg (jsonEscape_ne_nil v hvne)]
      rcases hrest with rfl | ⟨t, rfl⟩
      · rfl
      · rfl
    rw [htq]
    simp only []
    rw [hqval]
  · -- unquoted value: the quoted alternative fails, `[^,]*` captures v
    have hqid : quote v = v := by rw [quote, if_neg hq]
    obtain ⟨hnc, _, _⟩ := needsQuote_not_mem v (by simpa using hq)
    have htq : tryQuoted (quote v ++ rest1) = none := by
      rw [hqid, tryQuoted.eq_def]
      split
      · rename_i r2 heq
        match v, heq with
        | [], heq =>
          rcases hrest with rfl | ⟨t, rfl⟩
          · cases heq
          · rw [List.nil_append] at heq
            injection heq with hh _
            cases hh
        | c2 :: t2, heq =>
          obtain ⟨_, hcq⟩ := goodScanVal_unquoted_head (c2 :: t2) c2 t2
            (by simpa using hq) hv rfl
          rw [List.cons_append] at heq
          injection heq with hh _
          exact absurd hh hcq
      · rfl
    rw [htq]
    simp only []
    have h4 := takeWhile_append_of (fun d => decide (d ≠ ',')) v rest1
      (by
        intro a ha
        simp only [decide_eq_true_eq]
        intro hcomma
        rw [hcomma] at ha
        exact hnc ha)
      (by
        rcases hrest with rfl | ⟨t, rfl⟩
        · trivial
        · simp)
    rw [hqid, h4.1, h4.2]
    rcases hrest with rfl | ⟨t, rfl⟩
    · rfl
    · rfl

theorem findParams_render : ∀ (ps : List (Str × Str)),
    (∀ kv ∈ ps, goodKey kv.1 = true ∧ goodScanVal kv.2 = true ∧
      kv.1 ≠ kv.2) →
    findParams (List.intercalate (lit ", ")
        (ps.map A1111MetadataParser.renderPair)) =
      ps.map (fun kv => (kv.1, quote kv.2)) := by
  intro ps
  induction ps with
  | nil => intro _; rfl
  | cons kv t ih =>
    intro h
    obtain ⟨hk, hv, hne⟩ := h kv (List.mem_cons_self _ _)
    have hrp : A1111MetadataParser.renderPair kv =
        kv.1 ++ ':' :: ' ' :: quote kv.2 := by
      unfold A1111MetadataParser.renderPair
      rw [if_neg hne]
    cases t with
    | nil =>
      rw [List.map_cons, List.map_nil, intercalate_singleton, hrp]
      have htp := tryPair_render kv.1 kv.2 [] hk hv (Or.inl rfl)
      rw [List.append_nil] at htp
      rw [show findParams (kv.1 ++ ':' :: ' ' :: quote kv.2) =
        findParamsAux ((kv.1 ++ ':' :: ' ' :: quote kv.2).length + 1)
          (kv.1 ++ ':' :: ' ' :: quote kv.2) from rfl,
        findParamsAux_succ, htp]
      simp only [List.map_cons, List.map_nil]
      rw [show sepTail ([] : Str) = ([] : Str) from rfl]
      rw [findParamsAux_nil]
    | cons kv2 t2 =>
      simp only [List.map_cons]
      rw [intercalate_cons_cons, hrp]
      have hglue : (kv.1 ++ ':' :: ' ' :: quote kv.2) ++ lit ", " ++
          List.intercalate (lit ", ") (A1111MetadataParser.renderPair kv2 ::
            List.map A1111MetadataParser.renderPair t2) =
          kv.1 ++ ':' :: ' ' :: (quote kv.2 ++
            (',' :: ' ' ::
              List.intercalate (lit ", ") (A1111MetadataParser.renderPair kv2 ::
                List.map A1111MetadataParser.renderPair t2))) := by
        rw [show lit ", " = [',', ' '] from rfl]
        simp
      rw [hglue]
      have htp := tryPair_render kv.1 kv.2
        (',' :: ' ' :: List.intercalate (lit ", ")
          (A1111MetadataParser.renderPair kv2 ::
            List.map A1111MetadataParser.renderPair t2))
        hk hv (Or.inr ⟨_, rfl⟩)
      have htp2 : tryPair (kv.1 ++ ':' :: ' ' :: (quote kv.2 ++
          (',' :: ' ' ::
            List.intercalate (lit ", ") (A1111MetadataParser.renderPair kv2 ::
              List.map A1111MetadataParser.renderPair t2)))) =
          some ((kv.1, quote kv.2),
            ' ' :: List.intercalate (lit ", ")
              (A1111MetadataParser.renderPair kv2 ::
                List.map A1111MetadataParser.renderPair t2)) :=
        htp
      rw [show findParams (kv.1 ++ ':' :: ' ' :: (quote kv.2 ++
          (',' :: ' ' ::
            List.intercalate (lit ", ") (A1111MetadataParser.renderPair kv2 ::
              List.map A1111MetadataParser.renderPair t2)))) =
        findParamsAux ((kv.1 ++ ':' :: ' ' :: (quote kv.2 ++
          (',' :: ' ' ::
            List.intercalate (lit ", ") (A1111MetadataParser.renderPair kv2 ::
              List.map A1111MetadataParser.renderPair t2)))).length + 1)
          (kv.1 ++ ':' :: ' ' :: (quote kv.2 ++
          (',' :: ' ' ::
            List.intercalate (lit ", ") (A1111MetadataParser.renderPair kv2 ::
              List.map A1111MetadataParser.renderPair t2)))) from rfl,
        findParamsAux_succ, htp2]
      simp only []
      congr 1
      rw [findParamsAux_eq_findParams _ _ (by
        simp only [List.length_append, List.length_cons]
        omega)]
      rw [findParams_cons_space]
      have ih2 := ih (fun kv3 hm => h kv3 (List.mem_cons_of_mem _ hm))
      simp only [List.map_cons] at ih2
      exact ih2

/-! ### Processing scanned pairs -/

theorem contains_eq_false_of_not_mem (v : Str) (c : Char) (h : c ∉ v) :
    v.contains c = false := by
  by_contra hb
  have hc : v.contains c = true := by simpa using hb
  exact h (List.elem_iff.mp hc)

theorem needsQuote_eq_false (v : Str) (h1 : ',' ∉ v) (h2 : '\n' ∉ v)
    (h3 : ':' ∉ v) : needsQuote v = false := by
  rw [needsQuote, contains_eq_false_of_not_mem v _ h1,
    contains_eq_false_of_not_mem v _ h2,
    contains_eq_false_of_not_mem v _ h3]
  rfl

theorem imagesizeMatch_render (w h : Str) (hw : w ≠ [])
    (hwd : ∀ c ∈ w, c.isDigit = true) (hh : h ≠ [])
    (hhd : ∀ c ∈ h, c.isDigit = true) :
    imagesizeMatch (w ++ 'x' :: h) = some (w, h) := by
  have hs := takeWhile_append_of Char.isDigit w ('x' :: h) hwd (by exact rfl)
  rw [imagesizeMatch.eq_def]
  simp only [hs.1, hs.2]
  rw [if_pos ⟨hw, hh, List.all_eq_true.mpr (fun c hc => hhd c hc)⟩]

theorem imagesizeMatch_none_of_colon (v : Str) (h : ':' ∈ v) :
    imagesizeMatch v = none := by
  have hsplit : List.takeWhile Char.isDigit v ++
      List.dropWhile Char.isDigit v = v :=
    List.takeWhile_append_dropWhile Char.isDigit v
  have hmem : ':' ∈ List.dropWhile Char.isDigit v := by
    rw [← hsplit] at h
    rcases List.mem_append.mp h with hm | hm
    · have := List.mem_takeWhile_imp hm
      simp at this
    · exact hm
  rw [imagesizeMatch.eq_def]
  simp only []
  split
  · rename_i r2 heq
    rw [heq] at hmem
    have hr2 : ':' ∈ r2 := by
      rcases List.mem_cons.mp hmem with hm | hm
      · cases hm
      · exact hm
    rw [if_neg]
    intro hcond
    have := List.all_eq_true.mp hcond.2.2 _ hr2
    simp at this
  · rfl

theorem processParam_quote (d : List (Str × Str)) (k v ck : Str)
    (hv : goodScanVal v = true) (hne : v ≠ [])
    (hsize : imagesizeMatch v = none) (hck : labelToKey k = some ck) :
    A1111MetadataParser.processParam d (k, quote v) = setKey d ck v := by
  by_cases hq : needsQuote v
  · have hsafe : jsonSafe v = true := goodScanVal_quoted v hq hv
    have hqd : quote v = '"' :: (jsonEscape v ++ ['"']) := by
      rw [quote, if_pos hq, jsonDumps]
      simp
    have hlast : ('"' :: (jsonEscape v ++ ['"'])).getLast? = some '"' := by
      rw [show ('"' :: (jsonEscape v ++ ['"']) : Str) =
        ('"' :: jsonEscape v) ++ ['"'] from by simp]
      exact List.getLast?_concat _
    have huq : unquote ('"' :: (jsonEscape v ++ ['"'])) = v := by
      rw [show ('"' :: (jsonEscape v ++ ['"']) : Str) = jsonDumps v from by
        simp [jsonDumps]]
      exact unquote_jsonDumps v hsafe
    unfold A1111MetadataParser.processParam
    rw [hqd]
    simp only [hlast, huq, hsize, hck, and_self, if_true]
  · have hqd : quote v = v := by rw [quote, if_neg hq]
    rw [hqd]
    match v, hne with
    | c2 :: t2, hne =>
      obtain ⟨hsp, hcq⟩ := goodScanVal_unquoted_head (c2 :: t2) c2 t2
        (by simpa using hq) hv rfl
      unfold A1111MetadataParser.processParam
      simp only []
      rw [if_neg (by
        intro hcond
        exact hcq hcond.1)]
      simp only [hsize, hck]

theorem processParam_size (d : List (Str × Str)) (k w h : Str) (hw : w ≠ [])
    (hwd : ∀ c ∈ w, c.isDigit = true) (hh : h ≠ [])
    (hhd : ∀ c ∈ h, c.isDigit = true) :
    A1111MetadataParser.processParam d (k, quote (w ++ 'x' :: h)) =
      setKey d (lit "resolution") (pyReprPair w h) := by
  have hnotmem : ∀ (c : Char), c.isDigit = false → c ≠ 'x' →
      c ∉ (w ++ 'x' :: h) := by
    intro c hcd hcx hm
    rcases List.mem_append.mp hm with hm | hm
    · rw [hwd c hm] at hcd
      cases hcd
    · rcases List.mem_cons.mp hm with hm | hm
      · exact hcx hm
      · rw [hhd c hm] at hcd
        cases hcd
  have hnq : needsQuote (w ++ 'x' :: h) = false :=
    needsQuote_eq_false _ (hnotmem ',' (by decide) (by decide))
      (hnotmem '\n' (by decide) (by decide))
      (hnotmem ':' (by decide) (by decide))
  have hqd : quote (w ++ 'x' :: h) = w ++ 'x' :: h := by
    rw [quote, if_neg (by rw [hnq]; simp)]
  rw [hqd]
  match w, hw with
  | wc :: wt, hw =>
    have hwc : wc.isDigit = true := hwd wc (List.mem_cons_self _ _)
    have hwcq : wc ≠ '"' := by
      intro hcq
      rw [hcq] at hwc
      cases hwc
    unfold A1111MetadataParser.processParam
    simp only [List.cons_append]
    rw [if_neg (by
      intro hcond
      exact hwcq hcond.1)]
    rw [show (wc :: (wt ++ 'x' :: h) : Str) = (wc :: wt) ++ 'x' :: h from rfl,
      imagesizeMatch_render (wc :: wt) h hw hwd hh hhd]

/-! ### Computing the serializer output -/

namespace A1111MetadataParser

theorem paramsLine_compute (st : ParserState) (cb : Str)
    (data : List (Str × Str)) (vres w h vperf vsampler vseed vguid vsharp vadm
      bm vver : Str)
    (hres : lookupD data (lit "resolution") = some vres)
    (heval : pyEvalPair vres = some (w, h))
    (hperf : lookupD data (lit "performance") = some vperf)
    (hsampler : lookupD data (lit "sampler") = some vsampler)
    (hseed : lookupD data (lit "seed") = some vseed)
    (hguid : lookupD data (lit "guidance_scale") = some vguid)
    (hsharp : lookupD data (lit "sharpness") = some vsharp)
    (hadm : lookupD data (lit "adm_guidance") = some vadm)
    (hbm : lookupD data (lit "base_model") = some bm)
    (hver : lookupD data (lit "version") = some vver) :
    paramsLine st cb data = Except.ok (List.intercalate (lit ", ")
      ((sortByLabel (generationParams st cb data (w, h) vperf vsampler vseed
        vguid vsharp vadm bm vver)).map renderPair)) := by
  unfold paramsLine
  simp only [req, hres, heval, hperf, hsampler, hseed, hguid, hsharp, hadm,
    hbm, hver, bind, Except.bind]

theorem sortedGP_eq (st : ParserState) (data : List (Str × Str))
    (w h vperf vsampler vseed vguid vsharp vadm bm vver : Str)
    (hrefiner : st.refiner_model_name = [])
    (hA : lookupD data (lit "adaptive_cfg") = none)
    (hO : lookupD data (lit "overwrite_switch") = none)
    (hR : lookupD data (lit "refiner_swap_method") = none)
    (hF : lookupD data (lit "freeu") = none) :
    sortByLabel (generationParams st [] data (w, h) vperf vsampler vseed
      vguid vsharp vadm bm vver) =
      [(lit "ADM Guidance", vadm), (lit "CFG scale", vguid),
       (lit "Lora hashes", loraHashesString st.loras),
       (lit "Model", pathStem bm), (lit "Model hash", st.base_model_hash),
       (lit "Performance", vperf), (lit "Sampler", vsampler),
       (lit "Seed", vseed), (lit "Sharpness", vsharp),
       (lit "Size", w ++ 'x' :: h), (lit "Steps", intToStr st.steps),
       (lit "Version", vver)] := by
  unfold generationParams
  rw [hrefiner, if_neg (by simp)]
  rw [show optionalEntries data = [] from by
    unfold optionalEntries
    simp [hA, hO, hR, hF]]
  rw [if_neg (by simp)]
  simp only [List.append_nil, List.nil_append, List.cons_append]
  rfl

end A1111MetadataParser

/-! ### Python split on a multi-character separator -/

theorem splitSepAux_succ (sep : Str) (f : Nat) (c : Char) (rest : Str) :
    splitSepAux sep (f + 1) (c :: rest) =
      if sep.isPrefixOf (c :: rest) then
        [] :: splitSepAux sep f ((c :: rest).drop sep.length)
      else
        match splitSepAux sep f rest with
        | [] => [[c]]
        | h :: t => (c :: h) :: t := rfl

theorem splitSepAux_nil (sep : Str) (fuel : Nat) :
    splitSepAux sep fuel [] = [[]] := by
  cases fuel <;> rfl

theorem splitSepAux_fuel (sep : Str) (hsep : sep ≠ []) :
    ∀ (n : Nat) (s : Str), s.length ≤ n → ∀ (fuel : Nat), s.length < fuel →
    splitSepAux sep fuel s = splitSepAux sep (s.length + 1) s := by
  intro n
  induction n with
  | zero =>
    intro s hs fuel hf
    have hnil : s = [] := List.eq_nil_of_length_eq_zero (Nat.le_zero.mp hs)
    subst hnil
    rw [splitSepAux_nil, splitSepAux_nil]
  | succ n ih =>
    intro s hs fuel hf
    match s, fuel, hf with
    | [], fuel, hf => rw [splitSepAux_nil, splitSepAux_nil]
    | c :: rest, f + 1, hf =>
      rw [splitSepAux_succ, splitSepAux_succ]
      have hseplen : 1 ≤ sep.length := by
        cases sep
        · exact absurd rfl hsep
        · simp
      simp only [List.length_cons] at hs hf ⊢
      by_cases hp : sep.isPrefixOf (c :: rest)
      · rw [if_pos hp, if_pos hp]
        congr 1
        have hlen : ((c :: rest).drop sep.length).length ≤ n := by
          simp only [List.length_drop, List.length_cons]
          omega
        have hlt1 : ((c :: rest).drop sep.length).length < f := by
          simp only [List.length_drop, List.length_cons]
          omega
        have hlt2 : ((c :: rest).drop sep.length).length < rest.length + 1 := by
          simp only [List.length_drop, List.length_cons]
          omega
        rw [ih _ hlen f hlt1, ih _ hlen _ hlt2]
      · rw [if_neg hp, if_neg hp]
        rw [ih rest (by omega) f (by omega)]

theorem pySplit_no_sep (c0 : Char) (srest : Str) : ∀ (fuel : Nat) (s : Str),
    c0 ∉ s → splitSepAux (c0 :: srest) fuel s = [s] := by
  intro fuel
  induction fuel with
  | zero =>
    intro s _
    cases s <;> rfl
  | succ f ih =>
    intro s hmem
    match s with
    | [] => rfl
    | c :: rest =>
      have hc : c ≠ c0 := by
        intro h
        exact hmem (h ▸ List.mem_cons_self _ _)
      rw [splitSepAux_succ, if_neg (by
        rw [List.isPrefixOf_iff_prefix]
        intro hp
        obtain ⟨t2, ht2⟩ := hp
        rw [List.cons_append] at ht2
        injection ht2 with h1 _
        exact hc h1.symm)]
      rw [ih rest (fun hm => hmem (List.mem_cons_of_mem _ hm))]

theorem pySplit_glue (c0 : Char) (srest : Str) : ∀ (a X : Str), c0 ∉ a →
    pySplit (c0 :: srest) (a ++ (c0 :: srest) ++ X) =
      a :: pySplit (c0 :: srest) X := by
  intro a
  induction a with
  | nil =>
    intro X _
    simp only [List.nil_append]
    rw [show pySplit (c0 :: srest) ((c0 :: srest) ++ X) =
      splitSepAux (c0 :: srest) (((c0 :: srest) ++ X).length + 1)
        ((c0 :: srest) ++ X) from rfl]
    rw [show ((c0 :: srest) ++ X : Str) = c0 :: (srest ++ X) from rfl]
    rw [splitSepAux_succ, if_pos (by
      rw [List.isPrefixOf_iff_prefix]
      exact ⟨X, by simp⟩)]
    congr 1
    have hdrop : (c0 :: (srest ++ X)).drop (c0 :: srest).length = X := by
      rw [show (c0 :: (srest ++ X) : Str) = (c0 :: srest) ++ X from by simp]
      exact List.drop_left _ _
    rw [hdrop]
    rw [splitSepAux_fuel (c0 :: srest) (by simp) X.length X le_rfl _ (by
      simp only [List.length_cons, List.length_append]
      omega)]
    rfl
  | cons ac arest ih =>
    intro X hmem
    have hac : ac ≠ c0 := fun h => hmem (h ▸ List.mem_cons_self _ _)
    rw [show ((ac :: arest) ++ (c0 :: srest) ++ X : Str) =
      ac :: (arest ++ (c0 :: srest) ++ X) from by simp]
    rw [show pySplit (c0 :: srest) (ac :: (arest ++ (c0 :: srest) ++ X)) =
      splitSepAux (c0 :: srest)
        ((ac :: (arest ++ (c0 :: srest) ++ X)).length + 1)
        (ac :: (arest ++ (c0 :: srest) ++ X)) from rfl]
    rw [splitSepAux_succ, if_neg (by
      rw [List.isPrefixOf_iff_prefix]
      intro hp
      obtain ⟨t2, ht2⟩ := hp
      rw [List.cons_append] at ht2
      injection ht2 with h1 _
      exact hac h1.symm)]
    simp only [List.length_cons]
    rw [show splitSepAux (c0 :: srest)
      ((arest ++ (c0 :: srest) ++ X).length + 1) (arest ++ (c0 :: srest) ++ X)
      = pySplit (c0 :: srest) (arest ++ (c0 :: srest) ++ X) from rfl]
    rw [ih X (fun hm => hmem (List.mem_cons_of_mem _ hm))]

theorem pySplit_intercalate (c0 : Char) (srest : Str) :
    ∀ (parts : List Str), parts ≠ [] → (∀ p ∈ parts, c0 ∉ p) →
    pySplit (c0 :: srest) (List.intercalate (c0 :: srest) parts) = parts := by
  intro parts
  induction parts with
  | nil => intro h _; exact absurd rfl h
  | cons a t ih =>
    intro _ hmem
    cases t with
    | nil =>
      rw [intercalate_singleton]
      exact pySplit_no_sep c0 srest _ a (hmem a (List.mem_cons_self _ _))
    | cons b t2 =>
      rw [intercalate_cons_cons]
      rw [pySplit_glue c0 srest a _ (hmem a (List.mem_cons_self _ _))]
      rw [ih (by simp) (fun p hp => hmem p (List.mem_cons_of_mem _ hp))]

/-! ### The lora-hashes block on serialized input -/

namespace A1111MetadataParser

end A1111MetadataParser

theorem lookupD_append (a b : List (Str × Str)) (k : Str) :
    lookupD (a ++ b) k =
      match lookupD a k with
      | some v => some v
      | none => lookupD b k := by
  induction a with
  | nil => rfl
  | cons p t ih =>
    obtain ⟨k0, v0⟩ := p
    by_cases hk : k0 = k
    · simp only [List.cons_append, lookupD, if_pos hk]
    · simp only [List.cons_append, lookupD, if_neg hk]
      exact ih

theorem setKey_append_absent (d : List (Str × Str)) (k : Str) (v : Str)
    (h : lookupD d k = none) : setKey d k v = d ++ [(k, v)] := by
  induction d with
  | nil => rfl
  | cons p t ih =>
    obtain ⟨k0, v0⟩ := p
    by_cases hk : k0 = k
    · rw [lookupD, if_pos hk] at h
      cases h
    · rw [lookupD, if_neg hk] at h
      rw [setKey, if_neg hk, ih h]
      rfl

theorem findFile_stem (files : List Str) (stem fn : Str)
    (h : findFile files stem = some fn) : pathStem fn = stem := by
  have := List.find?_some h
  exact beq_iff_eq.mp this

namespace A1111MetadataParser

theorem loraKey_ne (i : Nat) (k : Str)
    (hk : k.take 14 ≠ lit "lora_combined_") : loraKey i ≠ k := by
  intro h
  apply hk
  rw [← h]
  unfold loraKey
  rw [show (14 : Nat) = (lit "lora_combined_").length from rfl]
  exact List.take_left _ _

theorem loraKey_inj2 (i j : Nat) (h : loraKey i = loraKey j) : i = j :=
  loraKey_inj i j h

theorem lookupD_loraPairs_none (resolve : Str → Str) (k : Str)
    (hk : k.take 14 ≠ lit "lora_combined_") :
    ∀ (idx : Nat) (loras : List (Str × Str × Str)),
    lookupD (loraPairs resolve idx loras) k = none := by
  intro idx loras
  induction loras generalizing idx with
  | nil => rfl
  | cons l rest ih =>
    rw [loraPairs, lookupD, if_neg (loraKey_ne idx k hk)]
    exact ih (idx + 1)

theorem lookupD_loraPairs_at (resolve : Str → Str) :
    ∀ (loras : List (Str × Str × Str)) (idx j : Nat), j < loras.length →
    lookupD (loraPairs resolve idx loras) (loraKey (idx + j)) =
      some (resolve (loras.getD j ([], [], [])).1 ++ lit " : " ++
        (loras.getD j ([], [], [])).2.1) := by
  intro loras
  induction loras with
  | nil =>
    intro idx j hj
    simp at hj
  | cons l rest ih =>
    intro idx j hj
    cases j with
    | zero =>
      rw [loraPairs, lookupD, if_pos (by rw [Nat.add_zero])]
      rfl
    | succ j2 =>
      rw [loraPairs, lookupD, if_neg (by
        intro heq
        have := loraKey_inj2 _ _ heq
        omega)]
      rw [show idx + (j2 + 1) = (idx + 1) + j2 by omega]
      rw [ih (idx + 1) j2 (by simpa using hj)]
      rfl

theorem loraEntriesLoop_render (lfs : List Str) (resolve : Str → Str) :
    ∀ (loras : List (Str × Str × Str)) (idx : Nat) (d : List (Str × Str)),
    (∀ l ∈ loras, pySplit (lit ": ") (entryString l) = [l.1, l.2.2, l.2.1]) →
    (∀ l ∈ loras, findFile lfs l.1 = some (resolve l.1)) →
    (∀ j, idx ≤ j → lookupD d (loraKey j) = none) →
    loraEntriesLoop lfs idx (loras.map entryString) d =
      .ok (d ++ loraPairs resolve idx loras) := by
  intro loras
  induction loras with
  | nil =>
    intro idx d _ _ _
    rw [List.map_nil, loraPairs]
    simp only [List.append_nil]
    rfl
  | cons l rest ih =>
    intro idx d hsplit hfind habs
    rw [List.map_cons, loraEntriesLoop,
      hsplit l (List.mem_cons_self _ _)]
    simp only []
    rw [hfind l (List.mem_cons_self _ _)]
    simp only []
    rw [show (lit "lora_combined_" ++ natToStr idx : Str) = loraKey idx from
      rfl]
    rw [setKey_append_absent d (loraKey idx) _ (habs idx le_rfl)]
    rw [ih (idx + 1) (d ++ [(loraKey idx, resolve l.1 ++ lit " : " ++ l.2.1)])
      (fun l2 hm => hsplit l2 (List.mem_cons_of_mem _ hm))
      (fun l2 hm => hfind l2 (List.mem_cons_of_mem _ hm))
      (by
        intro j hj
        rw [lookupD_append]
        rw [habs j (by omega)]
        rw [show lookupD [(loraKey idx, resolve l.1 ++ lit " : " ++ l.2.1)]
            (loraKey j) = none from by
          rw [lookupD, if_neg (by
            intro heq
            have := loraKey_inj2 _ _ heq
            omega)]
          rfl])]
    rw [loraPairs]
    simp

theorem entryString_intercalate (l : Str × Str × Str) :
    entryString l = List.intercalate (lit ": ") [l.1, l.2.2, l.2.1] := by
  unfold entryString
  rw [intercalate_cons_cons, intercalate_cons_cons, intercalate_singleton]
  simp [List.append_assoc]

theorem entryString_split (l : Str × Str × Str) (h1 : ':' ∉ l.1)
    (h2 : ':' ∉ l.2.1) (h3 : ':' ∉ l.2.2) :
    pySplit (lit ": ") (entryString l) = [l.1, l.2.2, l.2.1] := by
  rw [entryString_intercalate,
    show (lit ": " : Str) = ':' :: lit " " from rfl]
  apply pySplit_intercalate
  · simp
  · intro p hp
    fin_cases hp
    · exact h1
    · exact h3
    · exact h2

theorem loraHashesString_eq (loras : List (Str × Str × Str)) :
    loraHashesString loras =
      List.intercalate (lit ", ") (loras.map entryString) := rfl

theorem entryString_no_comma (l : Str × Str × Str) (h1 : ',' ∉ l.1)
    (h2 : ',' ∉ l.2.1) (h3 : ',' ∉ l.2.2) : ',' ∉ entryString l := by
  unfold entryString
  intro hm
  simp only [List.append_assoc, List.mem_append] at hm
  rcases hm with hm | hm | hm | hm | hm
  · exact h1 hm
  · revert hm
    decide
  · exact h3 hm
  · revert hm
    decide
  · exact h2 hm

theorem pySplit_loraHashes (loras : List (Str × Str × Str))
    (hne : loras ≠ [])
    (hcm : ∀ l ∈ loras, ',' ∉ entryString l) :
    pySplit (lit ", ") (loraHashesString loras) = loras.map entryString := by
  rw [loraHashesString_eq, show (lit ", " : Str) = ',' :: lit " " from rfl]
  apply pySplit_intercalate
  · simp [hne]
  · intro p hp
    obtain ⟨l, hl, rfl⟩ := List.mem_map.mp hp
    exact hcm l hl

end A1111MetadataParser

/-! ### Character-class facts for rendered values -/

theorem isPySpace_false_of_gt32 (c : Char) (h : 32 < c.toNat) :
    isPySpace c = false := by
  by_contra hb
  have hc : isPySpace c = true := by simpa using hb
  simp only [isPySpace, Bool.or_eq_true, decide_eq_true_eq] at hc
  rcases hc with ((((rfl | rfl) | rfl) | rfl) | rfl) | rfl <;> simp at h

theorem goodScanVal_plain (v : Str) (hne : v ≠ [])
    (hch : ∀ c ∈ v, 32 < c.toNat ∧ c ≠ ',' ∧ c ≠ ':' ∧ c ≠ '"') :
    goodScanVal v = true := by
  have hnq : needsQuote v = false := by
    apply needsQuote_eq_false
    · intro hm
      exact (hch _ hm).2.1 rfl
    · intro hm
      have := (hch _ hm).1
      simp at this
    · intro hm
      exact (hch _ hm).2.2.1 rfl
  rw [goodScanVal.eq_def, if_neg (by rw [hnq]; simp)]
  match v, hne with
  | c :: t, _ =>
    have hc := hch c (List.mem_cons_self _ _)
    cases hL : (c :: t).getLast? with
    | none => simp at hL
    | some d =>
      have hd := hch d (List.mem_of_mem_getLast? hL)
      simp only [hL]
      rw [isPySpace_false_of_gt32 c hc.1, isPySpace_false_of_gt32 d hd.1]
      simp only [Bool.not_false, Bool.and_eq_true, Bool.true_and]
      constructor
      · simp [hc.2.2.2]
      · trivial

theorem digit_plain (c : Char) (h : c.isDigit = true) :
    32 < c.toNat ∧ c ≠ ',' ∧ c ≠ ':' ∧ c ≠ '"' := by
  have h48 : 48 ≤ c.toNat ∧ c.toNat ≤ 57 := by
    simp only [Char.isDigit, Bool.and_eq_true, decide_eq_true_eq] at h
    obtain ⟨h1, h2⟩ := h
    constructor
    · exact h1
    · exact h2
  refine ⟨by omega, ?_, ?_, ?_⟩
  all_goals
    intro hc
    subst hc
    revert h48
    decide

theorem quote_ne_nil (v : Str) (hne : v ≠ []) : quote v ≠ [] := by
  by_cases hq : needsQuote v
  · rw [quote, if_pos hq, jsonDumps]
    simp
  · rw [quote, if_neg hq]
    exact hne

theorem quote_last_not_space (v : Str) (hv : goodScanVal v = true)
    (_hne : v ≠ []) (d : Char) (hd : (quote v).getLast? = some d) :
    isPySpace d = false := by
  by_cases hq : needsQuote v
  · rw [quote, if_pos hq, jsonDumps] at hd
    rw [show ('"' :: jsonEscape v ++ ['"'] : Str) =
      ('"' :: jsonEscape v) ++ ['"'] from rfl, List.getLast?_concat] at hd
    injection hd with hd
    rw [← hd]
    rfl
  · rw [quote, if_neg hq] at hd
    exact goodScanVal_unquoted_last v d (by simpa using hq) hv hd

/-! Absence of raw newlines in the rendered parameter line. -/

theorem jsonEscapeChar_no_newline (c : Char)
    (hc : 32 ≤ c.toNat ∨ c = '\n' ∨ c = '\t' ∨ c = '\r' ∨ c = Char.ofNat 8 ∨
      c = Char.ofNat 12) : '\n' ∉ jsonEscapeChar c := by
  by_cases h1 : c = '"'
  · subst h1; decide
  by_cases h2 : c = '\\'
  · subst h2; decide
  by_cases h3 : c = '\n'
  · subst h3; decide
  by_cases h4 : c = '\t'
  · subst h4; decide
  by_cases h5 : c = '\r'
  · subst h5; decide
  by_cases h6 : c = Char.ofNat 8
  · subst h6; decide
  by_cases h7 : c = Char.ofNat 12
  · subst h7; decide
  · have h32 : 32 ≤ c.toNat := by
      rcases hc with h | h | h | h | h | h
      · exact h
      all_goals exact absurd h (by assumption)
    rw [show jsonEscapeChar c = [c] from by
      simp only [jsonEscapeChar, if_neg h1, if_neg h2, if_neg h3, if_neg h4,
        if_neg h5, if_neg h6, if_neg h7, if_neg (by omega : ¬c.toNat < 32)]]
    intro hm
    rcases List.mem_singleton.mp hm with rfl
    exact h3 rfl

theorem jsonEscape_no_newline (v : Str) (hs : jsonSafe v = true) :
    '\n' ∉ jsonEscape v := by
  induction v with
  | nil => simp [jsonEscape]
  | cons c t ih =>
    obtain ⟨hc, ht⟩ := jsonSafe_cons c t hs
    show '\n' ∉ jsonEscapeChar c ++ jsonEscape t
    intro hm
    rcases List.mem_append.mp hm with hm | hm
    · exact jsonEscapeChar_no_newline c (by
        rcases hc with h | h
        · exact Or.inl (by omega)
        · exact Or.inr h) hm
    · exact ih ht hm

theorem quote_no_newline (v : Str) (hv : goodScanVal v = true) :
    '\n' ∉ quote v := by
  by_cases hq : needsQuote v
  · rw [quote, if_pos hq, jsonDumps]
    intro hm
    rcases List.mem_cons.mp hm with hm | hm
    · cases hm
    · rcases List.mem_append.mp hm with hm | hm
      · exact jsonEscape_no_newline v (goodScanVal_quoted v hq hv) hm
      · revert hm
        decide
  · rw [quote, if_neg hq]
    exact (needsQuote_not_mem v (by simpa using hq)).2.1

theorem renderPair_no_newline (kv : Str × Str) (hk : '\n' ∉ kv.1)
    (hv : goodScanVal kv.2 = true) :
    '\n' ∉ A1111MetadataParser.renderPair kv := by
  unfold A1111MetadataParser.renderPair
  split
  · exact hk
  · intro hm
    rcases List.mem_append.mp hm with hm | hm
    · exact hk hm
    · rcases List.mem_cons.mp hm with hm | hm
      · cases hm
      · rcases List.mem_cons.mp hm with hm | hm
        · cases hm
        · exact quote_no_newline kv.2 hv hm

theorem intercalate_not_mem (c : Char) (sep : Str) (hsep : c ∉ sep) :
    ∀ (L : List Str), (∀ x ∈ L, c ∉ x) →
    c ∉ List.intercalate sep L := by
  intro L
  induction L with
  | nil => intro _; simp [List.intercalate]
  | cons a t ih =>
    intro h
    cases t with
    | nil =>
      rw [intercalate_singleton]
      exact h a (List.mem_cons_self _ _)
    | cons b t2 =>
      rw [intercalate_cons_cons]
      intro hm
      rcases List.mem_append.mp hm with hm | hm
      · rcases List.mem_append.mp hm with hm | hm
        · exact h a (List.mem_cons_self _ _) hm
        · exact hsep hm
      · exact ih (fun x hx => h x (List.mem_cons_of_mem _ hx)) hm

theorem imagesizeMatch_all_digits (v : Str)
    (h : ∀ c ∈ v, c.isDigit = true) : imagesizeMatch v = none := by
  have hdw : List.dropWhile Char.isDigit v = [] :=
    List.dropWhile_eq_nil_iff.mpr (fun c hc => h c hc)
  rw [imagesizeMatch.eq_def]
  simp only [hdw]

theorem pyEvalPair_repr (w h : Str)
    (hw : ∀ c ∈ w, c ≠ '\'') (hh : ∀ c ∈ h, c ≠ '\'') :
    A1111MetadataParser.pyEvalPair (pyReprPair w h) = some (w, h) := by
  have hw2 := takeWhile_append_of (fun c => decide (c ≠ '\'')) w
    ('\'' :: ',' :: ' ' :: '\'' :: (h ++ ['\'', ')']))
    (by
      intro a ha
      simp only [decide_eq_true_eq]
      exact hw a ha)
    (by exact rfl)
  have hh2 := takeWhile_append_of (fun c => decide (c ≠ '\'')) h
    ['\'', ')']
    (by
      intro a ha
      simp only [decide_eq_true_eq]
      exact hh a ha)
    (by exact rfl)
  have hshape : pyReprPair w h =
      '(' :: '\'' :: (w ++ ('\'' :: ',' :: ' ' :: '\'' ::
        (h ++ ['\'', ')']))) := by
    unfold pyReprPair pyReprStr
    simp
  rw [hshape, A1111MetadataParser.pyEvalPair.eq_def]
  simp only []
  rw [hw2.2]
  simp only []
  rw [hh2.2]
  simp only [hw2.1, hh2.1]

/-! ### Rebuilding a dict with distinct keys from its entries -/

theorem lookupD_none_of_keys (d : List (Str × Str)) (k : Str)
    (h : ∀ p ∈ d, p.1 ≠ k) : lookupD d k = none := by
  induction d with
  | nil => rfl
  | cons p t ih =>
    obtain ⟨k0, v0⟩ := p
    rw [lookupD, if_neg (h (k0, v0) (List.mem_cons_self _ _))]
    exact ih (fun q hq => h q (List.mem_cons_of_mem _ hq))

theorem foldl_setKey_of_nodup : ∀ (rest : List (Str × Str))
    (acc : List (Str × Str)),
    (∀ p ∈ rest, lookupD acc p.1 = none) → (rest.map Prod.fst).Nodup →
    rest.foldl (fun a p => setKey a p.1 p.2) acc = acc ++ rest := by
  intro rest
  induction rest with
  | nil =>
    intro acc _ _
    simp
  | cons p t ih =>
    intro acc habs hnd
    rw [List.foldl_cons,
      setKey_append_absent acc p.1 p.2 (habs p (List.mem_cons_self _ _))]
    rw [List.map_cons, List.nodup_cons] at hnd
    rw [ih (acc ++ [p]) (by
      intro q hq
      rw [lookupD_append, habs q (List.mem_cons_of_mem _ hq)]
      rw [show lookupD [p] q.1 = none from by
        rw [lookupD, if_neg (by
          intro heq
          exact hnd.1 (heq ▸ List.mem_map_of_mem Prod.fst hq))]
        rfl]) hnd.2]
    simp

theorem entriesDict_triples (d : List (Str × Str))
    (hnd : (d.map Prod.fst).Nodup) :
    A1111MetadataParser.entriesDict
      (d.map (fun kv => (([] : Str), kv.1, kv.2))) = d := by
  unfold A1111MetadataParser.entriesDict
  rw [List.foldl_map]
  have h := foldl_setKey_of_nodup d [] (fun p _ => rfl) hnd
  simpa using h

/-! ### Shape of the appended lora entries -/

namespace A1111MetadataParser

theorem mem_loraPairs_fst (resolve : Str → Str) :
    ∀ (loras : List (Str × Str × Str)) (idx : Nat) (k : Str),
    k ∈ (loraPairs resolve idx loras).map Prod.fst →
    ∃ j, idx ≤ j ∧ k = loraKey j := by
  intro loras
  induction loras with
  | nil =>
    intro idx k hk
    simp [loraPairs] at hk
  | cons l rest ih =>
    intro idx k hk
    rw [loraPairs, List.map_cons] at hk
    rcases List.mem_cons.mp hk with hk | hk
    · exact ⟨idx, le_rfl, hk⟩
    · obtain ⟨j, hj1, hj2⟩ := ih (idx + 1) k hk
      exact ⟨j, by omega, hj2⟩

theorem loraPairs_fst_nodup (resolve : Str → Str) :
    ∀ (loras : List (Str × Str × Str)) (idx : Nat),
    ((loraPairs resolve idx loras).map Prod.fst).Nodup := by
  intro loras
  induction loras with
  | nil =>
    intro idx
    simp [loraPairs]
  | cons l rest ih =>
    intro idx
    rw [loraPairs, List.map_cons, List.nodup_cons]
    refine ⟨?_, ih (idx + 1)⟩
    intro hmem
    obtain ⟨j, hj1, hj2⟩ := mem_loraPairs_fst resolve rest (idx + 1) _ hmem
    have := loraKey_inj2 _ _ hj2
    omega

end A1111MetadataParser

theorem mem_intercalate (c : Char) (sep : Str) :
    ∀ (L : List Str), c ∈ List.intercalate sep L →
    c ∈ sep ∨ ∃ x ∈ L, c ∈ x := by
  intro L
  induction L with
  | nil =>
    intro h
    simp [List.intercalate] at h
  | cons a t ih =>
    intro h
    cases t with
    | nil =>
      rw [intercalate_singleton] at h
      exact Or.inr ⟨a, List.mem_cons_self _ _, h⟩
    | cons b t2 =>
      rw [intercalate_cons_cons] at h
      rcases List.mem_append.mp h with h | h
      · rcases List.mem_append.mp h with h | h
        · exact Or.inr ⟨a, List.mem_cons_self _ _, h⟩
        · exact Or.inl h
      · rcases ih h with h | ⟨x, hx, hcx⟩
        · exact Or.inl h
        · exact Or.inr ⟨x, List.mem_cons_of_mem _ hx, hcx⟩

/-! Goodness of the three derived parameter values. -/

theorem intToStr_ne_nil (i : Int) : intToStr i ≠ [] := by
  cases i with
  | ofNat n => exact natToStr_ne_nil n
  | negSucc n => simp [intToStr]

theorem intToStr_mem (i : Int) : ∀ c ∈ intToStr i,
    c.isDigit = true ∨ c = '-' := by
  intro c hc
  cases i with
  | ofNat n =>
    exact Or.inl (List.all_eq_true.mp (natToStr_digits n) c hc)
  | negSucc n =>
    rw [intToStr] at hc
    rcases List.mem_cons.mp hc with rfl | hc
    · exact Or.inr rfl
    · exact Or.inl (List.all_eq_true.mp (natToStr_digits _) c hc)

theorem stepsVal_good (i : Int) :
    goodScanVal (intToStr i) = true ∧ intToStr i ≠ [] ∧
      intToStr i ≠ lit "Steps" ∧ imagesizeMatch (intToStr i) = none := by
  have hplain : ∀ c ∈ intToStr i, 32 < c.toNat ∧ c ≠ ',' ∧ c ≠ ':' ∧
      c ≠ '"' := by
    intro c hc
    rcases intToStr_mem i c hc with hd | rfl
    · exact digit_plain c hd
    · refine ⟨by decide, by decide, by decide, by decide⟩
  refine ⟨goodScanVal_plain _ (intToStr_ne_nil i) hplain, intToStr_ne_nil i,
    ?_, ?_⟩
  · intro heq
    have hS : 'S' ∈ intToStr i := by
      rw [heq]
      decide
    rcases intToStr_mem i 'S' hS with hd | hd
    · cases hd
    · cases hd
  · cases i with
    | ofNat n =>
      exact imagesizeMatch_all_digits _ (fun c hc =>
        List.all_eq_true.mp (natToStr_digits n) c hc)
    | negSucc n =>
      rw [intToStr]
      exact imagesizeMatch_none_of_head_not_digit '-' _ (by decide)

theorem sizeVal_good (w h : Str) (hw : w ≠ [])
    (hwd : ∀ c ∈ w, c.isDigit = true) (hhd : ∀ c ∈ h, c.isDigit = true) :
    goodScanVal (w ++ 'x' :: h) = true ∧ (w ++ 'x' :: h : Str) ≠ [] ∧
      (w ++ 'x' :: h : Str) ≠ lit "Size" := by
  have hplain : ∀ c ∈ (w ++ 'x' :: h : Str), 32 < c.toNat ∧ c ≠ ',' ∧
      c ≠ ':' ∧ c ≠ '"' := by
    intro c hc
    rcases List.mem_append.mp hc with hc | hc
    · exact digit_plain c (hwd c hc)
    · rcases List.mem_cons.mp hc with rfl | hc
      · refine ⟨by decide, by decide, by decide, by decide⟩
      · exact digit_plain c (hhd c hc)
  have hne2 : (w ++ 'x' :: h : Str) ≠ [] := by simp
  refine ⟨goodScanVal_plain _ hne2 hplain, hne2, ?_⟩
  intro heq
  match w, hw with
  | wc :: wt, _ =>
    have hwc : wc.isDigit = true := hwd wc (List.mem_cons_self _ _)
    have hhead : wc = 'S' := by
      have h1 := congrArg List.head? heq
      rw [List.cons_append] at h1
      rw [show (lit "Size").head? = some 'S' from rfl] at h1
      injection h1
    rw [hhead] at hwc
    cases hwc

theorem lhs_colon_mem (loras : List (Str × Str × Str)) (hne : loras ≠ []) :
    ':' ∈ A1111MetadataParser.loraHashesString loras := by
  match loras, hne with
  | l :: rest, _ =>
    rw [A1111MetadataParser.loraHashesString_eq, List.map_cons]
    have hentry : ':' ∈ A1111MetadataParser.entryString l := by
      unfold A1111MetadataParser.entryString
      simp only [List.append_assoc, List.mem_append]
      right
      left
      decide
    cases rest with
    | nil =>
      rw [List.map_nil, intercalate_singleton]
      exact hentry
    | cons l2 rest2 =>
      rw [List.map_cons, intercalate_cons_cons]
      exact List.mem_append.mpr (Or.inl (List.mem_append.mpr (Or.inl hentry)))

theorem lhsVal_good (loras : List (Str × Str × Str)) (hne : loras ≠ [])
    (hok : ∀ l ∈ loras, loraOk l) :
    goodScanVal (A1111MetadataParser.loraHashesString loras) = true ∧
      A1111MetadataParser.loraHashesString loras ≠ [] ∧
      A1111MetadataParser.loraHashesString loras ≠ lit "Lora hashes" ∧
      imagesizeMatch (A1111MetadataParser.loraHashesString loras) = none := by
  have hcolon := lhs_colon_mem loras hne
  have hq : needsQuote (A1111MetadataParser.loraHashesString loras) = true := by
    rw [needsQuote]
    have : (A1111MetadataParser.loraHashesString loras).contains ':' = true :=
      List.elem_iff.mpr hcolon
    rw [this]
    simp
  have hsafe : jsonSafe (A1111MetadataParser.loraHashesString loras) = true := by
    rw [jsonSafe, List.all_eq_true]
    intro c hc
    rw [A1111MetadataParser.loraHashesString_eq] at hc
    rcases mem_intercalate c _ _ hc with hc | ⟨x, hx, hcx⟩
    · rw [show (lit ", " : Str) = [',', ' '] from rfl] at hc
      rcases List.mem_cons.mp hc with rfl | hc
      · decide
      · rcases List.mem_cons.mp hc with rfl | hc
        · decide
        · cases hc
    · obtain ⟨l, hl, rfl⟩ := List.mem_map.mp hx
      unfold A1111MetadataParser.entryString at hcx
      simp only [List.append_assoc, List.mem_append] at hcx
      have hlok := hok l hl
      unfold loraOk at hlok
      rcases hcx with hm | hm | hm | hm | hm
      · have h32 := (hlok c (by simp [hm])).1
        simp [h32]
      · rw [show (lit ": " : Str) = [':', ' '] from rfl] at hm
        fin_cases hm <;> decide
      · have h32 := (hlok c (by simp [hm])).1
        simp [h32]
      · rw [show (lit ": " : Str) = [':', ' '] from rfl] at hm
        fin_cases hm <;> decide
      · have h32 := (hlok c (by simp [hm])).1
        simp [h32]
  refine ⟨?_, ?_, ?_, imagesizeMatch_none_of_colon _ hcolon⟩
  · rw [goodScanVal.eq_def, if_pos hq]
    exact hsafe
  · intro heq
    rw [heq] at hcolon
    cases hcolon
  · intro heq
    rw [heq] at hcolon
    revert hcolon
    decide

/-! ### C1: the A1111 round trip -/

theorem digit_ne_apos (c : Char) (h : c.isDigit = true) : c ≠ '\'' := by
  intro hc
  subst hc
  cases h

namespace A1111MetadataParser

theorem c1Pairs_keys (st : ParserState)
    (w h vperf vsampler vseed vguid vsharp vadm bm vver : Str) :
    ∀ kv ∈ c1Pairs st w h vperf vsampler vseed vguid vsharp vadm bm vver,
      goodKey kv.1 = true ∧ '\n' ∉ kv.1 := by
  intro kv hkv
  fin_cases hkv
  · exact ⟨(by decide : goodKey (lit "ADM Guidance") = true),
      (by decide : ('\n' : Char) ∉ lit "ADM Guidance")⟩
  · exact ⟨(by decide : goodKey (lit "CFG scale") = true),
      (by decide : ('\n' : Char) ∉ lit "CFG scale")⟩
  · exact ⟨(by decide : goodKey (lit "Lora hashes") = true),
      (by decide : ('\n' : Char) ∉ lit "Lora hashes")⟩
  · exact ⟨(by decide : goodKey (lit "Model") = true),
      (by decide : ('\n' : Char) ∉ lit "Model")⟩
  · exact ⟨(by decide : goodKey (lit "Model hash") = true),
      (by decide : ('\n' : Char) ∉ lit "Model hash")⟩
  · exact ⟨(by decide : goodKey (lit "Performance") = true),
      (by decide : ('\n' : Char) ∉ lit "Performance")⟩
  · exact ⟨(by decide : goodKey (lit "Sampler") = true),
      (by decide : ('\n' : Char) ∉ lit "Sampler")⟩
  · exact ⟨(by decide : goodKey (lit "Seed") = true),
      (by decide : ('\n' : Char) ∉ lit "Seed")⟩
  · exact ⟨(by decide : goodKey (lit "Sharpness") = true),
      (by decide : ('\n' : Char) ∉ lit "Sharpness")⟩
  · exact ⟨(by decide : goodKey (lit "Size") = true),
      (by decide : ('\n' : Char) ∉ lit "Size")⟩
  · exact ⟨(by decide : goodKey (lit "Steps") = true),
      (by decide : ('\n' : Char) ∉ lit "Steps")⟩
  · exact ⟨(by decide : goodKey (lit "Version") = true),
      (by decide : ('\n' : Char) ∉ lit "Version")⟩

theorem c1Pairs_conds (st : ParserState)
    (w h vperf vsampler vseed vguid vsharp vadm bm vver : Str)
    (hwne : w ≠ []) (hwd : ∀ c ∈ w, c.isDigit = true)
    (hhd : ∀ c ∈ h, c.isDigit = true)
    (gperf : goodParamVal (lit "Performance") vperf)
    (gsampler : goodParamVal (lit "Sampler") vsampler)
    (gseed : goodParamVal (lit "Seed") vseed)
    (gguid : goodParamVal (lit "CFG scale") vguid)
    (gsharp : goodParamVal (lit "Sharpness") vsharp)
    (gadm : goodParamVal (lit "ADM Guidance") vadm)
    (gver : goodParamVal (lit "Version") vver)
    (gmodel : goodParamVal (lit "Model") (pathStem bm))
    (gmhash : goodParamVal (lit "Model hash") st.base_model_hash)
    (hloras : st.loras ≠ []) (hlok : ∀ l ∈ st.loras, loraOk l) :
    ∀ kv ∈ c1Pairs st w h vperf vsampler vseed vguid vsharp vadm bm vver,
      goodKey kv.1 = true ∧ goodScanVal kv.2 = true ∧ kv.1 ≠ kv.2 := by
  obtain ⟨glhs1, glhs2, glhs3, glhs4⟩ := lhsVal_good st.loras hloras hlok
  obtain ⟨gsteps1, gsteps2, gsteps3, gsteps4⟩ := stepsVal_good st.steps
  obtain ⟨gsize1, gsize2, gsize3⟩ := sizeVal_good w h hwne hwd hhd
  intro kv hkv
  refine ⟨(c1Pairs_keys st w h vperf vsampler vseed vguid vsharp vadm bm vver
    kv hkv).1, ?_⟩
  fin_cases hkv
  · exact ⟨gadm.1, Ne.symm gadm.2.2.1⟩
  · exact ⟨gguid.1, Ne.symm gguid.2.2.1⟩
  · exact ⟨glhs1, Ne.symm glhs3⟩
  · exact ⟨gmodel.1, Ne.symm gmodel.2.2.1⟩
  · exact ⟨gmhash.1, Ne.symm gmhash.2.2.1⟩
  · exact ⟨gperf.1, Ne.symm gperf.2.2.1⟩
  · exact ⟨gsampler.1, Ne.symm gsampler.2.2.1⟩
  · exact ⟨gseed.1, Ne.symm gseed.2.2.1⟩
  · exact ⟨gsharp.1, Ne.symm gsharp.2.2.1⟩
  · exact ⟨gsize1, Ne.symm gsize3⟩
  · exact ⟨gsteps1, Ne.symm gsteps3⟩
  · exact ⟨gver.1, Ne.symm gver.2.2.1⟩

theorem c1Line_facts (st : ParserState)
    (w h vperf vsampler vseed vguid vsharp vadm bm vver : Str)
    (hconds : ∀ kv ∈ c1Pairs st w h vperf vsampler vseed vguid vsharp vadm
      bm vver, goodKey kv.1 = true ∧ goodScanVal kv.2 = true ∧ kv.1 ≠ kv.2)
    (gver2 : vver ≠ []) :
    '\n' ∉ List.intercalate (lit ", ")
        ((c1Pairs st w h vperf vsampler vseed vguid vsharp vadm bm
          vver).map renderPair) ∧
      List.intercalate (lit ", ")
        ((c1Pairs st w h vperf vsampler vseed vguid vsharp vadm bm
          vver).map renderPair) ≠ [] ∧
      (∀ d, (List.intercalate (lit ", ")
        ((c1Pairs st w h vperf vsampler vseed vguid vsharp vadm bm
          vver).map renderPair)).getLast? = some d → isPySpace d = false) := by
  have hnl : '\n' ∉ List.intercalate (lit ", ")
      ((c1Pairs st w h vperf vsampler vseed vguid vsharp vadm bm
        vver).map renderPair) := by
    apply intercalate_not_mem '\n' (lit ", ") (by decide)
    intro x hx
    obtain ⟨kv, hkv, rfl⟩ := List.mem_map.mp hx
    exact renderPair_no_newline kv
      (c1Pairs_keys st w h vperf vsampler vseed vguid vsharp vadm bm vver
        kv hkv).2
      (hconds kv hkv).2.1
  have hver := hconds (lit "Version", vver) (by
    unfold c1Pairs
    simp)
  have hrpv : renderPair (lit "Version", vver) =
      lit "Version" ++ ':' :: ' ' :: quote vver := by
    unfold renderPair
    rw [if_neg hver.2.2]
  have hqne : quote vver ≠ [] := quote_ne_nil vver gver2
  have hsplitmap : (c1Pairs st w h vperf vsampler vseed vguid vsharp vadm bm
      vver).map renderPair =
      ((c1Pairs st w h vperf vsampler vseed vguid vsharp vadm bm
        vver).dropLast.map renderPair) ++ [renderPair (lit "Version", vver)] := by
    unfold c1Pairs
    simp
  have hlineq : List.intercalate (lit ", ")
      ((c1Pairs st w h vperf vsampler vseed vguid vsharp vadm bm
        vver).map renderPair) =
      List.intercalate (lit ", ")
        ((c1Pairs st w h vperf vsampler vseed vguid vsharp vadm bm
          vver).dropLast.map renderPair) ++ lit ", " ++
        renderPair (lit "Version", vver) := by
    rw [hsplitmap]
    apply intercalate_append_singleton
    unfold c1Pairs
    simp
  have hrne : renderPair (lit "Version", vver) ≠ [] := by
    rw [hrpv]
    simp
  refine ⟨hnl, ?_, ?_⟩
  · rw [hlineq]
    simp [hrne]
  · intro d hd
    rw [hlineq] at hd
    rw [show List.intercalate (lit ", ")
        ((c1Pairs st w h vperf vsampler vseed vguid vsharp vadm bm
          vver).dropLast.map renderPair) ++ lit ", " ++
        renderPair (lit "Version", vver) =
        (List.intercalate (lit ", ")
          ((c1Pairs st w h vperf vsampler vseed vguid vsharp vadm bm
            vver).dropLast.map renderPair) ++ lit ", ") ++
        renderPair (lit "Version", vver) from by simp] at hd
    rw [getLast?_append_of_ne_nil _ _ hrne] at hd
    rw [hrpv] at hd
    rw [show (lit "Version" ++ ':' :: ' ' :: quote vver : Str) =
      (lit "Version" ++ [':', ' ']) ++ quote vver from by simp] at hd
    rw [getLast?_append_of_ne_nil _ _ hqne] at hd
    exact quote_last_not_space vver hver.2.1 gver2 d hd

theorem C1_parse (st : ParserState)
    (extract : Str → Str → List Str × Str × Str) (s2p : Int → Option Str)
    (modelFs loraFs lfs : List Str) (reserved : Str) (resolve : Str → Str)
    (pos neg w h vperf vsampler vseed vguid vsharp vadm bm vver : Str)
    (hext : ∀ p n, extract p n = ([], p, n))
    (hpos1 : pyStrip pos = pos) (hpos2 : pos ≠ [])
    (hpos3 : negLabel.isPrefixOf pos = false) (hpos4 : '\n' ∉ pos)
    (hneg1 : pyStrip neg = neg) (hneg2 : neg ≠ []) (hneg4 : '\n' ∉ neg)
    (hwne : w ≠ []) (hwd : ∀ c ∈ w, c.isDigit = true)
    (hhne : h ≠ []) (hhd : ∀ c ∈ h, c.isDigit = true)
    (gperf : goodParamVal (lit "Performance") vperf)
    (gsampler : goodParamVal (lit "Sampler") vsampler)
    (gseed : goodParamVal (lit "Seed") vseed)
    (gguid : goodParamVal (lit "CFG scale") vguid)
    (gsharp : goodParamVal (lit "Sharpness") vsharp)
    (gadm : goodParamVal (lit "ADM Guidance") vadm)
    (gver : goodParamVal (lit "Version") vver)
    (gmodel : goodParamVal (lit "Model") (pathStem bm))
    (gmhash : goodParamVal (lit "Model hash") st.base_model_hash)
    (hloras : st.loras ≠ []) (hlok : ∀ l ∈ st.loras, loraOk l)
    (hrem : removeFirst loraFs reserved = some lfs)
    (hfindlora : ∀ l ∈ st.loras, findFile lfs l.1 = some (resolve l.1))
    (hfindbm : findFile modelFs (pathStem bm) = some bm) :
    parse_json extract s2p modelFs loraFs reserved
      (pos ++ (lit "\nNegative prompt: " ++ neg) ++ '\n' ::
        List.intercalate (lit ", ")
          ((c1Pairs st w h vperf vsampler vseed vguid vsharp vadm bm
            vver).map renderPair)) =
      Except.ok (c1Dict st pos neg w h vperf vsampler vseed vguid vsharp vadm
        bm vver ++ loraPairs resolve 1 st.loras) := by
  obtain ⟨glhs1, glhs2, glhs3, glhs4⟩ := lhsVal_good st.loras hloras hlok
  obtain ⟨gsteps1, gsteps2, gsteps3, gsteps4⟩ := stepsVal_good st.steps
  have hconds := c1Pairs_conds st w h vperf vsampler vseed vguid vsharp vadm
    bm vver hwne hwd hhd gperf gsampler gseed gguid gsharp gadm gver gmodel
    gmhash hloras hlok
  obtain ⟨hlnl, hlne, hllast⟩ := c1Line_facts st w h vperf vsampler vseed
    vguid vsharp vadm bm vver hconds gver.2.1
  set line : Str := List.intercalate (lit ", ")
    ((c1Pairs st w h vperf vsampler vseed vguid vsharp vadm bm
      vver).map renderPair) with hlinedef
  set negline : Str := lit "Negative prompt: " ++ neg with hneglinedef
  set input : Str := pos ++ (lit "\nNegative prompt: " ++ neg) ++
    '\n' :: line with hinputdef
  have hinput_eq : input = List.intercalate ['\n'] [pos, negline, line] := by
    rw [hinputdef, hneglinedef]
    rw [intercalate_cons_cons, intercalate_cons_cons, intercalate_singleton]
    rw [show lit "\nNegative prompt: " =
      '\n' :: lit "Negative prompt: " from rfl]
    simp
  have h_noNl : ∀ l2 ∈ [pos, negline, line], '\n' ∉ l2 := by
    intro l2 hl2
    rcases List.mem_cons.mp hl2 with rfl | hl2
    · exact hpos4
    rcases List.mem_cons.mp hl2 with rfl | hl2
    · rw [hneglinedef]
      intro hm
      rcases List.mem_append.mp hm with hm | hm
      · exact absurd hm (by decide)
      · exact hneg4 hm
    rcases List.mem_cons.mp hl2 with rfl | hl2
    · exact hlnl
    · cases hl2
  have hsplit : splitOnChar '\n' input = [pos, negline, line] := by
    rw [hinput_eq]
    exact splitOnChar_intercalate '\n' _ (by simp) h_noNl
  have hstrip : pyStrip input = input := by
    apply pyStrip_eq_self_of
    · intro c hc
      rw [hinputdef] at hc
      rw [List.append_assoc] at hc
      rw [head?_append_of_ne_nil pos _ hpos2] at hc
      exact pyStrip_head pos hpos1 c hc
    · intro c hc
      rw [hinputdef] at hc
      rw [show pos ++ (lit "\nNegative prompt: " ++ neg) ++ '\n' :: line =
        (pos ++ ((lit "\nNegative prompt: " ++ neg) ++ ['\n'])) ++ line
        from by simp] at hc
      rw [getLast?_append_of_ne_nil _ line hlne] at hc
      exact hllast c hc
  have hfp : findParams line =
      (c1Pairs st w h vperf vsampler vseed vguid vsharp vadm bm vver).map
        (fun kv => (kv.1, quote kv.2)) := by
    rw [hlinedef]
    exact findParams_render _ hconds
  have hstrip_negline : pyStrip negline = negline := by
    apply pyStrip_eq_self_of
    · intro c hc
      rw [hneglinedef] at hc
      rw [head?_append_of_ne_nil _ neg (by decide)] at hc
      have hcN : c = 'N' := by
        rw [show (lit "Negative prompt: ").head? = some 'N' from rfl] at hc
        injection hc with hc
        exact hc.symm
      rw [hcN]
      decide
    · intro c hc
      rw [hneglinedef] at hc
      rw [getLast?_append_of_ne_nil _ neg hneg2] at hc
      exact pyStrip_last neg hneg1 c hc
  have hng : negline = negLabel ++ (' ' :: neg) := by
    rw [hneglinedef]
    rw [show lit "Negative prompt: " = negLabel ++ [' '] from rfl]
    simp
  have hhit : negLabel.isPrefixOf negline = true := by
    rw [hng, List.isPrefixOf_iff_prefix]
    exact List.prefix_append _ _
  have hdropneg : negline.drop negLabel.length = ' ' :: neg := by
    rw [hng]
    exact List.drop_left _ _
  have hloop : promptLoop ([], [], false) [pos, negline] = (pos, neg) := by
    rw [promptLoop_cons_noHit_notDone [] [] pos [negline]
      (by rw [hpos1]; exact hpos3)]
    rw [hpos1]
    rw [show appendLine [] pos = pos from rfl]
    rw [promptLoop_cons_hit pos [] false negline []
      (by rw [hstrip_negline]; exact hhit)]
    rw [hstrip_negline, hdropneg, pyStrip_space_cons neg hneg1]
    rw [show appendLine [] neg = neg from rfl]
    rfl
  have hfold : ((c1Pairs st w h vperf vsampler vseed vguid vsharp vadm bm
      vver).map (fun kv => (kv.1, quote kv.2))).foldl processParam
      [(lit "prompt", pos), (lit "negative_prompt", neg),
       (lit "styles", pyReprStrList ([] : List Str))] =
      [(lit "prompt", pos), (lit "negative_prompt", neg),
       (lit "styles", pyReprStrList ([] : List Str)),
       (lit "adm_guidance", vadm), (lit "guidance_scale", vguid),
       (lit "lora_hashes", loraHashesString st.loras),
       (lit "base_model", pathStem bm),
       (lit "base_model_hash", st.base_model_hash),
       (lit "performance", vperf), (lit "sampler", vsampler),
       (lit "seed", vseed), (lit "sharpness", vsharp),
       (lit "resolution", pyReprPair w h), (lit "steps", intToStr st.steps),
       (lit "version", vver)] := by
    unfold c1Pairs
    simp only [List.map_cons, List.map_nil, List.foldl_cons, List.foldl_nil]
    rw [processParam_quote _ (lit "ADM Guidance") vadm (lit "adm_guidance")
      gadm.1 gadm.2.1 gadm.2.2.2 (by decide)]
    rw [processParam_quote _ (lit "CFG scale") vguid (lit "guidance_scale")
      gguid.1 gguid.2.1 gguid.2.2.2 (by decide)]
    rw [processParam_quote _ (lit "Lora hashes")
      (loraHashesString st.loras) (lit "lora_hashes")
      glhs1 glhs2 glhs4 (by decide)]
    rw [processParam_quote _ (lit "Model") (pathStem bm) (lit "base_model")
      gmodel.1 gmodel.2.1 gmodel.2.2.2 (by decide)]
    rw [processParam_quote _ (lit "Model hash") st.base_model_hash
      (lit "base_model_hash") gmhash.1 gmhash.2.1 gmhash.2.2.2 (by decide)]
    rw [processParam_quote _ (lit "Performance") vperf (lit "performance")
      gperf.1 gperf.2.1 gperf.2.2.2 (by decide)]
    rw [processParam_quote _ (lit "Sampler") vsampler (lit "sampler")
      gsampler.1 gsampler.2.1 gsampler.2.2.2 (by decide)]
    rw [processParam_quote _ (lit "Seed") vseed (lit "seed")
      gseed.1 gseed.2.1 gseed.2.2.2 (by decide)]
    rw [processParam_quote _ (lit "Sharpness") vsharp (lit "sharpness")
      gsharp.1 gsharp.2.1 gsharp.2.2.2 (by decide)]
    rw [processParam_size _ (lit "Size") w h hwne hwd hhne hhd]
    rw [processParam_quote _ (lit "Steps") (intToStr st.steps) (lit "steps")
      gsteps1 gsteps2 gsteps4 (by decide)]
    rw [processParam_quote _ (lit "Version") vver (lit "version")
      gver.1 gver.2.1 gver.2.2.2 (by decide)]
    rfl
  have hdbl : dataBeforeLora extract s2p modelFs input =
      c1Dict st pos neg w h vperf vsampler vseed vguid vsharp vadm bm vver := by
    simp only [dataBeforeLora]
    rw [hstrip, hsplit]
    rw [show ([pos, negline, line] : List Str) = [pos, negline] ++ [line]
      from rfl]
    rw [List.dropLast_concat, List.getLast?_concat]
    simp only [Option.getD_some]
    rw [hfp]
    rw [show ((c1Pairs st w h vperf vsampler vseed vguid vsharp vadm bm
      vver).map (fun kv => (kv.1, quote kv.2))).length = 12 from by
        unfold c1Pairs
        rfl]
    simp only [show ¬((12 : Nat) < 3) from by norm_num, if_false]
    rw [hloop, hext pos neg]
    simp only []
    rw [hfp, hfold]
    have hperf2 : perfFromSteps s2p
        [(lit "prompt", pos), (lit "negative_prompt", neg),
         (lit "styles", pyReprStrList ([] : List Str)),
         (lit "adm_guidance", vadm), (lit "guidance_scale", vguid),
         (lit "lora_hashes", loraHashesString st.loras),
         (lit "base_model", pathStem bm),
         (lit "base_model_hash", st.base_model_hash),
         (lit "performance", vperf), (lit "sampler", vsampler),
         (lit "seed", vseed), (lit "sharpness", vsharp),
         (lit "resolution", pyReprPair w h), (lit "steps", intToStr st.steps),
         (lit "version", vver)] =
        [(lit "prompt", pos), (lit "negative_prompt", neg),
         (lit "styles", pyReprStrList ([] : List Str)),
         (lit "adm_guidance", vadm), (lit "guidance_scale", vguid),
         (lit "lora_hashes", loraHashesString st.loras),
         (lit "base_model", pathStem bm),
         (lit "base_model_hash", st.base_model_hash),
         (lit "performance", vperf), (lit "sampler", vsampler),
         (lit "seed", vseed), (lit "sharpness", vsharp),
         (lit "resolution", pyReprPair w h), (lit "steps", intToStr st.steps),
         (lit "version", vver)] := rfl
    rw [hperf2]
    unfold resolveBaseModel
    rw [show lookupD
        [(lit "prompt", pos), (lit "negative_prompt", neg),
         (lit "styles", pyReprStrList ([] : List Str)),
         (lit "adm_guidance", vadm), (lit "guidance_scale", vguid),
         (lit "lora_hashes", loraHashesString st.loras),
         (lit "base_model", pathStem bm),
         (lit "base_model_hash", st.base_model_hash),
         (lit "performance", vperf), (lit "sampler", vsampler),
         (lit "seed", vseed), (lit "sharpness", vsharp),
         (lit "resolution", pyReprPair w h), (lit "steps", intToStr st.steps),
         (lit "version", vver)] (lit "base_model") = some (pathStem bm)
      from rfl]
    simp only []
    rw [hfindbm]
    simp only []
    rw [show setKey
        [(lit "prompt", pos), (lit "negative_prompt", neg),
         (lit "styles", pyReprStrList ([] : List Str)),
         (lit "adm_guidance", vadm), (lit "guidance_scale", vguid),
         (lit "lora_hashes", loraHashesString st.loras),
         (lit "base_model", pathStem bm),
         (lit "base_model_hash", st.base_model_hash),
         (lit "performance", vperf), (lit "sampler", vsampler),
         (lit "seed", vseed), (lit "sharpness", vsharp),
         (lit "resolution", pyReprPair w h), (lit "steps", intToStr st.steps),
         (lit "version", vver)] (lit "base_model") bm =
      c1Dict st pos neg w h vperf vsampler vseed vguid vsharp vadm bm vver
      from by
        unfold c1Dict
        rfl]
  have hcomma : ∀ l ∈ st.loras, ',' ∉ entryString l := by
    intro l hl
    have hlo := hlok l hl
    unfold loraOk at hlo
    apply entryString_no_comma
    · intro hm
      exact (hlo ',' (by simp [hm])).2.1 rfl
    · intro hm
      exact (hlo ',' (by simp [hm])).2.1 rfl
    · intro hm
      exact (hlo ',' (by simp [hm])).2.1 rfl
  have hsplitcond : ∀ l ∈ st.loras,
      pySplit (lit ": ") (entryString l) = [l.1, l.2.2, l.2.1] := by
    intro l hl
    have hlo := hlok l hl
    unfold loraOk at hlo
    apply entryString_split
    · intro hm
      exact (hlo ':' (by simp [hm])).2.2 rfl
    · intro hm
      exact (hlo ':' (by simp [hm])).2.2 rfl
    · intro hm
      exact (hlo ':' (by simp [hm])).2.2 rfl
  have habs : ∀ j, 1 ≤ j → lookupD
      (c1Dict st pos neg w h vperf vsampler vseed vguid vsharp vadm bm vver)
      (loraKey j) = none := by
    intro j _
    apply lookupD_none_of_keys
    intro p hp
    unfold c1Dict at hp
    fin_cases hp
    · exact Ne.symm (loraKey_ne j (lit "prompt") (by decide))
    · exact Ne.symm (loraKey_ne j (lit "negative_prompt") (by decide))
    · exact Ne.symm (loraKey_ne j (lit "styles") (by decide))
    · exact Ne.symm (loraKey_ne j (lit "adm_guidance") (by decide))
    · exact Ne.symm (loraKey_ne j (lit "guidance_scale") (by decide))
    · exact Ne.symm (loraKey_ne j (lit "lora_hashes") (by decide))
    · exact Ne.symm (loraKey_ne j (lit "base_model") (by decide))
    · exact Ne.symm (loraKey_ne j (lit "base_model_hash") (by decide))
    · exact Ne.symm (loraKey_ne j (lit "performance") (by decide))
    · exact Ne.symm (loraKey_ne j (lit "sampler") (by decide))
    · exact Ne.symm (loraKey_ne j (lit "seed") (by decide))
    · exact Ne.symm (loraKey_ne j (lit "sharpness") (by decide))
    · exact Ne.symm (loraKey_ne j (lit "resolution") (by decide))
    · exact Ne.symm (loraKey_ne j (lit "steps") (by decide))
    · exact Ne.symm (loraKey_ne j (lit "version") (by decide))
  have hloop2 := loraEntriesLoop_render lfs resolve st.loras 1
    (c1Dict st pos neg w h vperf vsampler vseed vguid vsharp vadm bm vver)
    hsplitcond hfindlora (fun j hj => habs j hj)
  have hlb : loraBlock loraFs reserved
      (c1Dict st pos neg w h vperf vsampler vseed vguid vsharp vadm bm vver) =
      .ok (c1Dict st pos neg w h vperf vsampler vseed vguid vsharp vadm bm
        vver ++ loraPairs resolve 1 st.loras) := by
    unfold loraBlock
    rw [show lookupD
        (c1Dict st pos neg w h vperf vsampler vseed vguid vsharp vadm bm vver)
        (lit "lora_hashes") = some (loraHashesString st.loras) from by
      unfold c1Dict
      rfl]
    simp only []
    rw [hrem]
    simp only []
    rw [pySplit_loraHashes st.loras hloras hcomma, hloop2]
  unfold parse_json
  rw [hdbl, hlb]

end A1111MetadataParser

theorem lookupD_append_left (a b : List (Str × Str)) (k : Str) (v : Str)
    (h : lookupD a k = some v) : lookupD (a ++ b) k = some v := by
  rw [lookupD_append, h]

theorem lookupD_append_right (a b : List (Str × Str)) (k : Str)
    (h : lookupD a k = none) : lookupD (a ++ b) k = lookupD b k := by
  rw [lookupD_append, h]

namespace A1111MetadataParser

theorem c1Dict_loraKey_none (st : ParserState)
    (pos neg w h vperf vsampler vseed vguid vsharp vadm bm vver : Str)
    (j : Nat) :
    lookupD (c1Dict st pos neg w h vperf vsampler vseed vguid vsharp vadm bm
      vver) (loraKey j) = none := by
  apply lookupD_none_of_keys
  intro p hp
  unfold c1Dict at hp
  fin_cases hp
  · exact Ne.symm (loraKey_ne j (lit "prompt") (by decide))
  · exact Ne.symm (loraKey_ne j (lit "negative_prompt") (by decide))
  · exact Ne.symm (loraKey_ne j (lit "styles") (by decide))
  · exact Ne.symm (loraKey_ne j (lit "adm_guidance") (by decide))
  · exact Ne.symm (loraKey_ne j (lit "guidance_scale") (by decide))
  · exact Ne.symm (loraKey_ne j (lit "lora_hashes") (by decide))
  · exact Ne.symm (loraKey_ne j (lit "base_model") (by decide))
  · exact Ne.symm (loraKey_ne j (lit "base_model_hash") (by decide))
  · exact Ne.symm (loraKey_ne j (lit "performance") (by decide))
  · exact Ne.symm (loraKey_ne j (lit "sampler") (by decide))
  · exact Ne.symm (loraKey_ne j (lit "seed") (by decide))
  · exact Ne.symm (loraKey_ne j (lit "sharpness") (by decide))
  · exact Ne.symm (loraKey_ne j (lit "resolution") (by decide))
  · exact Ne.symm (loraKey_ne j (lit "steps") (by decide))
  · exact Ne.symm (loraKey_ne j (lit "version") (by decide))

theorem C1_strip (st : ParserState)
    (pos neg w h vperf vsampler vseed vguid vsharp vadm bm vver : Str)
    (hconds : ∀ kv ∈ c1Pairs st w h vperf vsampler vseed vguid vsharp vadm
      bm vver, goodKey kv.1 = true ∧ goodScanVal kv.2 = true ∧ kv.1 ≠ kv.2)
    (gver2 : vver ≠ [])
    (hpos1 : pyStrip pos = pos) (hpos2 : pos ≠ []) :
    pyStrip (pos ++ (lit "\nNegative prompt: " ++ neg) ++ '\n' ::
        List.intercalate (lit ", ")
          ((c1Pairs st w h vperf vsampler vseed vguid vsharp vadm bm
            vver).map renderPair)) =
      pos ++ (lit "\nNegative prompt: " ++ neg) ++ '\n' ::
        List.intercalate (lit ", ")
          ((c1Pairs st w h vperf vsampler vseed vguid vsharp vadm bm
            vver).map renderPair) := by
  obtain ⟨hlnl, hlne, hllast⟩ := c1Line_facts st w h vperf vsampler vseed
    vguid vsharp vadm bm vver hconds gver2
  apply pyStrip_eq_self_of
  · intro c hc
    rw [List.append_assoc] at hc
    rw [head?_append_of_ne_nil pos _ hpos2] at hc
    exact pyStrip_head pos hpos1 c hc
  · intro c hc
    rw [show pos ++ (lit "\nNegative prompt: " ++ neg) ++ '\n' ::
        List.intercalate (lit ", ")
          ((c1Pairs st w h vperf vsampler vseed vguid vsharp vadm bm
            vver).map renderPair) =
        (pos ++ ((lit "\nNegative prompt: " ++ neg) ++ ['\n'])) ++
          List.intercalate (lit ", ")
            ((c1Pairs st w h vperf vsampler vseed vguid vsharp vadm bm
              vver).map renderPair) from by simp] at hc
    rw [getLast?_append_of_ne_nil _ _ hlne] at hc
    exact hllast c hc

/-- C1: round trip of the A1111 codec.  For a structured input built from
known inputs — the parser state `st` and the ordered entry list `metadata`
whose dict `data` holds well-formed values for the canonical keys, with
the base model and every LoRA resolvable in the collaborator filename
lists — serializing with `parse_string` succeeds with a text `T`, parsing
`T` back with `parse_json` succeeds, and the parsed dict preserves every
canonical key representable in both schemes: the prompts, the steps, the
sampler, the seed, the resolution, the guidance scale, the base model
(value, hence stem) and its hash, and the LoRA list (stems and weights);
moreover serializing the re-parsed entries reproduces exactly `T`, so the
serialize-after-parse composition also preserves them. -/
theorem C1_round_trip (st : ParserState)
    (extract : Str → Str → List Str × Str × Str) (s2p : Int → Option Str)
    (modelFs loraFs lfs : List Str) (reserved : Str) (resolve : Str → Str)
    (metadata : List (Str × Str × Str)) (data : List (Str × Str))
    (pos neg w h vperf vsampler vseed vguid vsharp vadm bm vver : Str)
    (hdata : A1111MetadataParser.entriesDict metadata = data)
    (hext : ∀ p n, extract p n = ([], p, n))
    (hposdef : List.intercalate (lit ", ") st.full_prompt = pos)
    (hnegdef : List.intercalate (lit ", ") st.full_negative_prompt = neg)
    (hpos1 : pyStrip pos = pos) (hpos2 : pos ≠ [])
    (hpos3 : A1111MetadataParser.negLabel.isPrefixOf pos = false)
    (hpos4 : '\n' ∉ pos)
    (hneg1 : pyStrip neg = neg) (hneg2 : neg ≠ []) (hneg4 : '\n' ∉ neg)
    (hres : lookupD data (lit "resolution") = some (pyReprPair w h))
    (hwne : w ≠ []) (hwd : ∀ c ∈ w, c.isDigit = true)
    (hhne : h ≠ []) (hhd : ∀ c ∈ h, c.isDigit = true)
    (hperf : lookupD data (lit "performance") = some vperf)
    (hsampler : lookupD data (lit "sampler") = some vsampler)
    (hseed : lookupD data (lit "seed") = some vseed)
    (hguid : lookupD data (lit "guidance_scale") = some vguid)
    (hsharp : lookupD data (lit "sharpness") = some vsharp)
    (hadm : lookupD data (lit "adm_guidance") = some vadm)
    (hbm : lookupD data (lit "base_model") = some bm)
    (hver : lookupD data (lit "version") = some vver)
    (hA : lookupD data (lit "adaptive_cfg") = none)
    (hO : lookupD data (lit "overwrite_switch") = none)
    (hR : lookupD data (lit "refiner_swap_method") = none)
    (hF : lookupD data (lit "freeu") = none)
    (gperf : goodParamVal (lit "Performance") vperf)
    (gsampler : goodParamVal (lit "Sampler") vsampler)
    (gseed : goodParamVal (lit "Seed") vseed)
    (gguid : goodParamVal (lit "CFG scale") vguid)
    (gsharp : goodParamVal (lit "Sharpness") vsharp)
    (gadm : goodParamVal (lit "ADM Guidance") vadm)
    (gver : goodParamVal (lit "Version") vver)
    (gmodel : goodParamVal (lit "Model") (pathStem bm))
    (gmhash : goodParamVal (lit "Model hash") st.base_model_hash)
    (hrefiner : st.refiner_model_name = [])
    (hloras : st.loras ≠ []) (hlok : ∀ l ∈ st.loras, loraOk l)
    (hrem : removeFirst loraFs reserved = some lfs)
    (hfindlora : ∀ l ∈ st.loras, findFile lfs l.1 = some (resolve l.1))
    (hfindbm : findFile modelFs (pathStem bm) = some bm) :
    ∃ T pdata,
      A1111MetadataParser.parse_string st [] metadata = Except.ok T ∧
      A1111MetadataParser.parse_json extract s2p modelFs loraFs reserved T =
        Except.ok pdata ∧
      lookupD pdata (lit "prompt") = some pos ∧
      lookupD pdata (lit "negative_prompt") = some neg ∧
      lookupD pdata (lit "steps") = some (intToStr st.steps) ∧
      lookupD pdata (lit "sampler") = some vsampler ∧
      lookupD pdata (lit "seed") = some vseed ∧
      lookupD pdata (lit "guidance_scale") = some vguid ∧
      lookupD pdata (lit "resolution") = some (pyReprPair w h) ∧
      lookupD pdata (lit "base_model") = some bm ∧
      lookupD pdata (lit "base_model_hash") = some st.base_model_hash ∧
      (∀ j, j < st.loras.length →
        lookupD pdata (A1111MetadataParser.loraKey (1 + j)) =
          some (resolve (st.loras.getD j ([], [], [])).1 ++ lit " : " ++
            (st.loras.getD j ([], [], [])).2.1) ∧
        pathStem (resolve (st.loras.getD j ([], [], [])).1) =
          (st.loras.getD j ([], [], [])).1) ∧
      A1111MetadataParser.parse_string st []
          (pdata.map (fun kv => (([] : Str), kv.1, kv.2))) =
        Except.ok T := by
  have hconds := A1111MetadataParser.c1Pairs_conds st w h vperf vsampler
    vseed vguid vsharp vadm bm vver hwne hwd hhd gperf gsampler gseed gguid
    gsharp gadm gver gmodel gmhash hloras hlok
  have hevalrepr := pyEvalPair_repr w h
    (fun c hc => digit_ne_apos c (hwd c hc))
    (fun c hc => digit_ne_apos c (hhd c hc))
  have hsortEq : sortByLabel (A1111MetadataParser.generationParams st [] data
      (w, h) vperf vsampler vseed vguid vsharp vadm bm vver) =
      A1111MetadataParser.c1Pairs st w h vperf vsampler vseed vguid vsharp
        vadm bm vver := by
    rw [A1111MetadataParser.sortedGP_eq st data w h vperf vsampler vseed
      vguid vsharp vadm bm vver hrefiner hA hO hR hF]
    rfl
  have hplcData : A1111MetadataParser.paramsLine st [] data =
      Except.ok (List.intercalate (lit ", ")
        ((A1111MetadataParser.c1Pairs st w h vperf vsampler vseed vguid
          vsharp vadm bm vver).map A1111MetadataParser.renderPair)) := by
    rw [A1111MetadataParser.paramsLine_compute st [] data (pyReprPair w h)
      w h vperf vsampler vseed vguid vsharp vadm bm vver hres hevalrepr
      hperf hsampler hseed hguid hsharp hadm hbm hver]
    rw [hsortEq]
  have hstr := A1111MetadataParser.C1_strip st pos neg w h vperf vsampler
    vseed vguid vsharp vadm bm vver hconds gver.2.1 hpos1 hpos2
  have hTser : A1111MetadataParser.parse_string st [] metadata =
      Except.ok (pos ++ (lit "\nNegative prompt: " ++ neg) ++ '\n' ::
        List.intercalate (lit ", ")
          ((A1111MetadataParser.c1Pairs st w h vperf vsampler vseed vguid
            vsharp vadm bm vver).map A1111MetadataParser.renderPair)) := by
    simp only [A1111MetadataParser.parse_string]
    rw [hdata, hplcData]
    simp only [bind, Except.bind]
    rw [hposdef, hnegdef, if_pos hneg2, hstr]
  have hparse := A1111MetadataParser.C1_parse st extract s2p modelFs loraFs
    lfs reserved resolve pos neg w h vperf vsampler vseed vguid vsharp vadm
    bm vver hext hpos1 hpos2 hpos3 hpos4 hneg1 hneg2 hneg4 hwne hwd hhne hhd
    gperf gsampler gseed gguid gsharp gadm gver gmodel gmhash hloras hlok
    hrem hfindlora hfindbm
  have hnodup : (((A1111MetadataParser.c1Dict st pos neg w h vperf vsampler
      vseed vguid vsharp vadm bm vver ++
      A1111MetadataParser.loraPairs resolve 1 st.loras).map
        Prod.fst)).Nodup := by
    rw [List.map_append, List.nodup_append]
    refine ⟨?_, A1111MetadataParser.loraPairs_fst_nodup resolve st.loras 1,
      ?_⟩
    · show ([lit "prompt", lit "negative_prompt", lit "styles",
        lit "adm_guidance", lit "guidance_scale", lit "lora_hashes",
        lit "base_model", lit "base_model_hash", lit "performance",
        lit "sampler", lit "seed", lit "sharpness", lit "resolution",
        lit "steps", lit "version"] : List Str).Nodup
      decide
    · intro k hk1 hk2
      obtain ⟨j, hj1, rfl⟩ := A1111MetadataParser.mem_loraPairs_fst resolve
        st.loras 1 _ hk2
      have hk1b : A1111MetadataParser.loraKey j ∈
          ([lit "prompt", lit "negative_prompt", lit "styles",
            lit "adm_guidance", lit "guidance_scale", lit "lora_hashes",
            lit "base_model", lit "base_model_hash", lit "performance",
            lit "sampler", lit "seed", lit "sharpness", lit "resolution",
            lit "steps", lit "version"] : List Str) := hk1
      simp only [List.mem_cons, List.not_mem_nil, or_false] at hk1b
      rcases hk1b with hx|hx|hx|hx|hx|hx|hx|hx|hx|hx|hx|hx|hx|hx|hx <;>
        exact A1111MetadataParser.loraKey_ne j _ (by decide) hx
  have hA2 : lookupD (A1111MetadataParser.c1Dict st pos neg w h vperf
      vsampler vseed vguid vsharp vadm bm vver ++
      A1111MetadataParser.loraPairs resolve 1 st.loras)
      (lit "adaptive_cfg") = none := by
    rw [lookupD_append_right _ _ _ (by rfl)]
    exact A1111MetadataParser.lookupD_loraPairs_none resolve _ (by decide)
      1 st.loras
  have hO2 : lookupD (A1111MetadataParser.c1Dict st pos neg w h vperf
      vsampler vseed vguid vsharp vadm bm vver ++
      A1111MetadataParser.loraPairs resolve 1 st.loras)
      (lit "overwrite_switch") = none := by
    rw [lookupD_append_right _ _ _ (by rfl)]
    exact A1111MetadataParser.lookupD_loraPairs_none resolve _ (by decide)
      1 st.loras
  have hR2 : lookupD (A1111MetadataParser.c1Dict st pos neg w h vperf
      vsampler vseed vguid vsharp vadm bm vver ++
      A1111MetadataParser.loraPairs resolve 1 st.loras)
      (lit "refiner_swap_method") = none := by
    rw [lookupD_append_right _ _ _ (by rfl)]
    exact A1111MetadataParser.lookupD_loraPairs_none resolve _ (by decide)
      1 st.loras
  have hF2 : lookupD (A1111MetadataParser.c1Dict st pos neg w h vperf
      vsampler vseed vguid vsharp vadm bm vver ++
      A1111MetadataParser.loraPairs resolve 1 st.loras)
      (lit "freeu") = none := by
    rw [lookupD_append_right _ _ _ (by rfl)]
    exact A1111MetadataParser.lookupD_loraPairs_none resolve _ (by decide)
      1 st.loras
  have hsortEq2 : sortByLabel (A1111MetadataParser.generationParams st []
      (A1111MetadataParser.c1Dict st pos neg w h vperf vsampler vseed vguid
        vsharp vadm bm vver ++
        A1111MetadataParser.loraPairs resolve 1 st.loras)
      (w, h) vperf vsampler vseed vguid vsharp vadm bm vver) =
      A1111MetadataParser.c1Pairs st w h vperf vsampler vseed vguid vsharp
        vadm bm vver := by
    rw [A1111MetadataParser.sortedGP_eq st _ w h vperf vsampler vseed
      vguid vsharp vadm bm vver hrefiner hA2 hO2 hR2 hF2]
    rfl
  have hplc2 : A1111MetadataParser.paramsLine st []
      (A1111MetadataParser.c1Dict st pos neg w h vperf vsampler vseed vguid
        vsharp vadm bm vver ++
        A1111MetadataParser.loraPairs resolve 1 st.loras) =
      Except.ok (List.intercalate (lit ", ")
        ((A1111MetadataParser.c1Pairs st w h vperf vsampler vseed vguid
          vsharp vadm bm vver).map A1111MetadataParser.renderPair)) := by
    rw [A1111MetadataParser.paramsLine_compute st [] _ (pyReprPair w h)
      w h vperf vsampler vseed vguid vsharp vadm bm vver
      (lookupD_append_left _ _ _ _ (by rfl)) hevalrepr
      (lookupD_append_left _ _ _ _ (by rfl)) (lookupD_append_left _ _ _ _ (by rfl))
      (lookupD_append_left _ _ _ _ (by rfl)) (lookupD_append_left _ _ _ _ (by rfl))
      (lookupD_append_left _ _ _ _ (by rfl)) (lookupD_append_left _ _ _ _ (by rfl))
      (lookupD_append_left _ _ _ _ (by rfl)) (lookupD_append_left _ _ _ _ (by rfl))]
    rw [hsortEq2]
  have hreser : A1111MetadataParser.parse_string st []
      ((A1111MetadataParser.c1Dict st pos neg w h vperf vsampler vseed vguid
        vsharp vadm bm vver ++
        A1111MetadataParser.loraPairs resolve 1 st.loras).map
          (fun kv => (([] : Str), kv.1, kv.2))) =
      Except.ok (pos ++ (lit "\nNegative prompt: " ++ neg) ++ '\n' ::
        List.intercalate (lit ", ")
          ((A1111MetadataParser.c1Pairs st w h vperf vsampler vseed vguid
            vsharp vadm bm vver).map A1111MetadataParser.renderPair)) := by
    simp only [A1111MetadataParser.parse_string]
    rw [entriesDict_triples _ hnodup, hplc2]
    simp only [bind, Except.bind]
    rw [hposdef, hnegdef, if_pos hneg2, hstr]
  refine ⟨_, _, hTser, hparse, ?_, ?_, ?_, ?_, ?_, ?_, ?_, ?_, ?_, ?_,
    hreser⟩
  · exact lookupD_append_left _ _ _ _ (by rfl)
  · exact lookupD_append_left _ _ _ _ (by rfl)
  · exact lookupD_append_left _ _ _ _ (by rfl)
  · exact lookupD_append_left _ _ _ _ (by rfl)
  · exact lookupD_append_left _ _ _ _ (by rfl)
  · exact lookupD_append_left _ _ _ _ (by rfl)
  · exact lookupD_append_left _ _ _ _ (by rfl)
  · exact lookupD_append_left _ _ _ _ (by rfl)
  · exact lookupD_append_left _ _ _ _ (by rfl)
  · intro j hj
    have hmem : st.loras.getD j ([], [], []) ∈ st.loras := by
      rw [List.getD_eq_getElem st.loras ([], [], []) hj]
      exact List.getElem_mem hj
    constructor
    · rw [lookupD_append_right _ _ _
        (A1111MetadataParser.c1Dict_loraKey_none st pos neg w h vperf
          vsampler vseed vguid vsharp vadm bm vver (1 + j))]
      exact A1111MetadataParser.lookupD_loraPairs_at resolve st.loras 1 j hj
    · exact findFile_stem lfs _ _ (hfindlora _ hmem)

set_option maxHeartbeats 2000000 in
set_option maxRecDepth 4000 in
/-- Witness for C1: a concrete one-LoRA state and data dict with
resolution 1024x768 round-trips through serialize and parse. -/
theorem C1_round_trip_witness :
    ∃ T pdata,
      parse_string c1WitnessState []
          (c1WitnessData.map (fun kv => (([] : Str), kv.1, kv.2))) =
        Except.ok T ∧
      parse_json extractNone (fun _ => none) [lit "mybm.safetensors"]
          [lit "sdxl_lcm_lora.safetensors", lit "myl.safetensors"]
          (lit "sdxl_lcm_lora.safetensors") T = Except.ok pdata ∧
      lookupD pdata (lit "prompt") = some (lit "cat") ∧
      lookupD pdata (lit "negative_prompt") = some (lit "dog") ∧
      lookupD pdata (lit "steps") = some (intToStr c1WitnessState.steps) ∧
      lookupD pdata (lit "sampler") = some (lit "euler") ∧
      lookupD pdata (lit "seed") = some (lit "12345") ∧
      lookupD pdata (lit "guidance_scale") = some (lit "4.0") ∧
      lookupD pdata (lit "resolution") =
        some (pyReprPair (lit "1024") (lit "768")) ∧
      lookupD pdata (lit "base_model") = some (lit "mybm.safetensors") ∧
      lookupD pdata (lit "base_model_hash") =
        some c1WitnessState.base_model_hash ∧
      (∀ j, j < c1WitnessState.loras.length →
        lookupD pdata (loraKey (1 + j)) =
          some (c1Resolve (c1WitnessState.loras.getD j ([], [], [])).1 ++
            lit " : " ++ (c1WitnessState.loras.getD j ([], [], [])).2.1) ∧
        pathStem (c1Resolve (c1WitnessState.loras.getD j ([], [], [])).1) =
          (c1WitnessState.loras.getD j ([], [], [])).1) ∧
      parse_string c1WitnessState []
          (pdata.map (fun kv => (([] : Str), kv.1, kv.2))) =
        Except.ok T :=
  by
  apply C1_round_trip c1WitnessState extractNone (fun _ => none)
    [lit "mybm.safetensors"]
    [lit "sdxl_lcm_lora.safetensors", lit "myl.safetensors"]
    [lit "myl.safetensors"]
    (lit "sdxl_lcm_lora.safetensors") c1Resolve
    (c1WitnessData.map (fun kv => (([] : Str), kv.1, kv.2))) c1WitnessData
    (lit "cat") (lit "dog") (lit "1024") (lit "768") (lit "Speed")
    (lit "euler") (lit "12345") (lit "4.0") (lit "2.0")
    (lit "(1.5, 0.8, 0.3)") (lit "mybm.safetensors") (lit "Fooocus v2.1.0")
  case hdata => decide
  case hext => exact fun p n => rfl
  all_goals decide

end A1111MetadataParser

end Metadata
